import Mathlib

/-! # Navigation tree of the documentation generator

A shallow embedding of `nav/folder.go`: the folder tree, its lookup helpers, the tree builder
`CreateFolderIfNotExist`, the ordering policy (`sortFolders`, `sortPages`), the sidebar
renderer `getAsNavTreeHtmlAux` and the recursive writer `WriteChildrenHtmlToOutputhPath`.

Conventions of the embedding.

* A Go `string` is a Lean `String`; the byte-wise work of the `strings` package is done on the
  character list `String.data`.
* The folders reachable from a `*Folder` form a tree, so a folder is a value of the inductive
  type `Folder` holding its child folders. The back pointer `ParentFolder` is implicit in the
  position of a node and is not stored.
* A `*Folder` returned by a method is a `FolderRef`: the list of child positions leading from
  the receiver to the node (`[]` is the receiver itself). A nil pointer is `none`.
* A method that mutates its receiver returns the receiver after the call.
* `sort.Sort` is library code. On a slice of at most 12 elements it runs the insertion sort
  of the package `sort`, which is embedded as `insertionSort`. What it does to a longer slice
  is a parameter, `LongSliceSort`, of which only that it rearranges the slice is built in;
  that it sorts is a hypothesis of the theorems that need it.
-/

namespace Nav

/-! ## The Go string operations used by the package -/

/-- Go's `a < b` on strings, on the character lists: lexicographic, the shorter of two lists
being smaller when it is a prefix of the other. Go compares the bytes of the UTF-8 encoding,
which orders two strings as their characters do. -/
def lexLess : List Char → List Char → Bool
  | [], [] => false
  | [], _ :: _ => true
  | _ :: _, [] => false
  | a :: as, b :: bs =>
    if a.toNat < b.toNat then true
    else if b.toNat < a.toNat then false
    else lexLess as bs

/-- Go's `a < b` on strings. -/
def stringLess (a b : String) : Bool := lexLess a.data b.data

/-- The test of `strings.HasPrefix` on character lists: `p` starts `s`. -/
def hasPrefixChars : List Char → List Char → Bool
  | _, [] => true
  | [], _ :: _ => false
  | c :: cs, p :: ps => if c = p then hasPrefixChars cs ps else false

/-- strings.HasPrefix(s, prefix). -/
def stringsHasPrefix (s pre : String) : Bool := hasPrefixChars s.data pre.data

/-- The first occurrence of `old` in the list is replaced by `new`. -/
def replaceFirstChars (old new : List Char) : List Char → List Char
  | [] => if old = [] then new else []
  | c :: cs =>
    if hasPrefixChars (c :: cs) old then new ++ (c :: cs).drop old.length
    else c :: replaceFirstChars old new cs

/-- strings.Replace(s, old, new, 1): only the first occurrence of `old` is replaced. -/
def stringsReplaceFirst (s old new : String) : String :=
  ⟨replaceFirstChars old.data new.data s.data⟩

/-- Cutting a character list at every separator; `n` separators give `n + 1` pieces. -/
def splitChars (sep : Char) : List Char → List (List Char)
  | [] => [[]]
  | c :: cs =>
    if c = sep then [] :: splitChars sep cs
    else
      match splitChars sep cs with
      | [] => [[c]]
      | piece :: pieces => (c :: piece) :: pieces

/-- strings.Split(s, sep) for a separator of one character. -/
def stringsSplit (s : String) (sep : Char) : List String :=
  (splitChars sep s.data).map String.mk

/-- The pieces written one after the other with the separator between them. -/
def joinChars (sep : Char) : List (List Char) → List Char
  | [] => []
  | [piece] => piece
  | piece :: next :: pieces => piece ++ sep :: joinChars sep (next :: pieces)

/-- strings.Join(elems, sep) for a separator of one character. -/
def stringsJoin (elems : List String) (sep : Char) : String :=
  ⟨joinChars sep (elems.map String.data)⟩

/-- One element of the path met by `filepath.Clean`, `out` being the elements kept so far, last
one first: empty elements and `.` are dropped, `..` removes the element before it when that is
a name, is dropped at the top of a rooted path and is kept otherwise. -/
def cleanStep (rooted : Bool) (out : List (List Char)) (elem : List Char) : List (List Char) :=
  if elem = [] ∨ elem = ['.'] then out
  else if elem = ['.', '.'] then
    match out with
    | [] => if rooted then [] else [elem]
    | last :: before => if last = ['.', '.'] then elem :: out else before
  else elem :: out

/-- Go's filepath.Clean with `/` as the separator: the shortest path naming the same place by
purely lexical processing. -/
def filepathClean (path : String) : String :=
  if path = "" then "."
  else
    let rooted := hasPrefixChars path.data ['/']
    let out := ((splitChars '/' path.data).foldl (cleanStep rooted) []).reverse
    if rooted then ⟨'/' :: joinChars '/' out⟩
    else if out = [] then "."
    else ⟨joinChars '/' out⟩

/-- Go's filepath.Join: the elements from the first non-empty one on are joined with `/` and
the result is cleaned; without a non-empty element the result is the empty string. -/
def filepathJoin : List String → String
  | [] => ""
  | e :: es => if e = "" then filepathJoin es else filepathClean (stringsJoin (e :: es) '/')

/-! ## The data model -/

/-- The part of a `Page` (declared in another file of the package) that folder.go uses: the
title, and `addr`, the identity of the page, which stands for its address when two `*Page`
are compared with `==`. -/
structure Page where
  addr : Nat
  Title : String
deriving DecidableEq, Repr

/-- The struct `Folder`. -/
inductive Folder where
  | mk (OutputPath Name : String) (ChildPages : List Page) (ChildFolders : List Folder)
      (IsRoot IsPackageFolder IsModuleFolder : Bool)
deriving Repr

/-- A `*Folder` inside the tree of a receiver: the child positions from the receiver down. -/
abbrev FolderRef := List Nat

namespace Folder

/-- The field `OutputPath`. -/
def OutputPath : Folder → String
  | mk p _ _ _ _ _ _ => p

/-- The field `Name`. -/
def Name : Folder → String
  | mk _ n _ _ _ _ _ => n

/-- The field `ChildPages`. -/
def ChildPages : Folder → List Page
  | mk _ _ ps _ _ _ _ => ps

/-- The field `ChildFolders`. -/
def ChildFolders : Folder → List Folder
  | mk _ _ _ cs _ _ _ => cs

/-- The field `IsRoot`. -/
def IsRoot : Folder → Bool
  | mk _ _ _ _ r _ _ => r

/-- The field `IsPackageFolder`. -/
def IsPackageFolder : Folder → Bool
  | mk _ _ _ _ _ p _ => p

/-- The field `IsModuleFolder`. -/
def IsModuleFolder : Folder → Bool
  | mk _ _ _ _ _ _ m => m

/-- Assignment to the field `ChildFolders`. -/
def setChildFolders : Folder → List Folder → Folder
  | mk p n ps _ r pk m, cs => mk p n ps cs r pk m

/-- Assignment to the field `ChildPages`. -/
def setChildPages : Folder → List Page → Folder
  | mk p n _ cs r pk m, ps => mk p n ps cs r pk m

/-- The node a reference points to, `none` when the reference leaves the tree. -/
def deref (f : Folder) : FolderRef → Option Folder
  | [] => some f
  | i :: rest =>
    match f.ChildFolders[i]? with
    | some child => child.deref rest
    | none => none

/-- AddFolder: the child is appended to the child folders of `f`. -/
def AddFolder (f childFolder : Folder) : Folder :=
  f.setChildFolders (f.ChildFolders ++ [childFolder])

/-- AddPage: the page is appended to the child pages of `f`. -/
def AddPage (f : Folder) (childPage : Page) : Folder :=
  f.setChildPages (f.ChildPages ++ [childPage])

mutual
/-- ContainsFolderRecursive: the name test on `f`, then the loop over its child folders. -/
def ContainsFolderRecursive : Folder → String → Bool
  | mk _ n _ cs _ _ _, folderName =>
    if n = folderName then true else containsFolderLoop cs folderName
/-- The loop `for _, folder := range f.ChildFolders` of ContainsFolderRecursive. -/
def containsFolderLoop : List Folder → String → Bool
  | [], _ => false
  | folder :: rest, folderName =>
    if ContainsFolderRecursive folder folderName then true
    else containsFolderLoop rest folderName
end

/-- The loop of HasChildFolder over the child folders. -/
def hasChildFolderLoop (folderName : String) : List Folder → Bool
  | [] => false
  | folder :: rest => if folder.Name = folderName then true else hasChildFolderLoop folderName rest

/-- HasChildFolder. -/
def HasChildFolder (f : Folder) (folderName : String) : Bool :=
  hasChildFolderLoop folderName f.ChildFolders

/-- The loop of GetChildFolder: the position of the first folder of that name. -/
def getChildFolderLoop (folderName : String) : List Folder → Option Nat
  | [] => none
  | folder :: rest =>
    if folder.Name = folderName then some 0
    else (getChildFolderLoop folderName rest).map (· + 1)

/-- GetChildFolder: the first direct child of that name, as a reference from `f`; `none` is
the nil result. -/
def GetChildFolder (f : Folder) (folderName : String) : Option FolderRef :=
  (getChildFolderLoop folderName f.ChildFolders).map (fun i => [i])

mutual
/-- GetFolder: `f` itself when its name matches, otherwise the child found by the loop over
the child folders. -/
def GetFolder : Folder → String → Option FolderRef
  | mk _ n _ cs _ _ _, folderName =>
    if n = folderName then some [] else (getFolderLoop cs folderName).map (fun i => [i])
/-- The loop of GetFolder: at the first child `folder` for which the recursive call is not
nil, `return folder`; the result is the position of that child. -/
def getFolderLoop : List Folder → String → Option Nat
  | [], _ => none
  | folder :: rest, folderName =>
    if (GetFolder folder folderName).isSome then some 0
    else (getFolderLoop rest folderName).map (· + 1)
end

end Folder

/-! ## Paths -/

/-- getStandardizedPath: a leading `/` is removed, then a leading `./` is removed. -/
def getStandardizedPath (path : String) : String :=
  let path := if stringsHasPrefix path "/" then stringsReplaceFirst path "/" "" else path
  let path := if stringsHasPrefix path "./" then stringsReplaceFirst path "./" "" else path
  path

/-- getTopFolderNameInPath: the first piece of the standardized path and the number of pieces
after it. -/
def getTopFolderNameInPath (folderPath : String) : String × Nat :=
  let folderPath := getStandardizedPath folderPath
  let folderNames := stringsSplit folderPath '/'
  let numRemainingFolders := folderNames.length - 1
  (folderNames.headD "", numRemainingFolders)

/-- Modelled from the spec: `util.GetStrSliceTail` is declared in the package `util`, which is
not among the sources. The tree builder walks the path "one path segment at a time", so the
tail of a slice is the slice without its first element. -/
def GetStrSliceTail (slice : List String) : List String := slice.tail

/-- getFolderPathTail: the standardized path without its first piece. -/
def getFolderPathTail (folderPath : String) : String :=
  let folderPath := getStandardizedPath folderPath
  let folderNames := stringsSplit folderPath '/'
  let folderNamesTail := GetStrSliceTail folderNames
  let folderNamesTailStr := stringsJoin folderNamesTail '/'
  folderNamesTailStr

/-- The number of pieces `strings.Split(path, "/")` cuts a path into. -/
def numPieces (path : String) : Nat := (stringsSplit path '/').length

/-! ## Constructors -/

/-- The regular expressions `OUTPUT_PATH_IS_PACKAGE_FOLDER_REGEX` and
`OUTPUT_PATH_IS_MODULE_FOLDER_REGEX` are constants declared outside folder.go. What
`regex.MatchString` answers for each of them is a parameter of the model. -/
structure PathRegexes where
  matchesPackageFolderRegex : String → Bool
  matchesModuleFolderRegex : String → Bool

/-- NewRootFolder. -/
def NewRootFolder : Folder :=
  Folder.mk "" "ROOT-FOLDER" [] [] true false false

/-- NewFolder. -/
def NewFolder (rx : PathRegexes) (path name : String) : Folder :=
  Folder.mk path name [] [] false (rx.matchesPackageFolderRegex path)
    (rx.matchesModuleFolderRegex path)

/-- Modelled from the spec: the two regular expressions are not among the sources. The spec
describes them as patterns over path segments: a package folder is one directly inside a
top-level `packages` segment, a module folder one inside the `modules` segment of a package.
This instance serves to run the builder on concrete paths. -/
def segmentRegexes : PathRegexes where
  matchesPackageFolderRegex := fun path =>
    match stringsSplit path '/' with
    | ["packages", _] => true
    | _ => false
  matchesModuleFolderRegex := fun path =>
    match stringsSplit path '/' with
    | ["packages", _, "modules", _] => true
    | _ => false

/-! ## The tree builder -/

namespace Folder

/-- The child at position `i` is replaced by `child`. -/
def setChildAt (f : Folder) (i : Nat) (child : Folder) : Folder :=
  f.setChildFolders (f.ChildFolders.set i child)

/-- The first part of CreateFolderIfNotExist, the same in the base case and in the recursive
case: the child named `folderNameToCreate` is looked up and, when there is none, made with
NewFolder and attached with AddFolder. The result is the receiver after this and the
reference to the child. -/
def getOrCreateChild (rx : PathRegexes) (f : Folder) (folderNameToCreate : String) :
    Folder × Option FolderRef :=
  if f.HasChildFolder folderNameToCreate then
    (f, f.GetChildFolder folderNameToCreate)
  else
    let newChildFolderPath := filepathJoin [f.OutputPath, folderNameToCreate]
    let childFolder := NewFolder rx newChildFolderPath folderNameToCreate
    (f.AddFolder childFolder, some [f.ChildFolders.length])

/-- CreateFolderIfNotExist with a bound on the depth of the recursion. The call on the child
is made on the node the reference points to; its result replaces that node, and the reference
it returns is read from the receiver. A nil `childFolder` or an exhausted bound gives nil. -/
def createFolderIfNotExistFuel (rx : PathRegexes) : Nat → Folder → String →
    Folder × Option FolderRef
  | 0, f, _ => (f, none)
  | fuel + 1, f, folderPath =>
    let folderPath := getStandardizedPath folderPath
    let (folderNameToCreate, numRemainingFolders) := getTopFolderNameInPath folderPath
    if numRemainingFolders = 0 then
      getOrCreateChild rx f folderNameToCreate
    else
      let (f, childFolder) := getOrCreateChild rx f folderNameToCreate
      let folderPathTail := getFolderPathTail folderPath
      match childFolder with
      | some [i] =>
        match f.ChildFolders[i]? with
        | some child =>
          let (child, result) := createFolderIfNotExistFuel rx fuel child folderPathTail
          (f.setChildAt i child, result.map (i :: ·))
        | none => (f, none)
      | _ => (f, none)

/-- CreateFolderIfNotExist: every recursive call is made on a path with fewer pieces, so the
number of pieces of the path bounds the depth of the recursion. -/
def CreateFolderIfNotExist (rx : PathRegexes) (f : Folder) (folderPath : String) :
    Folder × Option FolderRef :=
  createFolderIfNotExistFuel rx (stringsSplit folderPath '/').length f folderPath

end Folder

/-! ## The ordering policy -/

/-- The inner loop of the insertion sort of Go's package `sort`,
`for j := i; j > a && data.Less(j, j-1); j-- { data.Swap(j, j-1) }`: `x` is the element that
started at position `i`, and the list holds the elements to its left, nearest first. While
`x` is less than its left neighbour the two are swapped. The result is the sorted part with
`x` in it, again last element first. -/
def insertLoop {α : Type} (less : α → α → Bool) (x : α) : List α → List α
  | [] => [x]
  | y :: before => if less x y then y :: insertLoop less x before else x :: y :: before

/-- The insertion sort of Go's package `sort`, `insertionSort(data, a, b)` on the whole slice:
`for i := a + 1; i < b; i++ { ...inner loop... }`. It uses `data` only through `Less` and
`Swap`; `less x y` is `data.Less(i, j)` for `x` at position `i` and `y` at position `j`. -/
def insertionSort {α : Type} (less : α → α → Bool) (data : List α) : List α :=
  (data.foldl (fun sorted x => insertLoop less x sorted) []).reverse

/-- What Go's `sort.Sort` does to a slice of more than 12 elements, where it runs the
pattern-defeating quicksort of the package `sort` and not the insertion sort. The package is
not part of the repository, so this is a parameter of the model: `pdqsort less data` is the
slice after the sort, for the comparison `less` of two elements, and `rearranges` is the one
fact about it that holds for every comparison, that the slice is changed by `Swap` only. The
order in which a long slice is left is not fixed by the model: the sort is not stable, and
what it gives with a comparison that is no strict weak order depends on its pivots. -/
structure LongSliceSort where
  pdqsort : {α : Type} → (α → α → Bool) → List α → List α
  rearranges : ∀ {α : Type} (less : α → α → Bool) (data : List α),
    12 < data.length → (pdqsort less data).Perm data

/-- Go's `sort.Sort(data)`: `pdqsort(data, 0, n, limit)`, which on a slice of at most 12
elements (`maxInsertion`) is `insertionSort(data, 0, n)`, and on a longer slice is the
quicksort `longSort`. -/
def sortSort {α : Type} (longSort : LongSliceSort) (less : α → α → Bool) (data : List α) :
    List α :=
  if data.length ≤ 12 then insertionSort less data else longSort.pdqsort less data

/-- The insertion sort run on a slice of every length: a sort with which the definitions can
be evaluated. It stands where the quicksort of the library would be called, on slices of more
than 12 elements, and need not leave such a slice in the order the library does; no closed
example of this development sorts more than 12 elements. -/
def insertionLongSliceSort : LongSliceSort where
  pdqsort := fun less data => insertionSort less data
  rearranges := by
    intro α less data _
    have hins : ∀ (x : α) (l : List α), (insertLoop less x l).Perm (x :: l) := by
      intro x l
      induction l with
      | nil => exact List.Perm.refl _
      | cons y before ih =>
        unfold insertLoop
        by_cases hxy : less x y = true
        · rw [if_pos hxy]
          exact ((List.Perm.cons y ih).trans (List.Perm.swap x y before))
        · rw [if_neg hxy]
    have hfold : ∀ (rest sorted : List α),
        (rest.foldl (fun sorted x => insertLoop less x sorted) sorted).Perm (rest ++ sorted) := by
      intro rest
      induction rest with
      | nil => intro sorted; exact List.Perm.refl _
      | cons x rest ih =>
        intro sorted
        refine (ih (insertLoop less x sorted)).trans ?_
        refine (List.Perm.append_left rest (hins x sorted)).trans ?_
        simp
    unfold insertionSort
    refine (List.reverse_perm _).trans ?_
    simpa using hfold data []

/-- What Folders.Less compares: the names of the two folders. -/
def folderLess (a b : Folder) : Bool := stringLess a.Name b.Name

/-- Folders.Less. -/
def Folders.Less (folders : List Folder) (i j : Nat) : Bool :=
  match folders[i]?, folders[j]? with
  | some a, some b => folderLess a b
  | _, _ => false

/-- sortFolders: `sort.Sort(Folders(folders))`. -/
def sortFolders (longSort : LongSliceSort) (folders : List Folder) : List Folder :=
  sortSort longSort folderLess folders

/-- What Pages.Less compares: a page titled `Overview` is less than any page; otherwise no
page is less than a page titled `Overview`; otherwise the titles decide. -/
def pageLess (a b : Page) : Bool :=
  if a.Title = "Overview" then true
  else if b.Title = "Overview" then false
  else stringLess a.Title b.Title

/-- Pages.Less. -/
def Pages.Less (pages : List Page) (i j : Nat) : Bool :=
  match pages[i]?, pages[j]? with
  | some a, some b => pageLess a b
  | _, _ => false

/-- sortPages: `sort.Sort(Pages(pages))`. -/
def sortPages (longSort : LongSliceSort) (pages : List Page) : List Page :=
  sortSort longSort pageLess pages

/-! ## The sidebar renderer -/

/-- The functions used by the renderer that are declared outside folder.go:
`convertDashesToSpacesAndCapitalize`, `reorderFoldersToMatchTopLevelFolderOrdering`, the
method `GetRelPathToPage` of `Page`, with the receiver as its first argument, and the part of
`sort.Sort` that is run on slices of more than 12 elements. They are parameters of the
model. -/
structure NavHelpers where
  convertDashesToSpacesAndCapitalize : String → String
  reorderFoldersToMatchTopLevelFolderOrdering : List Folder → List Folder
  GetRelPathToPage : Page → Page → String
  longSort : LongSliceSort

/-- Helpers that change nothing: names and titles are displayed as they are, the top-level
folders keep their order, and the link to a page is its title. They serve to run the renderer
on concrete trees; no slice of these trees has more than 12 elements, so the sort of long
slices is not called on them. -/
def plainHelpers : NavHelpers where
  convertDashesToSpacesAndCapitalize := fun s => s
  reorderFoldersToMatchTopLevelFolderOrdering := fun folders => folders
  GetRelPathToPage := fun _ page => page.Title
  longSort := insertionLongSliceSort

namespace Folder

mutual
/-- The number of levels of folders in the tree of `f`, `f` included. -/
def depth : Folder → Nat
  | mk _ _ _ cs _ _ _ => depthList cs + 1
/-- The largest depth among the folders of a list. -/
def depthList : List Folder → Nat
  | [] => 0
  | c :: cs => max (depth c) (depthList cs)
end

/-- The role classes of the list item of `childFolder`, the three `if` statements on
`cssClasses`; `isRoot` is `f.IsRoot` of the folder being rendered. -/
def cssClassesOf (isRoot : Bool) (childFolder : Folder) : String :=
  let cssClasses := ""
  let cssClasses := if isRoot then " top_level_folder" else cssClasses
  let cssClasses := if childFolder.IsPackageFolder then " package_folder" else cssClasses
  let cssClasses := if childFolder.IsModuleFolder then " module_folder" else cssClasses
  cssClasses

/-- The list item of one page of a child folder. -/
def pageItem (h : NavHelpers) (activePage childPage : Page) : String :=
  let childPageTitle := h.convertDashesToSpacesAndCapitalize childPage.Title
  if childPage.addr = activePage.addr then
    "<li class='page'><a class='active' href='#'>" ++ childPageTitle ++ "</a></li>"
  else
    "<li class='page'><a href='" ++ h.GetRelPathToPage activePage childPage ++ "'>" ++
      childPageTitle ++ "</a></li>"

/-- The loop `for _, childPage := range childFolder.ChildPages`. -/
def pageItems (h : NavHelpers) (activePage : Page) : List Page → String
  | [] => ""
  | childPage :: rest => pageItem h activePage childPage ++ pageItems h activePage rest

/-- The body of the loop over the child folders for one `childFolder`: its list item, from
`<li class='folder...'>` to `</li>`. `sub` is the fragment returned by the recursive call on
`childFolder`; the pages of `childFolder` are read before that call. -/
def childFolderItem (h : NavHelpers) (activePage : Page) (isRoot : Bool) (childFolder : Folder)
    (sub : String) : String :=
  let childFolderName :=
    if !childFolder.IsModuleFolder then h.convertDashesToSpacesAndCapitalize childFolder.Name
    else childFolder.Name
  let cssClasses := cssClassesOf isRoot childFolder
  let htmlOutput := "<li class='folder" ++ cssClasses ++ "'><a href='#'>" ++ childFolderName ++
    "</a>"
  let htmlOutput :=
    if childFolder.ChildPages.length > 0 then htmlOutput ++ "<ul class='hidden'>" else htmlOutput
  let htmlOutput := htmlOutput ++ pageItems h activePage childFolder.ChildPages
  let htmlOutput :=
    if childFolder.ChildPages.length > 0 then htmlOutput ++ "</ul>" else htmlOutput
  let htmlOutput := htmlOutput ++ sub
  htmlOutput ++ "</li>"

/-- The loop `for _, childFolder := range f.ChildFolders`: `recurse` is the recursive call
`childFolder.getAsNavTreeHtmlAux(activePage)`, which returns the fragment of the child and
the child after its own lists were sorted. The result is the text added to `htmlOutput` and
the child folders after the loop. -/
def childFolderItems (h : NavHelpers) (activePage : Page) (isRoot : Bool)
    (recurse : Folder → String × Folder) : List Folder → String × List Folder
  | [] => ("", [])
  | childFolder :: rest =>
    let sub := recurse childFolder
    let others := childFolderItems h activePage isRoot recurse rest
    (childFolderItem h activePage isRoot childFolder sub.1 ++ others.1, sub.2 :: others.2)

/-- The sorting step at the start of getAsNavTreeHtmlAux. -/
def sortChildren (h : NavHelpers) (f : Folder) : Folder :=
  if f.IsRoot then
    (f.setChildFolders (h.reorderFoldersToMatchTopLevelFolderOrdering f.ChildFolders)).setChildPages
      (sortPages h.longSort f.ChildPages)
  else
    (f.setChildFolders (sortFolders h.longSort f.ChildFolders)).setChildPages
      (sortPages h.longSort f.ChildPages)

/-- The opening of the folder list. -/
def listOpening (f : Folder) : String :=
  if f.ChildFolders.length > 0 && f.IsPackageFolder then "<ul class='hidden'>"
  else if f.ChildFolders.length > 0 then "<ul>"
  else ""

/-- The closing of the folder list. -/
def listClosing (f : Folder) : String :=
  if f.ChildFolders.length > 0 then "</ul>" else ""

/-- getAsNavTreeHtmlAux with a bound on the depth of the recursion: the fragment and the
folder after the call, whose lists, and those of its descendants, were sorted in place. -/
def navTreeHtmlFuel (h : NavHelpers) (activePage : Page) : Nat → Folder → String × Folder
  | 0, f => ("", f)
  | fuel + 1, f =>
    let f := sortChildren h f
    let items := childFolderItems h activePage f.IsRoot (navTreeHtmlFuel h activePage fuel)
      f.ChildFolders
    (listOpening f ++ items.1 ++ listClosing f, f.setChildFolders items.2)

/-- getAsNavTreeHtmlAux: the recursion descends one level of folders at a time, so the depth
of the tree bounds it. -/
def getAsNavTreeHtmlAux (h : NavHelpers) (f : Folder) (activePage : Page) : String × Folder :=
  navTreeHtmlFuel h activePage f.depth f

/-- GetAsNavTreeHtml: the conversion to `template.HTML` keeps the text. -/
def GetAsNavTreeHtml (h : NavHelpers) (f : Folder) (activePage : Page) : String × Folder :=
  getAsNavTreeHtmlAux h f activePage

end Folder

/-! ## The recursive writer -/

/-- What the recursive writer uses from outside folder.go: the method
`WriteFullPageHtmlToOutputPath` of `Page`, as the result it gives for a page with the
`rootFolder` and `rootOutputPath` of the walk (`none` is the nil error), and
`errors.WithStackTrace`. The write of a page is taken to leave the folder tree as it is. -/
structure PageWriter (ε : Type) where
  WriteFullPageHtmlToOutputPath : Page → Option ε
  WithStackTrace : ε → ε

namespace Folder

/-- The loop `for _, page := range f.ChildPages` of WriteChildrenHtmlToOutputhPath: the pages
on which the write was invoked, in the order of the calls, and the error returned from inside
the loop, `none` when the loop ends without one. -/
def writePagesLoop {ε : Type} (w : PageWriter ε) : List Page → List Page × Option ε
  | [] => ([], none)
  | page :: rest =>
    match w.WriteFullPageHtmlToOutputPath page with
    | some err => ([page], some (w.WithStackTrace err))
    | none => (page :: (writePagesLoop w rest).1, (writePagesLoop w rest).2)

mutual
/-- WriteChildrenHtmlToOutputhPath: the pages on which the write was invoked, in the order of
the calls, and the error returned, `none` for nil. -/
def WriteChildrenHtmlToOutputhPath {ε : Type} (w : PageWriter ε) :
    Folder → List Page × Option ε
  | mk _ _ ps cs _ _ _ =>
    match writePagesLoop w ps with
    | (written, some err) => (written, some err)
    | (written, none) => (written ++ (writeFoldersLoop w cs).1, (writeFoldersLoop w cs).2)
/-- The loop `for _, folder := range f.ChildFolders` of WriteChildrenHtmlToOutputhPath. -/
def writeFoldersLoop {ε : Type} (w : PageWriter ε) : List Folder → List Page × Option ε
  | [] => ([], none)
  | folder :: rest =>
    match WriteChildrenHtmlToOutputhPath w folder with
    | (written, some err) => (written, some (w.WithStackTrace err))
    | (written, none) => (written ++ (writeFoldersLoop w rest).1, (writeFoldersLoop w rest).2)
end

end Folder

/-! ## Vocabulary of the properties -/

/-- A path segment as a directory entry has it: not empty, without `/`, and neither `.` nor
`..`. -/
abbrev IsPlainSegment (s : String) : Prop :=
  s ≠ "" ∧ '/' ∉ s.data ∧ s ≠ "." ∧ s ≠ ".."

/-- The folders named by `segs`, each one the only child of the one before it; `done` are the
segments above the first of them, and a folder has the output path made of the segments down
to its own. It is returned as a child list: empty for no segment, else of one folder. -/
def nestedFolders (rx : PathRegexes) (done : List String) : List String → List Folder
  | [] => []
  | s :: rest =>
    [Folder.mk (stringsJoin (done ++ [s]) '/') s [] (nestedFolders rx (done ++ [s]) rest) false
      (rx.matchesPackageFolderRegex (stringsJoin (done ++ [s]) '/'))
      (rx.matchesModuleFolderRegex (stringsJoin (done ++ [s]) '/'))]

/-- The strings of a list written one after the other. -/
def concatAll : List String → String
  | [] => ""
  | s :: rest => s ++ concatAll rest

/-- A folder `docs` to which the pages titled Zeta, Overview and Beta were added in this
order. -/
def docsFolder : Folder :=
  Folder.mk "docs" "docs" [⟨1, "Zeta"⟩, ⟨2, "Overview"⟩, ⟨3, "Beta"⟩] [] false false false

/-- A root folder with the one child folder `docs`. -/
def docsTree : Folder :=
  Folder.mk "" "ROOT-FOLDER" [] [docsFolder] true false false

/-- A root folder with the page Home and two child folders: `docs` and `api`, which holds the
page Intro. -/
def siteTree : Folder :=
  Folder.mk "" "ROOT-FOLDER" [⟨7, "Home"⟩]
    [docsFolder, Folder.mk "api" "api" [⟨8, "Intro"⟩] [] false false false] true false false

/-- The reordering of the top-level folders returns a rearrangement of the folders it is
given. -/
def NavHelpers.ReorderIsPerm (h : NavHelpers) : Prop :=
  ∀ folders, (h.reorderFoldersToMatchTopLevelFolderOrdering folders).Perm folders

/-- The list without the leading `pre` when it begins with `pre`, the list itself otherwise. -/
def dropLeading (pre l : List Char) : List Char :=
  if hasPrefixChars l pre then l.drop pre.length else l

/-- The segments CreateFolderIfNotExist reads from a path, one at each level of its
recursion and in that order, with the bound on the depth of the recursion: the
`folderNameToCreate` of the level, which getTopFolderNameInPath takes from the standardized
path, followed, when pieces remain, by the segments read from the tail of the path, which is
the path of the recursive call. -/
def pathSegmentsFuel : Nat → String → List String
  | 0, _ => []
  | fuel + 1, folderPath =>
    let folderPath := getStandardizedPath folderPath
    let (folderNameToCreate, numRemainingFolders) := getTopFolderNameInPath folderPath
    if numRemainingFolders = 0 then [folderNameToCreate]
    else folderNameToCreate :: pathSegmentsFuel fuel (getFolderPathTail folderPath)

/-- The segments CreateFolderIfNotExist reads from a path: the names of the folders it looks
up and, where there is none, creates, from the receiver downwards. -/
def pathSegments (folderPath : String) : List String :=
  pathSegmentsFuel (stringsSplit folderPath '/').length folderPath

namespace Folder

mutual
/-- The Names of the folders of the tree of `f`, that of `f` first. -/
def allNames : Folder → List String
  | mk _ n _ cs _ _ _ => n :: allNamesList cs
/-- The Names of the folders of the trees of a list of folders. -/
def allNamesList : List Folder → List String
  | [] => []
  | c :: cs => allNames c ++ allNamesList cs
end

mutual
/-- No folder of the tree of `f` has two child folders of the same Name. -/
def UniqueSiblingNames : Folder → Prop
  | mk _ _ _ cs _ _ _ => (cs.map Folder.Name).Nodup ∧ uniqueSiblingNamesList cs
/-- Every folder of the list has the property UniqueSiblingNames. -/
def uniqueSiblingNamesList : List Folder → Prop
  | [] => True
  | c :: cs => UniqueSiblingNames c ∧ uniqueSiblingNamesList cs
end

end Folder

namespace Folder

mutual
/-- A folder as the tree builder makes it, with all the folders below it: it has no page and
is not the root, and the same holds for its descendants. -/
def IsNewSubtree : Folder → Prop
  | mk _ _ ps cs r _ _ => ps = [] ∧ r = false ∧ isNewSubtreeList cs
/-- Every folder of the list has the property IsNewSubtree. -/
def isNewSubtreeList : List Folder → Prop
  | [] => True
  | c :: cs => IsNewSubtree c ∧ isNewSubtreeList cs
end

mutual
/-- The tree `g` is the tree `f` with folders added: `g` has the OutputPath, Name, child
pages and flags of `f`, and its child folders are those of `f`, in their order and each one
with folders added in the same sense, followed by new folders. -/
def ExtendedBy : Folder → Folder → Prop
  | mk p n ps cs r pk m, g =>
    g.OutputPath = p ∧ g.Name = n ∧ g.ChildPages = ps ∧ g.IsRoot = r ∧
      g.IsPackageFolder = pk ∧ g.IsModuleFolder = m ∧ extendedByList cs g.ChildFolders
/-- The second list is the first one, folder by folder with folders added, followed by new
folders. -/
def extendedByList : List Folder → List Folder → Prop
  | [], added => isNewSubtreeList added
  | _ :: _, [] => False
  | c :: cs, d :: ds => ExtendedBy c d ∧ extendedByList cs ds
end

end Folder

namespace Folder

mutual
/-- The pages of the tree of `f` in pre-order: the pages of `f` in their stored order, then
those of the tree of each child folder, in the stored order of the child folders. -/
def allPages : Folder → List Page
  | mk _ _ ps cs _ _ _ => ps ++ allPagesList cs
/-- The pages of the trees of the folders of a list, in pre-order. -/
def allPagesList : List Folder → List Page
  | [] => []
  | c :: cs => allPages c ++ allPagesList cs
end

/-- A walk over `pages` with the result `res` stops at the first failure: either no write
fails, every page was written once in the order of `pages`, and nil is returned; or the
pages written are those up to and including the first page whose write fails, and the error
of that write is returned, under some number of stack traces. -/
def StopsAtFirstFailure {ε : Type} (w : PageWriter ε) (pages : List Page)
    (res : List Page × Option ε) : Prop :=
  ((∀ q ∈ pages, w.WriteFullPageHtmlToOutputPath q = none) ∧ res.1 = pages ∧ res.2 = none) ∨
    ∃ (before : List Page) (p : Page) (after : List Page) (err : ε) (k : Nat),
      pages = before ++ p :: after ∧
        (∀ q ∈ before, w.WriteFullPageHtmlToOutputPath q = none) ∧
        w.WriteFullPageHtmlToOutputPath p = some err ∧ res.1 = before ++ [p] ∧
        res.2 = some (w.WithStackTrace^[k] err)

end Folder

namespace Folder

/-- The pieces appended to `htmlOutput` by the body of the loop over the child folders for
one `childFolder`, in the order in which they are appended: the opening of the list item,
the opening of the list of pages when there are pages, one list item for each page, the
closing of that list, the pieces of the recursive call, `sub`, and `</li>`. -/
def childFolderPieces (h : NavHelpers) (activePage : Page) (isRoot : Bool) (childFolder : Folder)
    (sub : List String) : List String :=
  ["<li class='folder" ++ cssClassesOf isRoot childFolder ++ "'><a href='#'>" ++
      (if !childFolder.IsModuleFolder then
        h.convertDashesToSpacesAndCapitalize childFolder.Name
      else childFolder.Name) ++ "</a>"] ++
    (if childFolder.ChildPages.length > 0 then ["<ul class='hidden'>"] else []) ++
    childFolder.ChildPages.map (pageItem h activePage) ++
    (if childFolder.ChildPages.length > 0 then ["</ul>"] else []) ++ sub ++ ["</li>"]

/-- The pieces of which navTreeHtmlFuel makes the fragment, in the order in which they are
appended to `htmlOutput`. -/
def navTreePiecesFuel (h : NavHelpers) (activePage : Page) : Nat → Folder → List String
  | 0, _ => []
  | fuel + 1, f =>
    (if (sortChildren h f).ChildFolders.length > 0 then [listOpening (sortChildren h f)]
      else []) ++
      (sortChildren h f).ChildFolders.flatMap (fun c =>
        childFolderPieces h activePage (sortChildren h f).IsRoot c
          (navTreePiecesFuel h activePage fuel c)) ++
      (if (sortChildren h f).ChildFolders.length > 0 then [listClosing (sortChildren h f)]
      else [])

/-- The pieces of which getAsNavTreeHtmlAux makes the fragment. -/
def fragmentPieces (h : NavHelpers) (f : Folder) (activePage : Page) : List String :=
  navTreePiecesFuel h activePage f.depth f

/-- The piece is a list item of a page in the highlighted form: it begins with
`<li class='page'><a class='active' href='#'>`. -/
def isActiveItem (piece : String) : Bool :=
  stringsHasPrefix piece "<li class='page'><a class='active' href='#'>"

end Folder

/-- The comparison `less` is a strict weak ordering, which is what `sort.Sort` asks of `Less`:
no element is less than itself, less is transitive, and so is being neither less nor
greater. -/
def IsStrictWeakOrder {α : Type} (less : α → α → Bool) : Prop :=
  (∀ a, less a a = false) ∧
    (∀ a b c, less a b = true → less b c = true → less a c = true) ∧
    (∀ a b c, less a b = false → less b a = false → less b c = false → less c b = false →
      less a c = false ∧ less c a = false)

/-- The sort of long slices sorts: with a strict weak ordering for `Less`, it leaves a slice
of more than 12 elements with no element less than an element that stands before it. -/
def LongSliceSort.SortsStrictWeakOrders (longSort : LongSliceSort) : Prop :=
  ∀ {α : Type} (less : α → α → Bool) (data : List α), IsStrictWeakOrder less →
    12 < data.length → (longSort.pdqsort less data).Pairwise (fun a b => less b a = false)

/-- The sort of long slices leaves a slice of more than 12 elements as it is when no element
of it is less than an element that stands before it (the quicksort finds no pair to swap
when it chooses the pivot, and the pass of its partial insertion sort then finds every
element in place), whatever the comparison. -/
def LongSliceSort.KeepsOrderedSlices (longSort : LongSliceSort) : Prop :=
  ∀ {α : Type} (less : α → α → Bool) (data : List α), 12 < data.length →
    data.Pairwise (fun a b => less b a = false) → longSort.pdqsort less data = data

namespace Folder

mutual
/-- No folder of the tree of `f` is flagged as the root, and sortPages leaves the child pages
of every folder below `f` as they are stored. Nothing is asked of the pages of `f` itself nor
of the order of any list of child folders. -/
def ChildPagesKept (longSort : LongSliceSort) : Folder → Prop
  | mk _ _ _ cs r _ _ => r = false ∧ childPagesKeptList longSort cs
/-- Every folder of the list has its own child pages left as they are by sortPages and has
the property ChildPagesKept. -/
def childPagesKeptList (longSort : LongSliceSort) : List Folder → Prop
  | [] => True
  | c :: cs =>
    sortPages longSort c.ChildPages = c.ChildPages ∧ ChildPagesKept longSort c ∧
      childPagesKeptList longSort cs
end

end Folder

namespace Folder

mutual
/-- No folder of the tree of `f` is flagged as the root, and the child pages of every folder
below `f` are stored in order: none of them is less, by Pages.Less, than a page stored
before it. Nothing is asked of the pages of `f` itself nor of the order of any list of child
folders. -/
def ChildPagesInOrder : Folder → Prop
  | mk _ _ _ cs r _ _ => r = false ∧ childPagesInOrderList cs
/-- Every folder of the list has its own child pages in order and has the property
ChildPagesInOrder. -/
def childPagesInOrderList : List Folder → Prop
  | [] => True
  | c :: cs =>
    c.ChildPages.Pairwise (fun a b => pageLess b a = false) ∧ ChildPagesInOrder c ∧
      childPagesInOrderList cs
end

end Folder

/-- A folder `lib`, not the root, with the one child folder `docs`, whose pages were added as
Zeta, Overview, Beta. -/
def libTree : Folder :=
  Folder.mk "lib" "lib" [] [docsFolder] false false false

/-- A folder `lib`, not the root, with the one child folder `docs`, which holds two pages
titled `Overview`. -/
def twoOverviewsTree : Folder :=
  Folder.mk "lib" "lib" []
    [Folder.mk "lib/docs" "docs" [⟨1, "Overview"⟩, ⟨2, "Overview"⟩] [] false false false]
    false false false

/-- A folder `lib`, not the root, whose child folders were added as zeta, then Alpha, each
with its pages in order: Overview, Beta in `zeta` and Index in `Alpha`. -/
def zetaAlphaTree : Folder :=
  Folder.mk "lib" "lib" []
    [Folder.mk "lib/zeta" "zeta" [⟨1, "Overview"⟩, ⟨2, "Beta"⟩] [] false false false,
     Folder.mk "lib/Alpha" "Alpha" [⟨3, "Index"⟩] [] false false false]
    false false false

end Nav

/-! ## Properties -/

namespace Nav

/-! ### Pieces of a path -/

theorem splitChars_ne_nil (sep : Char) (l : List Char) : splitChars sep l ≠ [] := by
  cases l with
  | nil => simp [splitChars]
  | cons c cs =>
    unfold splitChars
    split
    · simp
    · split <;> simp

theorem splitChars_cons_sep (sep : Char) (l : List Char) :
    splitChars sep (sep :: l) = [] :: splitChars sep l := by
  simp [splitChars]

theorem splitChars_cons_ne (sep c : Char) (l : List Char) (h : c ≠ sep) :
    ∃ piece pieces, splitChars sep l = piece :: pieces ∧
      splitChars sep (c :: l) = (c :: piece) :: pieces := by
  cases hs : splitChars sep l with
  | nil => exact absurd hs (splitChars_ne_nil sep l)
  | cons piece pieces =>
    refine ⟨piece, pieces, rfl, ?_⟩
    rw [splitChars, if_neg h, hs]

theorem splitChars_no_sep (sep : Char) (l : List Char) :
    ∀ piece ∈ splitChars sep l, sep ∉ piece := by
  induction l with
  | nil => simp [splitChars]
  | cons c cs ih =>
    by_cases h : c = sep
    · subst h
      rw [splitChars_cons_sep]
      intro piece hp
      rcases List.mem_cons.1 hp with rfl | hp
      · simp
      · exact ih piece hp
    · obtain ⟨piece, pieces, h1, h2⟩ := splitChars_cons_ne sep c cs h
      rw [h2]
      rw [h1] at ih
      intro q hq
      rcases List.mem_cons.1 hq with rfl | hq
      · intro hmem
        rcases List.mem_cons.1 hmem with e | e
        · exact h e.symm
        · exact ih piece (by simp) e
      · exact ih q (by simp [hq])

theorem splitChars_append_sep (sep : Char) (piece rest : List Char) (h : sep ∉ piece) :
    splitChars sep (piece ++ sep :: rest) = piece :: splitChars sep rest := by
  induction piece with
  | nil => simp [splitChars]
  | cons c cs ih =>
    have hc : c ≠ sep := fun e => h (by simp [e])
    have hcs : sep ∉ cs := fun e => h (by simp [e])
    rw [List.cons_append, splitChars, if_neg hc, ih hcs]

theorem splitChars_of_no_sep (sep : Char) (piece : List Char) (h : sep ∉ piece) :
    splitChars sep piece = [piece] := by
  induction piece with
  | nil => simp [splitChars]
  | cons c cs ih =>
    have hc : c ≠ sep := fun e => h (by simp [e])
    have hcs : sep ∉ cs := fun e => h (by simp [e])
    rw [splitChars, if_neg hc, ih hcs]

theorem splitChars_joinChars (sep : Char) (pieces : List (List Char)) (hne : pieces ≠ [])
    (h : ∀ piece ∈ pieces, sep ∉ piece) : splitChars sep (joinChars sep pieces) = pieces := by
  induction pieces with
  | nil => exact absurd rfl hne
  | cons a rest ih =>
    cases rest with
    | nil => exact splitChars_of_no_sep sep a (h a (by simp))
    | cons b rest =>
      rw [joinChars, splitChars_append_sep sep a _ (h a (by simp)),
        ih (by simp) (fun q hq => h q (by simp [hq]))]

theorem numPieces_pos (path : String) : 0 < numPieces path := by
  unfold numPieces stringsSplit
  rw [List.length_map]
  exact List.length_pos.2 (splitChars_ne_nil _ _)

theorem numPieces_getStandardizedPath (path : String) :
    numPieces (getStandardizedPath path) ≤ numPieces path := by
  have key : ∀ q : String, numPieces (if stringsHasPrefix q "/" then
        stringsReplaceFirst q "/" "" else q) ≤ numPieces q ∧
      numPieces (if stringsHasPrefix q "./" then
        stringsReplaceFirst q "./" "" else q) ≤ numPieces q := by
    intro q
    obtain ⟨l⟩ := q
    constructor
    · split
      · rename_i h
        match l, h with
        | c :: cs, h =>
          have hc : c = '/' := by
            by_contra hne
            simp [stringsHasPrefix, hasPrefixChars, hne] at h
          subst hc
          simp [numPieces, stringsSplit, stringsReplaceFirst, replaceFirstChars,
            hasPrefixChars, splitChars]
      · exact Nat.le_refl _
    · split
      · rename_i h
        match l, h with
        | [c], h =>
          by_cases hne : c = '.' <;> simp [stringsHasPrefix, hasPrefixChars, hne] at h
        | c :: d :: cs, h =>
          have hc : c = '.' := by
            by_contra hne
            simp [stringsHasPrefix, hasPrefixChars, hne] at h
          subst hc
          have hd : d = '/' := by
            by_contra hne
            simp [stringsHasPrefix, hasPrefixChars, hne] at h
          subst hd
          simp [numPieces, stringsSplit, stringsReplaceFirst, replaceFirstChars,
            hasPrefixChars, splitChars]
      · exact Nat.le_refl _
  unfold getStandardizedPath
  exact Nat.le_trans (key _).2 (key path).1

theorem numPieces_getFolderPathTail (folderPath : String)
    (h : (getTopFolderNameInPath folderPath).2 ≠ 0) :
    numPieces (getFolderPathTail folderPath) < numPieces folderPath := by
  have hstd := numPieces_getStandardizedPath folderPath
  unfold getTopFolderNameInPath at h
  unfold getFolderPathTail GetStrSliceTail
  simp only [numPieces, stringsSplit, List.length_map] at *
  cases hs : splitChars '/' (getStandardizedPath folderPath).data with
  | nil => exact absurd hs (splitChars_ne_nil _ _)
  | cons a rest =>
    rw [hs] at h hstd
    have hrest : rest ≠ [] := by
      intro e
      simp [e] at h
    have hno := splitChars_no_sep '/' (getStandardizedPath folderPath).data
    rw [hs] at hno
    simp only [List.map_cons, List.tail_cons, stringsJoin, List.map_map]
    have hmap : List.map (String.data ∘ String.mk) rest = rest := by
      simp [Function.comp_def]
    rw [hmap, splitChars_joinChars '/' rest hrest (fun q hq => hno q (by simp [hq]))]
    simp only [List.length_cons] at hstd
    omega

/-! ### Paths made of plain segments -/

theorem joinChars_append_singleton (sep : Char) (xs : List (List Char)) (y : List Char)
    (h : xs ≠ []) : joinChars sep (xs ++ [y]) = joinChars sep xs ++ sep :: y := by
  induction xs with
  | nil => exact absurd rfl h
  | cons a rest ih =>
    cases rest with
    | nil => simp [joinChars]
    | cons b rest =>
      have e := ih (by simp)
      simp only [List.cons_append] at e
      simp [joinChars, e]

theorem joinChars_cons_eq (sep : Char) (a : List Char) (rest : List (List Char)) :
    ∃ tl, joinChars sep (a :: rest) = a ++ tl := by
  cases rest with
  | nil => exact ⟨[], by simp [joinChars]⟩
  | cons b rest => exact ⟨sep :: joinChars sep (b :: rest), rfl⟩

theorem IsPlainSegment.data_ne_nil {s : String} (h : IsPlainSegment s) : s.data ≠ [] := by
  intro e
  exact h.1 (String.ext e)

theorem IsPlainSegment.data_ne_dot {s : String} (h : IsPlainSegment s) : s.data ≠ ['.'] := by
  intro e
  exact h.2.2.1 (String.ext e)

theorem IsPlainSegment.data_ne_dotdot {s : String} (h : IsPlainSegment s) :
    s.data ≠ ['.', '.'] := by
  intro e
  exact h.2.2.2 (String.ext e)

theorem hasPrefixChars_slash_plain (s : String) (tl : List Char) (h : IsPlainSegment s) :
    hasPrefixChars (s.data ++ tl) ['/'] = false := by
  have h0 := h.data_ne_nil
  have h1 := h.2.1
  cases hd : s.data with
  | nil => exact absurd hd h0
  | cons c cs =>
    rw [hd] at h1
    have hc : c ≠ '/' := fun e => h1 (by simp [e])
    simp [hasPrefixChars, hc]

theorem hasPrefixChars_dotslash_plain (s : String) (tl : List Char) (h : IsPlainSegment s) :
    hasPrefixChars (s.data ++ tl) ['.', '/'] = false := by
  have h0 := h.data_ne_nil
  have h1 := h.2.1
  have h2 := h.data_ne_dot
  cases hd : s.data with
  | nil => exact absurd hd h0
  | cons c cs =>
    rw [hd] at h1 h2
    by_cases hc : c = '.'
    · subst hc
      cases cs with
      | nil => exact absurd rfl h2
      | cons d ds =>
        have hdne : d ≠ '/' := fun e => h1 (by simp [e])
        simp [hasPrefixChars, hdne]
    · simp [hasPrefixChars, hc]

theorem getStandardizedPath_plain (s : String) (rest : List String) (h : IsPlainSegment s) :
    getStandardizedPath (stringsJoin (s :: rest) '/') = stringsJoin (s :: rest) '/' := by
  obtain ⟨tl, htl⟩ := joinChars_cons_eq '/' s.data (rest.map String.data)
  have e1 : stringsHasPrefix (stringsJoin (s :: rest) '/') "/" = false := by
    simp only [stringsHasPrefix, stringsJoin, List.map_cons, htl]
    exact hasPrefixChars_slash_plain s tl h
  have e2 : stringsHasPrefix (stringsJoin (s :: rest) '/') "./" = false := by
    simp only [stringsHasPrefix, stringsJoin, List.map_cons, htl]
    exact hasPrefixChars_dotslash_plain s tl h
  simp [getStandardizedPath, e1, e2]

theorem map_mk_map_data (l : List String) : (l.map String.data).map String.mk = l := by
  induction l with
  | nil => rfl
  | cons a rest ih => simp [ih]

theorem stringsSplit_stringsJoin_plain (segs : List String) (hne : segs ≠ [])
    (h : ∀ s ∈ segs, IsPlainSegment s) : stringsSplit (stringsJoin segs '/') '/' = segs := by
  unfold stringsSplit stringsJoin
  simp only
  rw [splitChars_joinChars '/' _ (by simpa using hne), map_mk_map_data]
  intro piece hp
  obtain ⟨s, hs, rfl⟩ := List.mem_map.1 hp
  exact (h s hs).2.1

theorem getTopFolderNameInPath_plain (s : String) (rest : List String)
    (h : ∀ t ∈ s :: rest, IsPlainSegment t) :
    getTopFolderNameInPath (stringsJoin (s :: rest) '/') = (s, rest.length) := by
  unfold getTopFolderNameInPath
  simp only [getStandardizedPath_plain s rest (h s (by simp)),
    stringsSplit_stringsJoin_plain (s :: rest) (by simp) h]
  simp

theorem getFolderPathTail_plain (s : String) (rest : List String)
    (h : ∀ t ∈ s :: rest, IsPlainSegment t) :
    getFolderPathTail (stringsJoin (s :: rest) '/') = stringsJoin rest '/' := by
  unfold getFolderPathTail GetStrSliceTail
  simp only [getStandardizedPath_plain s rest (h s (by simp)),
    stringsSplit_stringsJoin_plain (s :: rest) (by simp) h]
  simp

theorem foldl_cleanStep_plain (segs : List String) (out : List (List Char))
    (h : ∀ s ∈ segs, IsPlainSegment s) :
    (segs.map String.data).foldl (cleanStep false) out = (segs.map String.data).reverse ++ out := by
  induction segs generalizing out with
  | nil => simp
  | cons s rest ih =>
    have hs := h s (by simp)
    have e : cleanStep false out s.data = s.data :: out := by
      simp [cleanStep, hs.data_ne_nil, hs.data_ne_dot, hs.data_ne_dotdot]
    simp only [List.map_cons, List.foldl_cons, e, List.reverse_cons, List.append_assoc]
    rw [ih _ (fun t ht => h t (by simp [ht]))]
    simp

theorem filepathClean_plain (segs : List String) (hne : segs ≠ [])
    (h : ∀ s ∈ segs, IsPlainSegment s) :
    filepathClean (stringsJoin segs '/') = stringsJoin segs '/' := by
  cases segs with
  | nil => exact absurd rfl hne
  | cons s rest =>
    have hs := h s (by simp)
    obtain ⟨tl, htl⟩ := joinChars_cons_eq '/' s.data (rest.map String.data)
    have hne0 : stringsJoin (s :: rest) '/' ≠ "" := by
      intro e
      have e2 := congrArg String.data e
      simp only [stringsJoin, List.map_cons, htl] at e2
      have : s.data = [] := (List.append_eq_nil.1 e2).1
      exact hs.data_ne_nil this
    have hroot : hasPrefixChars (stringsJoin (s :: rest) '/').data ['/'] = false := by
      simp only [stringsJoin, List.map_cons, htl]
      exact hasPrefixChars_slash_plain s tl hs
    have hsplit : splitChars '/' (stringsJoin (s :: rest) '/').data =
        (s :: rest).map String.data := by
      simp only [stringsJoin]
      apply splitChars_joinChars '/' _ (by simp)
      intro piece hp
      obtain ⟨t, ht, rfl⟩ := List.mem_map.1 hp
      exact (h t ht).2.1
    unfold filepathClean
    rw [if_neg hne0]
    simp only [hroot, hsplit, foldl_cleanStep_plain (s :: rest) [] h]
    simp [stringsJoin]

theorem filepathJoin_plain (done : List String) (s : String)
    (hd : ∀ t ∈ done, IsPlainSegment t) (hs : IsPlainSegment s) :
    filepathJoin [stringsJoin done '/', s] = stringsJoin (done ++ [s]) '/' := by
  cases done with
  | nil =>
    have e : stringsJoin [] '/' = "" := rfl
    simp only [e, List.nil_append]
    rw [filepathJoin, if_pos rfl, filepathJoin, if_neg hs.1]
    exact filepathClean_plain [s] (by simp) (by simpa using hs)
  | cons a rest =>
    have ha := hd a (by simp)
    obtain ⟨tl, htl⟩ := joinChars_cons_eq '/' a.data (rest.map String.data)
    have hne0 : stringsJoin (a :: rest) '/' ≠ "" := by
      intro e
      have e2 := congrArg String.data e
      simp only [stringsJoin, List.map_cons, htl] at e2
      have : a.data = [] := (List.append_eq_nil.1 e2).1
      exact ha.data_ne_nil this
    rw [filepathJoin, if_neg hne0]
    have e : stringsJoin [stringsJoin (a :: rest) '/', s] '/' =
        stringsJoin ((a :: rest) ++ [s]) '/' := by
      simp only [stringsJoin, List.map_cons, List.map_nil, List.map_append, joinChars]
      rw [joinChars_append_singleton '/' _ _ (by simp)]
    rw [e]
    apply filepathClean_plain _ (by simp)
    intro t ht
    rcases List.mem_append.1 ht with ht | ht
    · exact hd t ht
    · simp at ht
      subst ht
      exact hs

/-! ### The order of strings -/

theorem lexLess_iff_lt : ∀ (a b : List Char), lexLess a b = true ↔ a < b
  | [], [] => by simp [lexLess]
  | [], _ :: _ => by
    simp only [lexLess, true_iff]
    exact List.Lex.nil
  | _ :: _, [] => by simp [lexLess]
  | a :: as, b :: bs => by
    have ih := lexLess_iff_lt as bs
    unfold lexLess
    by_cases h1 : a.toNat < b.toNat
    · simp only [h1, if_true, true_iff]
      exact List.Lex.rel h1
    · by_cases h2 : b.toNat < a.toNat
      · simp only [h1, h2, if_true, if_false, Bool.false_eq_true, false_iff]
        intro h
        have hlt : (b :: bs) < (a :: as) := List.Lex.rel h2
        exact lt_asymm h hlt
      · simp only [h1, h2, if_false]
        have hab : a = b := by
          apply Char.ext
          apply UInt32.ext
          show a.toNat = b.toNat
          omega
        subst hab
        rw [ih]
        constructor
        · intro h
          exact List.Lex.cons h
        · intro h
          cases h with
          | cons h => exact h
          | rel h => exact absurd h (lt_irrefl _)

theorem stringLess_iff (a b : String) : stringLess a b = true ↔ a < b := by
  unfold stringLess
  rw [lexLess_iff_lt]
  exact String.lt_iff_toList_lt.symm

theorem stringLess_eq_false_iff (a b : String) : stringLess a b = false ↔ b ≤ a := by
  rw [← not_lt, ← stringLess_iff]
  simp

/-! ### The insertion sort -/

theorem insertLoop_perm {α : Type} (less : α → α → Bool) (x : α) (l : List α) :
    (insertLoop less x l).Perm (x :: l) := by
  induction l with
  | nil => exact List.Perm.refl _
  | cons y before ih =>
    unfold insertLoop
    split
    · exact ((List.Perm.cons y ih).trans (List.Perm.swap x y before))
    · exact List.Perm.refl _

theorem foldl_insertLoop_perm {α : Type} (less : α → α → Bool) (data sorted : List α) :
    (data.foldl (fun sorted x => insertLoop less x sorted) sorted).Perm (data ++ sorted) := by
  induction data generalizing sorted with
  | nil => exact List.Perm.refl _
  | cons x rest ih =>
    simp only [List.foldl_cons]
    refine (ih _).trans ?_
    refine (List.Perm.append_left rest (insertLoop_perm less x sorted)).trans ?_
    simp only [List.cons_append]
    exact List.perm_middle

theorem insertionSort_perm {α : Type} (less : α → α → Bool) (data : List α) :
    (insertionSort less data).Perm data := by
  unfold insertionSort
  refine (List.reverse_perm _).trans ?_
  simpa using foldl_insertLoop_perm less data []

theorem insertLoop_pairwise {α : Type} (less : α → α → Bool) (R : α → α → Prop)
    (h1 : ∀ x y, less x y = true → R x y) (h2 : ∀ x y, less x y = false → R y x)
    (htrans : ∀ a b c, R a b → R b c → R a c) (x : α) (l : List α)
    (hl : l.Pairwise (fun a b => R b a)) :
    (insertLoop less x l).Pairwise (fun a b => R b a) := by
  induction l with
  | nil => simp [insertLoop]
  | cons y before ih =>
    rw [List.pairwise_cons] at hl
    unfold insertLoop
    by_cases hxy : less x y = true
    · rw [if_pos hxy, List.pairwise_cons]
      refine ⟨?_, ih hl.2⟩
      intro e he
      rcases List.mem_cons.1 ((insertLoop_perm less x before).subset he) with rfl | he
      · exact h1 _ _ hxy
      · exact hl.1 e he
    · rw [if_neg hxy, List.pairwise_cons, List.pairwise_cons]
      have hyx : R y x := h2 x y (by simpa using hxy)
      refine ⟨?_, hl⟩
      intro e he
      rcases List.mem_cons.1 he with rfl | he
      · exact hyx
      · exact htrans _ _ _ (hl.1 e he) hyx

theorem insertionSort_pairwise {α : Type} (less : α → α → Bool) (R : α → α → Prop)
    (h1 : ∀ x y, less x y = true → R x y) (h2 : ∀ x y, less x y = false → R y x)
    (htrans : ∀ a b c, R a b → R b c → R a c) (data : List α) :
    (insertionSort less data).Pairwise R := by
  unfold insertionSort
  rw [List.pairwise_reverse]
  have key : ∀ (data sorted : List α), sorted.Pairwise (fun a b => R b a) →
      (data.foldl (fun sorted x => insertLoop less x sorted) sorted).Pairwise
        (fun a b => R b a) := by
    intro data
    induction data with
    | nil => intro sorted hs; exact hs
    | cons x rest ih =>
      intro sorted hs
      exact ih _ (insertLoop_pairwise less R h1 h2 htrans x sorted hs)
  exact key data [] List.Pairwise.nil

theorem insertionSort_eq_self_of_pairwise {α : Type} (less : α → α → Bool) (l : List α)
    (hl : l.Pairwise (fun a b => less b a = false)) : insertionSort less l = l := by
  have key : ∀ (rest sorted : List α),
      (sorted.reverse ++ rest).Pairwise (fun a b => less b a = false) →
      (rest.foldl (fun sorted x => insertLoop less x sorted) sorted).reverse =
        sorted.reverse ++ rest := by
    intro rest
    induction rest with
    | nil => intro sorted _; simp
    | cons x rest ih =>
      intro sorted hs
      have hins : insertLoop less x sorted = x :: sorted := by
        cases sorted with
        | nil => rfl
        | cons y before =>
          have hxy : less x y = false := by
            rw [List.pairwise_append] at hs
            exact hs.2.2 y (by simp) x (by simp)
          simp [insertLoop, hxy]
      rw [List.foldl_cons, hins, ih (x :: sorted) (by simpa using hs)]
      simp
  unfold insertionSort
  simpa using key l [] (by simpa using hl)

/-! ### Strict weak orderings -/

theorem IsStrictWeakOrder_asymm {α : Type} {less : α → α → Bool}
    (hswo : IsStrictWeakOrder less) (a b : α) (hab : less a b = true) : less b a = false := by
  cases hba : less b a with
  | false => rfl
  | true =>
    have haa := hswo.2.1 a b a hab hba
    rw [hswo.1 a] at haa
    exact absurd haa (by decide)

theorem IsStrictWeakOrder_not_less_trans {α : Type} {less : α → α → Bool}
    (hswo : IsStrictWeakOrder less) (a b c : α) (hba : less b a = false)
    (hcb : less c b = false) : less c a = false := by
  cases hca : less c a with
  | false => rfl
  | true =>
    exfalso
    have hbc : less b c = false := by
      cases hbc : less b c with
      | false => rfl
      | true =>
        have := hswo.2.1 b c a hbc hca
        rw [hba] at this
        exact absurd this (by decide)
    have hab : less a b = false := by
      cases hab : less a b with
      | false => rfl
      | true =>
        have := hswo.2.1 c a b hca hab
        rw [hcb] at this
        exact absurd this (by decide)
    have := (hswo.2.2 c b a hcb hbc hba hab).1
    rw [hca] at this
    exact absurd this (by decide)

theorem insertionSort_sorted {α : Type} (less : α → α → Bool) (hswo : IsStrictWeakOrder less)
    (data : List α) : (insertionSort less data).Pairwise (fun a b => less b a = false) := by
  apply insertionSort_pairwise less (fun a b => less b a = false)
  · intro x y hxy
    exact IsStrictWeakOrder_asymm hswo x y hxy
  · intro x y hxy
    exact hxy
  · intro a b c hab hbc
    exact IsStrictWeakOrder_not_less_trans hswo a b c hab hbc

theorem folderLess_isStrictWeakOrder : IsStrictWeakOrder folderLess := by
  refine ⟨?_, ?_, ?_⟩
  · intro a
    exact (stringLess_eq_false_iff _ _).2 (le_refl _)
  · intro a b c hab hbc
    exact (stringLess_iff _ _).2
      (lt_trans ((stringLess_iff _ _).1 hab) ((stringLess_iff _ _).1 hbc))
  · intro a b c hab hba hbc hcb
    have h1 : b.Name ≤ a.Name := (stringLess_eq_false_iff _ _).1 hab
    have h2 : a.Name ≤ b.Name := (stringLess_eq_false_iff _ _).1 hba
    have h3 : c.Name ≤ b.Name := (stringLess_eq_false_iff _ _).1 hbc
    have h4 : b.Name ≤ c.Name := (stringLess_eq_false_iff _ _).1 hcb
    exact ⟨(stringLess_eq_false_iff _ _).2 (le_trans h3 h1),
      (stringLess_eq_false_iff _ _).2 (le_trans h2 h4)⟩

/-! ### sort.Sort -/

theorem sortSort_of_short {α : Type} (longSort : LongSliceSort) (less : α → α → Bool)
    (data : List α) (hlen : data.length ≤ 12) :
    sortSort longSort less data = insertionSort less data := by
  unfold sortSort
  rw [if_pos hlen]

theorem sortSort_of_long {α : Type} (longSort : LongSliceSort) (less : α → α → Bool)
    (data : List α) (hlen : 12 < data.length) :
    sortSort longSort less data = longSort.pdqsort less data := by
  unfold sortSort
  rw [if_neg (by omega)]

theorem sortSort_perm {α : Type} (longSort : LongSliceSort) (less : α → α → Bool)
    (data : List α) : (sortSort longSort less data).Perm data := by
  by_cases hlen : data.length ≤ 12
  · rw [sortSort_of_short longSort less data hlen]
    exact insertionSort_perm less data
  · rw [sortSort_of_long longSort less data (by omega)]
    exact longSort.rearranges less data (by omega)

theorem sortSort_sorted {α : Type} (longSort : LongSliceSort)
    (hsorts : longSort.SortsStrictWeakOrders) (less : α → α → Bool)
    (hswo : IsStrictWeakOrder less) (data : List α) :
    (sortSort longSort less data).Pairwise (fun a b => less b a = false) := by
  by_cases hlen : data.length ≤ 12
  · rw [sortSort_of_short longSort less data hlen]
    exact insertionSort_sorted less hswo data
  · rw [sortSort_of_long longSort less data (by omega)]
    exact hsorts less data hswo (by omega)

theorem sortSort_eq_self_of_pairwise {α : Type} (longSort : LongSliceSort)
    (hkeeps : longSort.KeepsOrderedSlices) (less : α → α → Bool) (l : List α)
    (hl : l.Pairwise (fun a b => less b a = false)) : sortSort longSort less l = l := by
  by_cases hlen : l.length ≤ 12
  · rw [sortSort_of_short longSort less l hlen]
    exact insertionSort_eq_self_of_pairwise less l hl
  · rw [sortSort_of_long longSort less l (by omega)]
    exact hkeeps less l (by omega) hl

theorem insertionLongSliceSort_sortsStrictWeakOrders :
    insertionLongSliceSort.SortsStrictWeakOrders := by
  intro α less data hswo _
  exact insertionSort_sorted less hswo data

theorem insertionLongSliceSort_keepsOrderedSlices :
    insertionLongSliceSort.KeepsOrderedSlices := by
  intro α less data _ hl
  exact insertionSort_eq_self_of_pairwise less data hl

theorem sortFolders_perm (longSort : LongSliceSort) (folders : List Folder) :
    (sortFolders longSort folders).Perm folders :=
  sortSort_perm longSort folderLess folders

theorem sortPages_perm (longSort : LongSliceSort) (pages : List Page) :
    (sortPages longSort pages).Perm pages :=
  sortSort_perm longSort pageLess pages

theorem sortFolders_sorted (longSort : LongSliceSort) (hsorts : longSort.SortsStrictWeakOrders)
    (folders : List Folder) :
    (sortFolders longSort folders).Pairwise (fun a b => folderLess b a = false) :=
  sortSort_sorted longSort hsorts folderLess folderLess_isStrictWeakOrder folders

theorem sortFolders_pairwise (longSort : LongSliceSort)
    (hsorts : longSort.SortsStrictWeakOrders) (folders : List Folder) :
    (sortFolders longSort folders).Pairwise (fun a b => a.Name ≤ b.Name) := by
  refine (sortFolders_sorted longSort hsorts folders).imp ?_
  intro a b hab
  exact (stringLess_eq_false_iff _ _).1 hab

theorem sortFolders_eq_self_of_sorted (longSort : LongSliceSort)
    (hkeeps : longSort.KeepsOrderedSlices) (folders : List Folder)
    (h : folders.Pairwise (fun a b => folderLess b a = false)) :
    sortFolders longSort folders = folders :=
  sortSort_eq_self_of_pairwise longSort hkeeps folderLess folders h

theorem sortPages_eq_self_of_pairwise (longSort : LongSliceSort)
    (hkeeps : longSort.KeepsOrderedSlices) (pages : List Page)
    (h : pages.Pairwise (fun a b => pageLess b a = false)) :
    sortPages longSort pages = pages :=
  sortSort_eq_self_of_pairwise longSort hkeeps pageLess pages h

/-- The order in which sortPages leaves two pages of a list of at most 12 pages, which
`sort.Sort` sorts by insertion: a page titled `Overview` may stand before any page; another
page may stand only before pages not titled `Overview` whose title is not smaller. -/
theorem sortPages_pairwise_of_short (longSort : LongSliceSort) (pages : List Page)
    (hlen : pages.length ≤ 12) :
    (sortPages longSort pages).Pairwise (fun a b =>
      a.Title = "Overview" ∨ (b.Title ≠ "Overview" ∧ a.Title ≤ b.Title)) := by
  unfold sortPages
  rw [sortSort_of_short longSort pageLess pages hlen]
  apply insertionSort_pairwise
  · intro x y hxy
    unfold pageLess at hxy
    by_cases hx : x.Title = "Overview"
    · exact Or.inl hx
    · by_cases hy : y.Title = "Overview"
      · simp [hx, hy] at hxy
      · simp only [hx, hy, if_false] at hxy
        exact Or.inr ⟨hy, le_of_lt ((stringLess_iff _ _).1 hxy)⟩
  · intro x y hxy
    unfold pageLess at hxy
    by_cases hx : x.Title = "Overview"
    · simp [hx] at hxy
    · by_cases hy : y.Title = "Overview"
      · exact Or.inl hy
      · simp only [hx, hy, if_false] at hxy
        exact Or.inr ⟨hx, (stringLess_eq_false_iff _ _).1 hxy⟩
  · intro a b c hab hbc
    rcases hab with ha | ⟨hb, hab⟩
    · exact Or.inl ha
    · rcases hbc with hb2 | ⟨hc, hbc⟩
      · exact absurd hb2 hb
      · exact Or.inr ⟨hc, le_trans hab hbc⟩

/-- On a list of at most 12 pages, which `sort.Sort` sorts by insertion, sortPages returns a
permutation of the list in which no page titled otherwise stands before a page titled
`Overview` and the pages titled otherwise are in ascending order of Title. -/
theorem sortPages_of_short (longSort : LongSliceSort) (pages : List Page)
    (hlen : pages.length ≤ 12) :
    (sortPages longSort pages).Perm pages ∧
      (sortPages longSort pages).Pairwise
        (fun a b => b.Title = "Overview" → a.Title = "Overview") ∧
      ((sortPages longSort pages).filter (fun p => decide (p.Title ≠ "Overview"))).Pairwise
        (fun a b => a.Title ≤ b.Title) := by
  refine ⟨sortPages_perm longSort pages, ?_, ?_⟩
  · refine (sortPages_pairwise_of_short longSort pages hlen).imp ?_
    intro a b hab hb
    rcases hab with ha | ⟨hnb, _⟩
    · exact ha
    · exact absurd hb hnb
  · refine ((sortPages_pairwise_of_short longSort pages hlen).filter _).imp_of_mem ?_
    intro a b ha _ hab
    have ha2 : a.Title ≠ "Overview" := by simpa using (List.mem_filter.1 ha).2
    rcases hab with h | ⟨_, h⟩
    · exact absurd h ha2
    · exact h

/-! ### Standardized paths -/

theorem replaceFirstChars_of_hasPrefix (old l : List Char) (h : hasPrefixChars l old = true) :
    replaceFirstChars old [] l = l.drop old.length := by
  cases l with
  | nil =>
    cases old with
    | nil => simp [replaceFirstChars]
    | cons c cs => simp [hasPrefixChars] at h
  | cons c cs => simp [replaceFirstChars, h]

/-- C17, as stated, fails: `/./x` loses both the leading `/` and the `./` that follows it. -/
theorem getStandardizedPath_strips_both_prefixes :
    getStandardizedPath "/./x" = "x" ∧ getStandardizedPath "/./x" ≠ "./x" := by
  decide

theorem getStandardizedPath_dropLeading (path : String) :
    getStandardizedPath path =
      ⟨dropLeading ['.', '/'] (dropLeading ['/'] path.data)⟩ := by
  have key : ∀ (q pre : String), (if stringsHasPrefix q pre then stringsReplaceFirst q pre ""
      else q) = ⟨dropLeading pre.data q.data⟩ := by
    intro q pre
    unfold dropLeading stringsHasPrefix stringsReplaceFirst
    by_cases h : hasPrefixChars q.data pre.data = true
    · rw [if_pos h, if_pos h]
      exact congrArg String.mk (replaceFirstChars_of_hasPrefix _ _ h)
    · rw [if_neg h, if_neg h]
  unfold getStandardizedPath
  simp only [key]

/-- C17, amended: getStandardizedPath removes a leading `/` when the path begins with one and
then, from what is left, a leading `./` when it begins with one; nothing else is changed. So
`/x/y` and `./x/y` lose their prefix, `x/y` is unchanged, and `/./x` loses both prefixes,
while of `.//x` and of `//x` only the first prefix is removed. -/
theorem getStandardizedPath_eq_dropLeading (path : String) :
    getStandardizedPath path =
        ⟨dropLeading ['.', '/'] (dropLeading ['/'] path.data)⟩ ∧
      getStandardizedPath "/x/y" = "x/y" ∧ getStandardizedPath "./x/y" = "x/y" ∧
      getStandardizedPath "x/y" = "x/y" ∧ getStandardizedPath "/./x" = "x" ∧
      getStandardizedPath ".//x" = "/x" ∧ getStandardizedPath "//x" = "/x" :=
  ⟨getStandardizedPath_dropLeading path, by decide, by decide, by decide, by decide, by decide,
    by decide⟩

theorem getStandardizedPath_of_no_prefix (p : String) (h1 : stringsHasPrefix p "/" = false)
    (h2 : stringsHasPrefix p "./" = false) : getStandardizedPath p = p := by
  simp [getStandardizedPath, h1, h2]

theorem getStandardizedPath_slash_append (p : String) (h2 : stringsHasPrefix p "./" = false) :
    getStandardizedPath ("/" ++ p) = p := by
  rw [getStandardizedPath_dropLeading]
  have e : ("/" ++ p).data = '/' :: p.data := by
    rw [String.data_append]
    rfl
  have h3 : hasPrefixChars p.data ['.', '/'] = false := h2
  rw [e]
  simp [dropLeading, hasPrefixChars, h3]

theorem getStandardizedPath_dotslash_append (p : String) :
    getStandardizedPath ("./" ++ p) = p := by
  rw [getStandardizedPath_dropLeading]
  have e : ("./" ++ p).data = '.' :: '/' :: p.data := by
    rw [String.data_append]
    rfl
  rw [e]
  simp [dropLeading, hasPrefixChars]

theorem numPieces_slash_append (p : String) : numPieces ("/" ++ p) = numPieces p + 1 := by
  have e : ("/" ++ p).data = '/' :: p.data := by
    rw [String.data_append]
    rfl
  simp [numPieces, stringsSplit, e, splitChars]

theorem numPieces_dotslash_append (p : String) : numPieces ("./" ++ p) = numPieces p + 1 := by
  have e : ("./" ++ p).data = '.' :: '/' :: p.data := by
    rw [String.data_append]
    rfl
  simp [numPieces, stringsSplit, e, splitChars]

/-! ### The comparison of pages -/

theorem pageLess_self (a : Page) : pageLess a a = true ↔ a.Title = "Overview" := by
  unfold pageLess
  by_cases ha : a.Title = "Overview"
  · simp [ha]
  · simp only [ha, if_false, iff_false]
    rw [Bool.not_eq_true, stringLess_eq_false_iff]

theorem pageLess_both (a b : Page) :
    (pageLess a b = true ∧ pageLess b a = true) ↔
      (a.Title = "Overview" ∧ b.Title = "Overview") := by
  unfold pageLess
  by_cases ha : a.Title = "Overview"
  · by_cases hb : b.Title = "Overview"
    · simp [ha, hb]
    · simp [ha, hb]
  · by_cases hb : b.Title = "Overview"
    · simp [ha, hb]
    · simp only [ha, hb, if_false, false_and, iff_false, not_and, stringLess_iff]
      intro h1 h2
      exact lt_asymm h1 h2

theorem pageLess_trans (a b c : Page) (hab : pageLess a b = true) (hbc : pageLess b c = true) :
    pageLess a c = true := by
  unfold pageLess at hab hbc ⊢
  by_cases ha : a.Title = "Overview"
  · simp [ha]
  · by_cases hb : b.Title = "Overview"
    · simp [ha, hb] at hab
    · by_cases hc : c.Title = "Overview"
      · simp [hb, hc] at hbc
      · simp only [ha, hb, hc, if_false, stringLess_iff] at hab hbc ⊢
        exact lt_trans hab hbc

theorem pageLess_incomparable_trans (a b c : Page)
    (hab : pageLess a b = false ∧ pageLess b a = false)
    (hbc : pageLess b c = false ∧ pageLess c b = false) :
    pageLess a c = false ∧ pageLess c a = false := by
  unfold pageLess at hab hbc ⊢
  by_cases ha : a.Title = "Overview"
  · simp [ha] at hab
  · by_cases hb : b.Title = "Overview"
    · simp [hb] at hab
    · by_cases hc : c.Title = "Overview"
      · simp [hc] at hbc
      · simp only [ha, hb, hc, if_false, stringLess_eq_false_iff] at hab hbc ⊢
        exact ⟨le_trans hbc.1 hab.1, le_trans hab.2 hbc.2⟩

theorem Pages_Less_eq (pages : List Page) (i j : Nat) (hi : i < pages.length)
    (hj : j < pages.length) : Pages.Less pages i j = pageLess pages[i] pages[j] := by
  unfold Pages.Less
  rw [List.getElem?_eq_getElem hi, List.getElem?_eq_getElem hj]

/-- C22, as stated, fails: with a page titled `Overview` at position 0, Less(0, 0) is true,
and with two pages titled `Overview`, Less(0, 1) and Less(1, 0) are both true. -/
theorem Pages_Less_overview_before_itself :
    Pages.Less [⟨1, "Overview"⟩] 0 0 = true ∧
      Pages.Less [⟨1, "Overview"⟩, ⟨2, "Overview"⟩] 0 1 = true ∧
      Pages.Less [⟨1, "Overview"⟩, ⟨2, "Overview"⟩] 1 0 = true := by
  decide

/-- C22, amended: on every list of pages and at positions of the list, Pages.Less is
transitive and the incomparability it induces is transitive; Less(i, i) is true exactly when
the page at `i` is titled `Overview`, and Less(i, j) and Less(j, i) are both true exactly when
the pages at `i` and at `j` are both titled `Overview`. So Pages.Less is a strict weak
ordering on the positions of the pages that are not titled `Overview`. -/
theorem Pages_Less_order_properties (pages : List Page) (i j k : Nat) (hi : i < pages.length)
    (hj : j < pages.length) (hk : k < pages.length) :
    (Pages.Less pages i i = true ↔ pages[i].Title = "Overview") ∧
      ((Pages.Less pages i j = true ∧ Pages.Less pages j i = true) ↔
        (pages[i].Title = "Overview" ∧ pages[j].Title = "Overview")) ∧
      (Pages.Less pages i j = true → Pages.Less pages j k = true →
        Pages.Less pages i k = true) ∧
      (Pages.Less pages i j = false ∧ Pages.Less pages j i = false →
        Pages.Less pages j k = false ∧ Pages.Less pages k j = false →
        Pages.Less pages i k = false ∧ Pages.Less pages k i = false) := by
  rw [Pages_Less_eq pages i i hi hi, Pages_Less_eq pages i j hi hj, Pages_Less_eq pages j i hj hi,
    Pages_Less_eq pages j k hj hk, Pages_Less_eq pages k j hk hj, Pages_Less_eq pages i k hi hk,
    Pages_Less_eq pages k i hk hi]
  exact ⟨pageLess_self _, pageLess_both _ _, pageLess_trans _ _ _,
    pageLess_incomparable_trans _ _ _⟩

/-- C22, amended, on the pages titled Zeta, Overview, Beta at the positions 0, 1, 2: the page
Overview is less than itself, and the two other pages are ordered by their titles. -/
theorem Pages_Less_order_properties_witness :
    Pages.Less [⟨1, "Zeta"⟩, ⟨2, "Overview"⟩, ⟨3, "Beta"⟩] 1 1 = true ∧
      Pages.Less [⟨1, "Zeta"⟩, ⟨2, "Overview"⟩, ⟨3, "Beta"⟩] 0 0 = false ∧
      Pages.Less [⟨1, "Zeta"⟩, ⟨2, "Overview"⟩, ⟨3, "Beta"⟩] 2 0 = true ∧
      Pages.Less [⟨1, "Zeta"⟩, ⟨2, "Overview"⟩, ⟨3, "Beta"⟩] 0 2 = false := by
  have key := Pages_Less_order_properties [⟨1, "Zeta"⟩, ⟨2, "Overview"⟩, ⟨3, "Beta"⟩] 1 0 2
    (by decide) (by decide) (by decide)
  exact ⟨key.1.2 (by decide), by decide, by decide, by decide⟩

namespace Folder

@[simp] theorem Name_mk (p n : String) (ps : List Page) (cs : List Folder) (r pk m : Bool) :
    (mk p n ps cs r pk m).Name = n := rfl

@[simp] theorem ChildFolders_mk (p n : String) (ps : List Page) (cs : List Folder)
    (r pk m : Bool) : (mk p n ps cs r pk m).ChildFolders = cs := rfl

@[simp] theorem ChildPages_mk (p n : String) (ps : List Page) (cs : List Folder)
    (r pk m : Bool) : (mk p n ps cs r pk m).ChildPages = ps := rfl

@[simp] theorem Name_setChildFolders (f : Folder) (cs : List Folder) :
    (f.setChildFolders cs).Name = f.Name := by
  cases f; rfl

@[simp] theorem OutputPath_setChildFolders (f : Folder) (cs : List Folder) :
    (f.setChildFolders cs).OutputPath = f.OutputPath := by
  cases f; rfl

@[simp] theorem ChildFolders_setChildFolders (f : Folder) (cs : List Folder) :
    (f.setChildFolders cs).ChildFolders = cs := by
  cases f; rfl

@[simp] theorem ChildPages_setChildFolders (f : Folder) (cs : List Folder) :
    (f.setChildFolders cs).ChildPages = f.ChildPages := by
  cases f; rfl

@[simp] theorem setChildFolders_setChildFolders (f : Folder) (cs ds : List Folder) :
    (f.setChildFolders cs).setChildFolders ds = f.setChildFolders ds := by
  cases f; rfl

@[simp] theorem setChildFolders_ChildFolders (f : Folder) :
    f.setChildFolders f.ChildFolders = f := by
  cases f; rfl

/-! ### The two loops over the direct children -/

theorem getChildFolderLoop_eq_none (name : String) (l : List Folder) :
    getChildFolderLoop name l = none ↔ hasChildFolderLoop name l = false := by
  induction l with
  | nil => simp [getChildFolderLoop, hasChildFolderLoop]
  | cons c cs ih =>
    by_cases h : c.Name = name
    · simp [getChildFolderLoop, hasChildFolderLoop, h]
    · simp [getChildFolderLoop, hasChildFolderLoop, h, ih]

theorem hasChildFolderLoop_iff (name : String) (l : List Folder) :
    hasChildFolderLoop name l = true ↔ ∃ c ∈ l, c.Name = name := by
  induction l with
  | nil => simp [hasChildFolderLoop]
  | cons c cs ih =>
    by_cases h : c.Name = name
    · simp [hasChildFolderLoop, h]
    · simp [hasChildFolderLoop, h, ih]

theorem getChildFolderLoop_some (name : String) (l : List Folder) (i : Nat)
    (h : getChildFolderLoop name l = some i) :
    ∃ c, l[i]? = some c ∧ c.Name = name ∧ ∀ j < i, ∀ d, l[j]? = some d → d.Name ≠ name := by
  induction l generalizing i with
  | nil => simp [getChildFolderLoop] at h
  | cons c cs ih =>
    by_cases hc : c.Name = name
    · simp [getChildFolderLoop, hc] at h
      subst h
      exact ⟨c, by simp, hc, by intro j hj; omega⟩
    · simp [getChildFolderLoop, hc] at h
      obtain ⟨k, hk, rfl⟩ := h
      obtain ⟨d, hd, hdn, hfirst⟩ := ih k hk
      refine ⟨d, by simpa using hd, hdn, ?_⟩
      intro j hj e he
      cases j with
      | zero =>
        simp at he
        subst he
        exact hc
      | succ j =>
        simp at he
        exact hfirst j (by omega) e he

theorem getChildFolderLoop_set (name : String) (l : List Folder) (i : Nat) (c : Folder)
    (h : getChildFolderLoop name l = some i) (hc : c.Name = name) :
    getChildFolderLoop name (l.set i c) = some i := by
  induction l generalizing i with
  | nil => simp [getChildFolderLoop] at h
  | cons d ds ih =>
    by_cases hd : d.Name = name
    · simp [getChildFolderLoop, hd] at h
      subst h
      simp [getChildFolderLoop, hc]
    · simp [getChildFolderLoop, hd] at h
      obtain ⟨k, hk, rfl⟩ := h
      simp [getChildFolderLoop, hd, ih k hk]

theorem getChildFolderLoop_append_new (name : String) (l : List Folder) (c : Folder)
    (h : hasChildFolderLoop name l = false) (hc : c.Name = name) :
    getChildFolderLoop name (l ++ [c]) = some l.length := by
  induction l with
  | nil => simp [getChildFolderLoop, hc]
  | cons d ds ih =>
    by_cases hd : d.Name = name
    · simp [hasChildFolderLoop, hd] at h
    · simp [hasChildFolderLoop, hd] at h
      simp [getChildFolderLoop, hd, ih h]

theorem hasChildFolderLoop_of_get (name : String) (l : List Folder) (i : Nat)
    (h : getChildFolderLoop name l = some i) : hasChildFolderLoop name l = true := by
  by_contra hne
  have : getChildFolderLoop name l = none :=
    (getChildFolderLoop_eq_none name l).2 (by simpa using hne)
  simp [this] at h

/-! ### The tree builder is idempotent -/

theorem getOrCreateChild_spec (rx : PathRegexes) (f : Folder) (name : String) :
    ∃ i child, (getOrCreateChild rx f name).2 = some [i] ∧
      getChildFolderLoop name (getOrCreateChild rx f name).1.ChildFolders = some i ∧
      (getOrCreateChild rx f name).1.ChildFolders[i]? = some child ∧ child.Name = name := by
  unfold getOrCreateChild
  by_cases h : f.HasChildFolder name = true
  · simp only [h, if_true]
    unfold HasChildFolder at h
    cases hg : getChildFolderLoop name f.ChildFolders with
    | none =>
      rw [(getChildFolderLoop_eq_none name _).1 hg] at h
      exact absurd h (by simp)
    | some i =>
      obtain ⟨c, hc, hn, _⟩ := getChildFolderLoop_some name _ i hg
      exact ⟨i, c, by simp [GetChildFolder, hg], rfl, hc, hn⟩
  · have h0 : hasChildFolderLoop name f.ChildFolders = false := by
      simpa [HasChildFolder] using h
    simp only [h, Bool.false_eq_true, if_false]
    refine ⟨f.ChildFolders.length, NewFolder rx (filepathJoin [f.OutputPath, name]) name,
      rfl, ?_, ?_, rfl⟩
    · simp only [AddFolder, ChildFolders_setChildFolders]
      exact getChildFolderLoop_append_new name _
        (NewFolder rx (filepathJoin [f.OutputPath, name]) name) h0 rfl
    · simp [AddFolder]

theorem getOrCreateChild_of_get (rx : PathRegexes) (f : Folder) (name : String) (i : Nat)
    (h : getChildFolderLoop name f.ChildFolders = some i) :
    getOrCreateChild rx f name = (f, some [i]) := by
  have h1 : f.HasChildFolder name = true := hasChildFolderLoop_of_get name _ i h
  simp [getOrCreateChild, h1, GetChildFolder, h]

theorem getOrCreateChild_idem (rx : PathRegexes) (f : Folder) (name : String) :
    getOrCreateChild rx (getOrCreateChild rx f name).1 name = getOrCreateChild rx f name := by
  obtain ⟨i, child, h2, hg, _, _⟩ := getOrCreateChild_spec rx f name
  rw [getOrCreateChild_of_get rx _ name i hg]
  exact Prod.ext rfl h2.symm

theorem Name_getOrCreateChild (rx : PathRegexes) (f : Folder) (name : String) :
    (getOrCreateChild rx f name).1.Name = f.Name := by
  unfold getOrCreateChild
  split <;> simp [AddFolder]

theorem createFolderIfNotExistFuel_succ (rx : PathRegexes) (fuel : Nat) (f : Folder)
    (folderPath : String) :
    createFolderIfNotExistFuel rx (fuel + 1) f folderPath =
      if (getTopFolderNameInPath (getStandardizedPath folderPath)).2 = 0 then
        getOrCreateChild rx f (getTopFolderNameInPath (getStandardizedPath folderPath)).1
      else
        match (getOrCreateChild rx f
            (getTopFolderNameInPath (getStandardizedPath folderPath)).1).2 with
        | some [i] =>
          match (getOrCreateChild rx f
              (getTopFolderNameInPath (getStandardizedPath folderPath)).1).1.ChildFolders[i]? with
          | some child =>
            (((getOrCreateChild rx f
                (getTopFolderNameInPath (getStandardizedPath folderPath)).1).1).setChildAt i
              (createFolderIfNotExistFuel rx fuel child
                (getFolderPathTail (getStandardizedPath folderPath))).1,
             (createFolderIfNotExistFuel rx fuel child
                (getFolderPathTail (getStandardizedPath folderPath))).2.map (i :: ·))
          | none => ((getOrCreateChild rx f
              (getTopFolderNameInPath (getStandardizedPath folderPath)).1).1, none)
        | _ => ((getOrCreateChild rx f
              (getTopFolderNameInPath (getStandardizedPath folderPath)).1).1, none) := by
  rfl

theorem Name_createFolderIfNotExistFuel (rx : PathRegexes) (fuel : Nat) (f : Folder)
    (folderPath : String) :
    (createFolderIfNotExistFuel rx fuel f folderPath).1.Name = f.Name := by
  cases fuel with
  | zero => rfl
  | succ n =>
    rw [createFolderIfNotExistFuel_succ]
    obtain ⟨i, child, h2, _, hc, _⟩ := getOrCreateChild_spec rx f
      (getTopFolderNameInPath (getStandardizedPath folderPath)).1
    split
    · exact Name_getOrCreateChild rx f _
    · simp only [h2, hc, setChildAt, Name_setChildFolders]
      exact Name_getOrCreateChild rx f _

theorem createFolderIfNotExistFuel_idem (rx : PathRegexes) (fuel : Nat) (f : Folder)
    (folderPath : String) :
    createFolderIfNotExistFuel rx fuel (createFolderIfNotExistFuel rx fuel f folderPath).1
      folderPath = createFolderIfNotExistFuel rx fuel f folderPath := by
  induction fuel generalizing f folderPath with
  | zero => rfl
  | succ n ih =>
    rw [createFolderIfNotExistFuel_succ rx n f, createFolderIfNotExistFuel_succ]
    obtain ⟨i, child, h2, hg, hc, hn⟩ := getOrCreateChild_spec rx f
      (getTopFolderNameInPath (getStandardizedPath folderPath)).1
    split
    · exact getOrCreateChild_idem rx f _
    · simp only [h2, hc]
      have hname : (createFolderIfNotExistFuel rx n child
          (getFolderPathTail (getStandardizedPath folderPath))).1.Name =
          (getTopFolderNameInPath (getStandardizedPath folderPath)).1 := by
        rw [Name_createFolderIfNotExistFuel, hn]
      have hg2 := getChildFolderLoop_set _ _ i _ hg hname
      have hlt : i < (getOrCreateChild rx f
          (getTopFolderNameInPath (getStandardizedPath folderPath)).1).1.ChildFolders.length := by
        rcases Nat.lt_or_ge i (getOrCreateChild rx f
          (getTopFolderNameInPath (getStandardizedPath folderPath)).1).1.ChildFolders.length
          with hl | hl
        · exact hl
        · rw [List.getElem?_eq_none hl] at hc
          exact absurd hc (by simp)
      rw [getOrCreateChild_of_get rx _ _ i (by simpa [setChildAt] using hg2)]
      simp only [setChildAt, ChildFolders_setChildFolders, List.getElem?_set_self hlt, ih,
        List.set_set, setChildFolders_setChildFolders]

/-! ### The tree builder returns a node of the tree -/

theorem deref_setChildAt (f child : Folder) (i : Nat) (r : FolderRef)
    (h : i < f.ChildFolders.length) : (f.setChildAt i child).deref (i :: r) = child.deref r := by
  simp [deref, setChildAt, List.getElem?_set_self h]

theorem createFolderIfNotExistFuel_returns (rx : PathRegexes) (fuel : Nat) (f : Folder)
    (folderPath : String) (hfuel : numPieces folderPath ≤ fuel) :
    ∃ r node, (createFolderIfNotExistFuel rx fuel f folderPath).2 = some r ∧
      (createFolderIfNotExistFuel rx fuel f folderPath).1.deref r = some node := by
  induction fuel generalizing f folderPath with
  | zero =>
    have := numPieces_pos folderPath
    omega
  | succ n ih =>
    rw [createFolderIfNotExistFuel_succ]
    obtain ⟨i, child, h2, hg, hc, hn⟩ := getOrCreateChild_spec rx f
      (getTopFolderNameInPath (getStandardizedPath folderPath)).1
    split
    · exact ⟨[i], child, h2, by simp [deref, hc]⟩
    · rename_i hk
      simp only [h2, hc]
      have h1 := numPieces_getFolderPathTail (getStandardizedPath folderPath) hk
      have h3 := numPieces_getStandardizedPath folderPath
      obtain ⟨r, node, hr, hnode⟩ := ih child
        (getFolderPathTail (getStandardizedPath folderPath)) (by omega)
      have hlt : i < (getOrCreateChild rx f
          (getTopFolderNameInPath (getStandardizedPath folderPath)).1).1.ChildFolders.length := by
        rcases Nat.lt_or_ge i (getOrCreateChild rx f
          (getTopFolderNameInPath (getStandardizedPath folderPath)).1).1.ChildFolders.length
          with hl | hl
        · exact hl
        · rw [List.getElem?_eq_none hl] at hc
          exact absurd hc (by simp)
      refine ⟨i :: r, node, by simp [hr], ?_⟩
      rw [deref_setChildAt _ _ _ _ hlt]
      exact hnode

/-- C1: CreateFolderIfNotExist is idempotent. The first call on a tree `f` with a path `P`
returns a reference to a node of the tree it leaves; a second call with `P` on that tree
returns the same reference and leaves the tree as it was, so no folder is added or
duplicated. -/
theorem CreateFolderIfNotExist_idempotent (rx : PathRegexes) (f : Folder) (P : String) :
    (CreateFolderIfNotExist rx (CreateFolderIfNotExist rx f P).1 P).1 =
        (CreateFolderIfNotExist rx f P).1 ∧
      (CreateFolderIfNotExist rx (CreateFolderIfNotExist rx f P).1 P).2 =
        (CreateFolderIfNotExist rx f P).2 ∧
      ∃ r node, (CreateFolderIfNotExist rx f P).2 = some r ∧
        (CreateFolderIfNotExist rx f P).1.deref r = some node := by
  unfold CreateFolderIfNotExist
  rw [createFolderIfNotExistFuel_idem]
  exact ⟨rfl, rfl, createFolderIfNotExistFuel_returns rx _ f P (Nat.le_refl _)⟩

/-! ### The tree builder on a new root -/

theorem createFolderIfNotExistFuel_plain (rx : PathRegexes) (segs : List String) :
    ∀ (fuel : Nat) (f : Folder) (done : List String), f.ChildFolders = [] →
      f.OutputPath = stringsJoin done '/' → (∀ t ∈ done, IsPlainSegment t) → segs ≠ [] →
      (∀ s ∈ segs, IsPlainSegment s) → segs.length ≤ fuel →
      createFolderIfNotExistFuel rx fuel f (stringsJoin segs '/') =
        (f.setChildFolders (nestedFolders rx done segs), some (List.replicate segs.length 0)) := by
  induction segs with
  | nil => intro _ _ _ _ _ _ hne; exact absurd rfl hne
  | cons s rest ih =>
    intro fuel f done hcs hout hdone _ hsegs hfuel
    cases fuel with
    | zero => simp at hfuel
    | succ n =>
      have hs := hsegs s (by simp)
      have hhas : f.HasChildFolder s = false := by simp [HasChildFolder, hcs, hasChildFolderLoop]
      have hgoc : getOrCreateChild rx f s =
          (f.setChildFolders [NewFolder rx (stringsJoin (done ++ [s]) '/') s], some [0]) := by
        simp [getOrCreateChild, hhas, AddFolder, hcs, hout, filepathJoin_plain done s hdone hs]
      rw [createFolderIfNotExistFuel_succ, getStandardizedPath_plain s rest hs,
        getTopFolderNameInPath_plain s rest hsegs, getFolderPathTail_plain s rest hsegs, hgoc]
      cases rest with
      | nil => simp [nestedFolders, NewFolder]
      | cons t rest2 =>
        have hrec := ih n (NewFolder rx (stringsJoin (done ++ [s]) '/') s) (done ++ [s]) rfl rfl
          (by
            intro u hu
            rcases List.mem_append.1 hu with hu | hu
            · exact hdone u hu
            · simp at hu
              subst hu
              exact hs)
          (by simp) (fun u hu => hsegs u (by simp [hu])) (by simpa using hfuel)
        simp only [List.length_cons, Nat.add_one_ne_zero, if_false, ChildFolders_setChildFolders,
          List.getElem?_cons_zero, hrec, setChildAt, List.set_cons_zero,
          setChildFolders_setChildFolders, Option.map_some', List.replicate_succ]
        simp [nestedFolders, NewFolder, setChildFolders]

theorem deref_zero_setChildFolders (f child : Folder) (cs : List Folder) (r : FolderRef) :
    (f.setChildFolders (child :: cs)).deref (0 :: r) = child.deref r := by
  simp [deref]

theorem deref_nestedFolders (rx : PathRegexes) (segs : List String) (hne : segs ≠ []) :
    ∀ (f : Folder) (done : List String),
      ∃ node, (f.setChildFolders (nestedFolders rx done segs)).deref
          (List.replicate segs.length 0) = some node ∧
        node.Name = segs.getLast hne ∧ node.ChildFolders = [] ∧
        node.OutputPath = stringsJoin (done ++ segs) '/' := by
  induction segs with
  | nil => exact absurd rfl hne
  | cons s rest ih =>
    intro f done
    cases rest with
    | nil =>
      refine ⟨Folder.mk (stringsJoin (done ++ [s]) '/') s [] [] false
          (rx.matchesPackageFolderRegex (stringsJoin (done ++ [s]) '/'))
          (rx.matchesModuleFolderRegex (stringsJoin (done ++ [s]) '/')), ?_, rfl, rfl, rfl⟩
      simp only [nestedFolders, List.length_singleton, List.replicate_succ, List.replicate_zero,
        deref_zero_setChildFolders]
      rfl
    | cons t rest2 =>
      obtain ⟨node, h1, h2, h3, h4⟩ := ih (by simp)
        (Folder.mk (stringsJoin (done ++ [s]) '/') s [] [] false
          (rx.matchesPackageFolderRegex (stringsJoin (done ++ [s]) '/'))
          (rx.matchesModuleFolderRegex (stringsJoin (done ++ [s]) '/'))) (done ++ [s])
      refine ⟨node, ?_, by simpa using h2, h3, by simpa using h4⟩
      rw [← h1]
      rw [nestedFolders, List.length_cons, List.replicate_succ, deref_zero_setChildFolders]
      rfl

/-- C2: for a path `s1/.../sn` of `n ≥ 1` plain segments (not empty, without `/`, neither `.`
nor `..`), CreateFolderIfNotExist on a new root folder leaves the root with exactly the chain
of `n` folders named `s1, ..., sn`, each the only child of the one before, the k-th with output
path `s1/.../sk`, which is its parent's output path joined with its own name; the reference
returned is the innermost folder, named `sn`, which has no child. -/
theorem CreateFolderIfNotExist_new_root (rx : PathRegexes) (segs : List String)
    (hne : segs ≠ []) (h : ∀ s ∈ segs, IsPlainSegment s) :
    CreateFolderIfNotExist rx NewRootFolder (stringsJoin segs '/') =
        (NewRootFolder.setChildFolders (nestedFolders rx [] segs),
          some (List.replicate segs.length 0)) ∧
      (∀ (done : List String) (s : String), done ++ [s] <+: segs →
        filepathJoin [stringsJoin done '/', s] = stringsJoin (done ++ [s]) '/') ∧
      ∃ node, (NewRootFolder.setChildFolders (nestedFolders rx [] segs)).deref
          (List.replicate segs.length 0) = some node ∧
        node.Name = segs.getLast hne ∧ node.ChildFolders = [] ∧
        node.OutputPath = stringsJoin segs '/' := by
  refine ⟨?_, ?_, ?_⟩
  · unfold CreateFolderIfNotExist
    rw [stringsSplit_stringsJoin_plain segs hne h]
    exact createFolderIfNotExistFuel_plain rx segs _ NewRootFolder [] rfl rfl (by simp) hne h
      (Nat.le_refl _)
  · intro done s hpre
    have hmem : ∀ t ∈ done ++ [s], IsPlainSegment t := fun t ht => h t (hpre.subset ht)
    exact filepathJoin_plain done s (fun t ht => hmem t (by simp [ht])) (hmem s (by simp))
  · simpa using deref_nestedFolders rx segs hne NewRootFolder []

/-- C2 at the path of the spec: `packages/module-vpc/modules/vpc-app` gives four nested
folders, and the reference returned leads to the fourth. -/
theorem CreateFolderIfNotExist_new_root_witness :
    CreateFolderIfNotExist segmentRegexes NewRootFolder "packages/module-vpc/modules/vpc-app" =
      (Folder.mk "" "ROOT-FOLDER" []
        [Folder.mk "packages" "packages" []
          [Folder.mk "packages/module-vpc" "module-vpc" []
            [Folder.mk "packages/module-vpc/modules" "modules" []
              [Folder.mk "packages/module-vpc/modules/vpc-app" "vpc-app" [] [] false false true]
              false false false]
            false true false]
          false false false]
        true false false, some [0, 0, 0, 0]) :=
  (CreateFolderIfNotExist_new_root segmentRegexes
    ["packages", "module-vpc", "modules", "vpc-app"] (by decide) (by decide)).1

/-! ### The lookup helpers -/

/-- C3: on the tree `r > a > b`, where only the grandchild is named `b`, GetFolder "b" called
on `r` returns the child `a`, the folder in which the search succeeded, and not the folder
named `b`, which is the child of `a`. -/
theorem GetFolder_returns_enclosing_child :
    (Folder.mk "" "r" []
        [Folder.mk "a" "a" [] [Folder.mk "a/b" "b" [] [] false false false] false false false]
        false false false).GetFolder "b" = some [0] ∧
      ((Folder.mk "" "r" []
        [Folder.mk "a" "a" [] [Folder.mk "a/b" "b" [] [] false false false] false false false]
        false false false).deref [0]).map Folder.Name = some "a" ∧
      ((Folder.mk "" "r" []
        [Folder.mk "a" "a" [] [Folder.mk "a/b" "b" [] [] false false false] false false false]
        false false false).deref [0, 0]).map Folder.Name = some "b" := by
  decide

theorem deref_cons_iff (f : Folder) (i : Nat) (r : FolderRef) (node : Folder) :
    f.deref (i :: r) = some node ↔ ∃ c, f.ChildFolders[i]? = some c ∧ c.deref r = some node := by
  have e : f.deref (i :: r) =
      match f.ChildFolders[i]? with
      | some child => child.deref r
      | none => none := rfl
  rw [e]
  cases f.ChildFolders[i]? with
  | none => simp
  | some c => simp

mutual
theorem ContainsFolderRecursive_iff_aux : ∀ (f : Folder) (name : String),
    f.ContainsFolderRecursive name = true ↔ ∃ r node, f.deref r = some node ∧ node.Name = name
  | mk p n ps cs rt pk m, name => by
    have ih := containsFolderLoop_iff_aux cs name
    unfold ContainsFolderRecursive
    by_cases h : n = name
    · rw [if_pos h]
      simp only [true_iff]
      exact ⟨[], _, rfl, h⟩
    · rw [if_neg h, ih]
      constructor
      · rintro ⟨i, c, r, node, h1, h2, h3⟩
        exact ⟨i :: r, node, (deref_cons_iff _ i r node).2 ⟨c, h1, h2⟩, h3⟩
      · rintro ⟨r, node, h1, h2⟩
        cases r with
        | nil =>
          simp only [deref, Option.some.injEq] at h1
          subst h1
          exact absurd h2 h
        | cons i r =>
          obtain ⟨c, h3, h4⟩ := (deref_cons_iff _ i r node).1 h1
          exact ⟨i, c, r, node, h3, h4, h2⟩
theorem containsFolderLoop_iff_aux : ∀ (cs : List Folder) (name : String),
    containsFolderLoop cs name = true ↔
      ∃ (i : Nat) (c : Folder) (r : FolderRef) (node : Folder),
        cs[i]? = some c ∧ c.deref r = some node ∧ node.Name = name
  | [], name => by simp [containsFolderLoop]
  | c :: cs, name => by
    have ih1 := ContainsFolderRecursive_iff_aux c name
    have ih2 := containsFolderLoop_iff_aux cs name
    unfold containsFolderLoop
    by_cases h : c.ContainsFolderRecursive name = true
    · rw [if_pos h]
      simp only [true_iff]
      obtain ⟨r, node, h1, h2⟩ := ih1.1 h
      exact ⟨0, c, r, node, by simp, h1, h2⟩
    · rw [if_neg h, ih2]
      constructor
      · rintro ⟨i, d, r, node, h1, h2, h3⟩
        exact ⟨i + 1, d, r, node, by simpa using h1, h2, h3⟩
      · rintro ⟨i, d, r, node, h1, h2, h3⟩
        cases i with
        | zero =>
          simp only [List.getElem?_cons_zero, Option.some.injEq] at h1
          subst h1
          exact absurd (ih1.2 ⟨r, node, h2, h3⟩) h
        | succ i => exact ⟨i, d, r, node, by simpa using h1, h2, h3⟩
end

/-- C4: ContainsFolderRecursive answers true exactly when the name is the Name of a folder of
the tree of `f`: of `f` itself (the empty reference) or of a descendant at any depth (the
node at a reference of any length). -/
theorem ContainsFolderRecursive_iff (f : Folder) (name : String) :
    f.ContainsFolderRecursive name = true ↔
      ∃ r node, f.deref r = some node ∧ node.Name = name :=
  ContainsFolderRecursive_iff_aux f name

/-- C5, as stated, fails: a parent that already has a child named `x` returns that first
child, at position 0, for GetChildFolder "x" after AddFolder of another folder named `x`,
which is the child at position 1. -/
theorem GetChildFolder_after_AddFolder_first_match :
    ((Folder.mk "p" "p" [] [Folder.mk "p/x" "x" [] [] false false false]
          false false false).AddFolder
        (Folder.mk "q/x" "x" [] [] false false false)).GetChildFolder "x" = some [0] ∧
      (((Folder.mk "p" "p" [] [Folder.mk "p/x" "x" [] [] false false false]
          false false false).AddFolder
        (Folder.mk "q/x" "x" [] [] false false false)).deref [0]).map Folder.OutputPath =
        some "p/x" ∧
      (((Folder.mk "p" "p" [] [Folder.mk "p/x" "x" [] [] false false false]
          false false false).AddFolder
        (Folder.mk "q/x" "x" [] [] false false false)).deref [1]).map Folder.OutputPath =
        some "q/x" := by
  decide

/-- C5, amended: when the parent has no child folder named as the child, after AddFolder the
call GetChildFolder with the name of the child returns the reference to the position at which
the child was attached, where the node is that child. -/
theorem GetChildFolder_after_AddFolder (parent child : Folder)
    (h : parent.HasChildFolder child.Name = false) :
    (parent.AddFolder child).GetChildFolder child.Name = some [parent.ChildFolders.length] ∧
      (parent.AddFolder child).deref [parent.ChildFolders.length] = some child := by
  constructor
  · simp only [GetChildFolder, AddFolder, ChildFolders_setChildFolders]
    rw [getChildFolderLoop_append_new child.Name _ child h rfl]
    rfl
  · simp [deref, AddFolder]

/-- C5, amended, at a parent with a child named `y` and a new child named `x`. -/
theorem GetChildFolder_after_AddFolder_witness :
    ((Folder.mk "p" "p" [] [Folder.mk "p/y" "y" [] [] false false false]
          false false false).AddFolder
        (Folder.mk "p/x" "x" [] [] false false false)).GetChildFolder "x" = some [1] ∧
      ((Folder.mk "p" "p" [] [Folder.mk "p/y" "y" [] [] false false false]
          false false false).AddFolder
        (Folder.mk "p/x" "x" [] [] false false false)).deref [1] =
        some (Folder.mk "p/x" "x" [] [] false false false) :=
  GetChildFolder_after_AddFolder
    (Folder.mk "p" "p" [] [Folder.mk "p/y" "y" [] [] false false false] false false false)
    (Folder.mk "p/x" "x" [] [] false false false) (by decide)

/-- C6: HasChildFolder answers true exactly when a direct child folder has the name, and
GetChildFolder agrees with it: either HasChildFolder is false and GetChildFolder returns nil,
or HasChildFolder is true and GetChildFolder returns the reference to a direct child, the
first one, whose Name is the name. -/
theorem HasChildFolder_GetChildFolder (f : Folder) (name : String) :
    (f.HasChildFolder name = true ↔ ∃ c ∈ f.ChildFolders, c.Name = name) ∧
      ((f.HasChildFolder name = false ∧ f.GetChildFolder name = none) ∨
        (f.HasChildFolder name = true ∧ ∃ i c, f.GetChildFolder name = some [i] ∧
          f.ChildFolders[i]? = some c ∧ c.Name = name ∧
          ∀ j < i, ∀ d, f.ChildFolders[j]? = some d → d.Name ≠ name)) := by
  refine ⟨hasChildFolderLoop_iff name f.ChildFolders, ?_⟩
  unfold HasChildFolder GetChildFolder
  cases hg : getChildFolderLoop name f.ChildFolders with
  | none => exact Or.inl ⟨(getChildFolderLoop_eq_none name _).1 hg, rfl⟩
  | some i =>
    obtain ⟨c, hc, hn, hfirst⟩ := getChildFolderLoop_some name _ i hg
    exact Or.inr ⟨hasChildFolderLoop_of_get name _ i hg, i, c, rfl, hc, hn, hfirst⟩

/-! ### The renderer -/

@[simp] theorem IsRoot_setChildFolders (f : Folder) (cs : List Folder) :
    (f.setChildFolders cs).IsRoot = f.IsRoot := by
  cases f; rfl

@[simp] theorem IsPackageFolder_setChildFolders (f : Folder) (cs : List Folder) :
    (f.setChildFolders cs).IsPackageFolder = f.IsPackageFolder := by
  cases f; rfl

@[simp] theorem Name_setChildPages (f : Folder) (ps : List Page) :
    (f.setChildPages ps).Name = f.Name := by
  cases f; rfl

@[simp] theorem IsRoot_setChildPages (f : Folder) (ps : List Page) :
    (f.setChildPages ps).IsRoot = f.IsRoot := by
  cases f; rfl

@[simp] theorem IsPackageFolder_setChildPages (f : Folder) (ps : List Page) :
    (f.setChildPages ps).IsPackageFolder = f.IsPackageFolder := by
  cases f; rfl

@[simp] theorem ChildFolders_setChildPages (f : Folder) (ps : List Page) :
    (f.setChildPages ps).ChildFolders = f.ChildFolders := by
  cases f; rfl

@[simp] theorem ChildPages_setChildPages (f : Folder) (ps : List Page) :
    (f.setChildPages ps).ChildPages = ps := by
  cases f; rfl

theorem childFolderItems_fst (h : NavHelpers) (activePage : Page) (isRoot : Bool)
    (recurse : Folder → String × Folder) (l : List Folder) :
    (childFolderItems h activePage isRoot recurse l).1 =
      concatAll (l.map (fun c => childFolderItem h activePage isRoot c (recurse c).1)) := by
  induction l with
  | nil => rfl
  | cons c rest ih => simp [childFolderItems, concatAll, ih]

theorem childFolderItems_snd (h : NavHelpers) (activePage : Page) (isRoot : Bool)
    (recurse : Folder → String × Folder) (l : List Folder) :
    (childFolderItems h activePage isRoot recurse l).2 = l.map (fun c => (recurse c).2) := by
  induction l with
  | nil => rfl
  | cons c rest ih => simp [childFolderItems, ih]

theorem childFolderItems_congr (h : NavHelpers) (activePage : Page) (isRoot : Bool)
    (r1 r2 : Folder → String × Folder) (l : List Folder) (hl : ∀ c ∈ l, r1 c = r2 c) :
    childFolderItems h activePage isRoot r1 l = childFolderItems h activePage isRoot r2 l := by
  induction l with
  | nil => rfl
  | cons c rest ih =>
    simp only [childFolderItems, hl c (by simp), ih (fun d hd => hl d (by simp [hd]))]

theorem navTreeHtmlFuel_succ (h : NavHelpers) (activePage : Page) (fuel : Nat) (f : Folder) :
    navTreeHtmlFuel h activePage (fuel + 1) f =
      (listOpening (sortChildren h f) ++
          concatAll ((sortChildren h f).ChildFolders.map (fun c =>
            childFolderItem h activePage (sortChildren h f).IsRoot c
              (navTreeHtmlFuel h activePage fuel c).1)) ++
          listClosing (sortChildren h f),
        (sortChildren h f).setChildFolders
          ((sortChildren h f).ChildFolders.map (fun c =>
            (navTreeHtmlFuel h activePage fuel c).2))) := by
  rw [navTreeHtmlFuel]
  simp only [childFolderItems_fst, childFolderItems_snd]

theorem depth_eq (f : Folder) : f.depth = depthList f.ChildFolders + 1 := by
  cases f
  rw [depth]
  rfl

theorem depth_le_depthList (l : List Folder) (c : Folder) (hc : c ∈ l) :
    c.depth ≤ depthList l := by
  induction l with
  | nil => simp at hc
  | cons d rest ih =>
    rw [depthList]
    rcases List.mem_cons.1 hc with rfl | hc
    · exact Nat.le_max_left _ _
    · exact Nat.le_trans (ih hc) (Nat.le_max_right _ _)

theorem depthList_le_of_subset (l l2 : List Folder) (hsub : ∀ c ∈ l, c ∈ l2) :
    depthList l ≤ depthList l2 := by
  induction l with
  | nil => simp [depthList]
  | cons d rest ih =>
    rw [depthList]
    exact Nat.max_le.2 ⟨depth_le_depthList l2 d (hsub d (by simp)),
      ih (fun c hc => hsub c (by simp [hc]))⟩

theorem depthList_sortChildren (h : NavHelpers) (f : Folder)
    (hre : ∀ l, depthList (h.reorderFoldersToMatchTopLevelFolderOrdering l) ≤ depthList l) :
    depthList (sortChildren h f).ChildFolders ≤ depthList f.ChildFolders := by
  unfold sortChildren
  split
  · simpa using hre f.ChildFolders
  · simp only [ChildFolders_setChildPages, ChildFolders_setChildFolders]
    exact depthList_le_of_subset _ _
      (fun c hc => (sortFolders_perm h.longSort f.ChildFolders).subset hc)

/-- The bound on the recursion of the renderer is never reached: with a reordering of the
top-level folders that brings in no deeper folder, every bound from the depth of the tree on
gives the same result. -/
theorem navTreeHtmlFuel_of_depth_le (h : NavHelpers) (activePage : Page)
    (hre : ∀ l, depthList (h.reorderFoldersToMatchTopLevelFolderOrdering l) ≤ depthList l)
    (n m : Nat) (f : Folder) (hn : f.depth ≤ n) (hm : f.depth ≤ m) :
    navTreeHtmlFuel h activePage n f = navTreeHtmlFuel h activePage m f := by
  induction n generalizing m f with
  | zero =>
    rw [depth_eq] at hn
    omega
  | succ n ih =>
    cases m with
    | zero =>
      rw [depth_eq] at hm
      omega
    | succ m =>
      rw [navTreeHtmlFuel, navTreeHtmlFuel]
      have hd := depthList_sortChildren h f hre
      rw [depth_eq] at hn hm
      rw [childFolderItems_congr h activePage _ (navTreeHtmlFuel h activePage n)
        (navTreeHtmlFuel h activePage m)]
      intro c hc
      have hcd := depth_le_depthList _ c hc
      exact ih m c (by omega) (by omega)

theorem sortChildren_of_not_root (h : NavHelpers) (f : Folder) (hroot : f.IsRoot = false) :
    sortChildren h f =
      (f.setChildFolders (sortFolders h.longSort f.ChildFolders)).setChildPages
        (sortPages h.longSort f.ChildPages) := by
  simp [sortChildren, hroot]

/-- C9: rendering a non-root folder with getAsNavTreeHtmlAux lists its child folders in
ascending order of Name. The list sortFolders leaves is a permutation of the child folders
before the render and is ascending by Name (Folders.Less is a strict weak ordering; for more
than 12 child folders this is the contract of the sort of the library, taken as hypothesis);
the fragment is the opening of the list, the list items of the folders of that list in its
order, and the closing; the child folders stored after the render are the folders of that
list in its order, each as its own render left it, with the Names unchanged. -/
theorem getAsNavTreeHtmlAux_sorts_child_folders (h : NavHelpers) (activePage : Page)
    (f : Folder) (hroot : f.IsRoot = false) (hsorts : h.longSort.SortsStrictWeakOrders) :
    (sortFolders h.longSort f.ChildFolders).Perm f.ChildFolders ∧
      (sortFolders h.longSort f.ChildFolders).Pairwise (fun a b => a.Name ≤ b.Name) ∧
      (f.getAsNavTreeHtmlAux h activePage).1 =
        listOpening f ++
          concatAll ((sortFolders h.longSort f.ChildFolders).map (fun c =>
            childFolderItem h activePage false c
              (navTreeHtmlFuel h activePage (f.depth - 1) c).1)) ++
          listClosing f ∧
      (f.getAsNavTreeHtmlAux h activePage).2.ChildFolders =
        (sortFolders h.longSort f.ChildFolders).map (fun c =>
          (navTreeHtmlFuel h activePage (f.depth - 1) c).2) ∧
      (f.getAsNavTreeHtmlAux h activePage).2.ChildFolders.map Folder.Name =
        (sortFolders h.longSort f.ChildFolders).map Folder.Name := by
  have hlen : (sortFolders h.longSort f.ChildFolders).length = f.ChildFolders.length :=
    (sortFolders_perm h.longSort f.ChildFolders).length_eq
  have hopen : listOpening (sortChildren h f) = listOpening f := by
    simp [listOpening, sortChildren_of_not_root h f hroot, hlen]
  have hclose : listClosing (sortChildren h f) = listClosing f := by
    simp [listClosing, sortChildren_of_not_root h f hroot, hlen]
  have hname : ∀ (n : Nat) (c : Folder), (navTreeHtmlFuel h activePage n c).2.Name = c.Name := by
    intro n c
    cases n with
    | zero => rfl
    | succ n =>
      rw [navTreeHtmlFuel_succ]
      simp only [Name_setChildFolders]
      unfold sortChildren
      split <;> simp
  have hunfold : f.getAsNavTreeHtmlAux h activePage =
      navTreeHtmlFuel h activePage (f.depth - 1 + 1) f := by
    unfold getAsNavTreeHtmlAux
    rw [depth_eq]
    rfl
  rw [hunfold, navTreeHtmlFuel_succ, hopen, hclose]
  refine ⟨sortFolders_perm _ _, sortFolders_pairwise _ hsorts _, ?_, ?_, ?_⟩
  · simp [sortChildren_of_not_root h f hroot, hroot]
  · simp [sortChildren_of_not_root h f hroot]
  · simp [sortChildren_of_not_root h f hroot, Function.comp_def, hname]

/-- C9 at a folder `lib` whose child folders were added as zeta, Alpha, beta: they are listed
as Alpha, beta, zeta, upper case before lower case. -/
theorem getAsNavTreeHtmlAux_sorts_child_folders_witness :
    plainHelpers.longSort.SortsStrictWeakOrders ∧
      (Folder.getAsNavTreeHtmlAux plainHelpers
        (Folder.mk "lib" "lib" []
          [Folder.mk "lib/zeta" "zeta" [] [] false false false,
           Folder.mk "lib/Alpha" "Alpha" [] [] false false false,
           Folder.mk "lib/beta" "beta" [] [] false false false] false false false)
        ⟨1, "Zeta"⟩).1 =
      "<ul><li class='folder'><a href='#'>Alpha</a></li>" ++
        "<li class='folder'><a href='#'>beta</a></li>" ++
        "<li class='folder'><a href='#'>zeta</a></li></ul>" ∧
      (Folder.getAsNavTreeHtmlAux plainHelpers
        (Folder.mk "lib" "lib" []
          [Folder.mk "lib/zeta" "zeta" [] [] false false false,
           Folder.mk "lib/Alpha" "Alpha" [] [] false false false,
           Folder.mk "lib/beta" "beta" [] [] false false false] false false false)
        ⟨1, "Zeta"⟩).2.ChildFolders.map Folder.Name = ["Alpha", "beta", "zeta"] := by
  have key := getAsNavTreeHtmlAux_sorts_child_folders plainHelpers ⟨1, "Zeta"⟩
    (Folder.mk "lib" "lib" []
      [Folder.mk "lib/zeta" "zeta" [] [] false false false,
       Folder.mk "lib/Alpha" "Alpha" [] [] false false false,
       Folder.mk "lib/beta" "beta" [] [] false false false] false false false) rfl
    insertionLongSliceSort_sortsStrictWeakOrders
  refine ⟨insertionLongSliceSort_sortsStrictWeakOrders, ?_, ?_⟩
  · rw [key.2.2.1]
    decide
  · rw [key.2.2.2.2]
    decide

set_option maxRecDepth 100000 in
/-- C8: on the tree in which the pages Zeta, Overview and Beta were added in this order to the
folder `docs` under the root, the first render lists the page items of `docs` in the order
Zeta, Overview, Beta: the pages of a child folder are written before the recursive call on
that folder sorts them. The render of the tree left by the first one lists them as Overview,
Beta, Zeta. -/
theorem GetAsNavTreeHtml_first_render_keeps_insertion_order :
    (docsTree.GetAsNavTreeHtml plainHelpers ⟨9, "Home"⟩).1 =
        "<ul><li class='folder top_level_folder'><a href='#'>docs</a><ul class='hidden'>" ++
          "<li class='page'><a href='Zeta'>Zeta</a></li>" ++
          "<li class='page'><a href='Overview'>Overview</a></li>" ++
          "<li class='page'><a href='Beta'>Beta</a></li>" ++ "</ul></li></ul>" ∧
      ((docsTree.GetAsNavTreeHtml plainHelpers ⟨9, "Home"⟩).2.GetAsNavTreeHtml plainHelpers
          ⟨9, "Home"⟩).1 =
        "<ul><li class='folder top_level_folder'><a href='#'>docs</a><ul class='hidden'>" ++
          "<li class='page'><a href='Overview'>Overview</a></li>" ++
          "<li class='page'><a href='Beta'>Beta</a></li>" ++
          "<li class='page'><a href='Zeta'>Zeta</a></li>" ++ "</ul></li></ul>" := by
  decide

/-- C10, as stated, fails: the role classes replace one another. A package folder under the
root gets `package_folder` alone, a module folder under the root `module_folder` alone, and a
folder that is both a package and a module folder `module_folder` alone; the fragment of a
root with one package folder shows the class attribute `folder package_folder`. -/
theorem cssClasses_later_class_replaces_earlier :
    cssClassesOf true (Folder.mk "packages/vpc" "vpc" [] [] false true false) =
        " package_folder" ∧
      cssClassesOf true (Folder.mk "m" "m" [] [] false false true) = " module_folder" ∧
      cssClassesOf false (Folder.mk "pm" "pm" [] [] false true true) = " module_folder" ∧
      (Folder.GetAsNavTreeHtml plainHelpers
        (Folder.mk "" "ROOT-FOLDER" []
          [Folder.mk "packages/vpc" "vpc" [] [] false true false] true false false)
        ⟨9, "Home"⟩).1 =
        "<ul><li class='folder package_folder'><a href='#'>vpc</a></li></ul>" := by
  decide

/-- C10, amended: the list item rendered for a child folder `c` of `f` opens with the class
attribute `folder` followed by one role class at most, the last one whose condition holds:
`module_folder` when `c` is a module folder, else `package_folder` when `c` is a package
folder, else `top_level_folder` when `f` is the root, else none. -/
theorem childFolderItem_class_attribute (h : NavHelpers) (activePage : Page) (f c : Folder)
    (sub : String) :
    cssClassesOf f.IsRoot c =
        (if c.IsModuleFolder then " module_folder"
         else if c.IsPackageFolder then " package_folder"
         else if f.IsRoot then " top_level_folder"
         else "") ∧
      ∃ rest, childFolderItem h activePage f.IsRoot c sub =
        "<li class='folder" ++ cssClassesOf f.IsRoot c ++ "'>" ++ rest := by
  constructor
  · unfold cssClassesOf
    cases c.IsModuleFolder <;> cases c.IsPackageFolder <;> cases f.IsRoot <;> rfl
  · have e : "'><a href='#'>" = "'>" ++ "<a href='#'>" := by decide
    unfold childFolderItem
    simp only [e]
    split
    · exact ⟨_, by simp only [String.append_assoc]; rfl⟩
    · exact ⟨_, by simp only [String.append_assoc]; rfl⟩

/-! ### The bound on the recursion of the tree builder -/

theorem createFolderIfNotExistFuel_congr_path (rx : PathRegexes) (fuel : Nat) (f : Folder)
    (p q : String) (h : getStandardizedPath p = getStandardizedPath q) :
    createFolderIfNotExistFuel rx (fuel + 1) f p = createFolderIfNotExistFuel rx (fuel + 1) f q := by
  rw [createFolderIfNotExistFuel_succ, createFolderIfNotExistFuel_succ, h]

theorem createFolderIfNotExistFuel_of_le (rx : PathRegexes) (n m : Nat) (f : Folder)
    (folderPath : String) (hn : numPieces folderPath ≤ n) (hm : numPieces folderPath ≤ m) :
    createFolderIfNotExistFuel rx n f folderPath =
      createFolderIfNotExistFuel rx m f folderPath := by
  induction n generalizing m f folderPath with
  | zero =>
    have := numPieces_pos folderPath
    omega
  | succ n ih =>
    cases m with
    | zero =>
      have := numPieces_pos folderPath
      omega
    | succ m =>
      rw [createFolderIfNotExistFuel_succ, createFolderIfNotExistFuel_succ]
      split
      · rfl
      · rename_i hk
        have h1 := numPieces_getFolderPathTail (getStandardizedPath folderPath) hk
        have h3 := numPieces_getStandardizedPath folderPath
        split
        · split
          · rename_i child _
            rw [ih m child (getFolderPathTail (getStandardizedPath folderPath)) (by omega)
              (by omega)]
          · rfl
        · rfl

/-- C18: CreateFolderIfNotExist terminates on every tree and every path. The call either is
the base case or makes its recursive call on a tail with fewer pieces than the path it was
given; hence a depth of recursion of the number of pieces of the path is never exceeded: every
larger bound gives the same result, and the result is a reference to a node of the tree. -/
theorem CreateFolderIfNotExist_terminates (rx : PathRegexes) (f : Folder) (folderPath : String) :
    ((getTopFolderNameInPath (getStandardizedPath folderPath)).2 = 0 ∨
        numPieces (getFolderPathTail (getStandardizedPath folderPath)) < numPieces folderPath) ∧
      (∀ k, createFolderIfNotExistFuel rx (numPieces folderPath + k) f folderPath =
        CreateFolderIfNotExist rx f folderPath) ∧
      ∃ r node, (CreateFolderIfNotExist rx f folderPath).2 = some r ∧
        (CreateFolderIfNotExist rx f folderPath).1.deref r = some node := by
  refine ⟨?_, ?_, ?_⟩
  · by_cases hk : (getTopFolderNameInPath (getStandardizedPath folderPath)).2 = 0
    · exact Or.inl hk
    · have h1 := numPieces_getFolderPathTail (getStandardizedPath folderPath) hk
      have h3 := numPieces_getStandardizedPath folderPath
      exact Or.inr (by omega)
  · intro k
    exact createFolderIfNotExistFuel_of_le rx _ _ f folderPath (by omega) (Nat.le_refl _)
  · exact createFolderIfNotExistFuel_returns rx _ f folderPath (Nat.le_refl _)

/-- C16: for a path `p` that begins neither with `/` nor with `./`, CreateFolderIfNotExist
called with `/p`, with `./p` and with `p` on the same tree leaves the same tree and returns
the same reference. -/
theorem CreateFolderIfNotExist_leading_prefix (rx : PathRegexes) (f : Folder) (p : String)
    (h1 : stringsHasPrefix p "/" = false) (h2 : stringsHasPrefix p "./" = false) :
    CreateFolderIfNotExist rx f ("/" ++ p) = CreateFolderIfNotExist rx f p ∧
      CreateFolderIfNotExist rx f ("./" ++ p) = CreateFolderIfNotExist rx f p := by
  have hp := getStandardizedPath_of_no_prefix p h1 h2
  have key : ∀ q : String, getStandardizedPath q = p → numPieces q = numPieces p + 1 →
      CreateFolderIfNotExist rx f q = CreateFolderIfNotExist rx f p := by
    intro q hq hnum
    show createFolderIfNotExistFuel rx (numPieces q) f q =
      createFolderIfNotExistFuel rx (numPieces p) f p
    rw [hnum, createFolderIfNotExistFuel_congr_path rx _ f q p (by rw [hq, hp])]
    exact createFolderIfNotExistFuel_of_le rx _ _ f p (by omega) (Nat.le_refl _)
  exact ⟨key _ (getStandardizedPath_slash_append p h2) (numPieces_slash_append p),
    key _ (getStandardizedPath_dotslash_append p) (numPieces_dotslash_append p)⟩

/-- C16 at the path `x/y/z` on a new root folder: the three calls build the chain of folders
`x`, `y`, `z` and return its innermost folder. -/
theorem CreateFolderIfNotExist_leading_prefix_witness :
    CreateFolderIfNotExist segmentRegexes NewRootFolder ("/" ++ "x/y/z") =
        CreateFolderIfNotExist segmentRegexes NewRootFolder "x/y/z" ∧
      CreateFolderIfNotExist segmentRegexes NewRootFolder ("./" ++ "x/y/z") =
        CreateFolderIfNotExist segmentRegexes NewRootFolder "x/y/z" :=
  CreateFolderIfNotExist_leading_prefix segmentRegexes NewRootFolder "x/y/z" (by decide)
    (by decide)

/-! ### The names of the folders the tree builder adds -/

theorem mem_allNamesList (x : String) (l : List Folder) :
    x ∈ allNamesList l ↔ ∃ c ∈ l, x ∈ allNames c := by
  induction l with
  | nil => simp [allNamesList]
  | cons c cs ih => simp [allNamesList, ih]

theorem mem_allNames (x : String) (f : Folder) :
    x ∈ allNames f ↔ x = f.Name ∨ ∃ c ∈ f.ChildFolders, x ∈ allNames c := by
  cases f with
  | mk p n ps cs r pk m =>
    rw [allNames, List.mem_cons, mem_allNamesList]
    rfl

theorem mem_allNames_of_child (x : String) (f c : Folder) (hc : c ∈ f.ChildFolders)
    (hx : x ∈ allNames c) : x ∈ allNames f :=
  (mem_allNames x f).2 (Or.inr ⟨c, hc, hx⟩)

theorem mem_allNames_setChildAt (x : String) (f child : Folder) (i : Nat)
    (hx : x ∈ allNames (f.setChildAt i child)) : x ∈ allNames f ∨ x ∈ allNames child := by
  rcases (mem_allNames x _).1 hx with h | ⟨c, hc, hxc⟩
  · exact Or.inl ((mem_allNames x f).2 (Or.inl (by simpa [setChildAt] using h)))
  · simp only [setChildAt, ChildFolders_setChildFolders] at hc
    rcases List.mem_or_eq_of_mem_set hc with hc | rfl
    · exact Or.inl (mem_allNames_of_child x f c hc hxc)
    · exact Or.inr hxc

theorem mem_allNames_getOrCreateChild (rx : PathRegexes) (x name : String) (f : Folder)
    (hx : x ∈ allNames (getOrCreateChild rx f name).1) : x ∈ allNames f ∨ x = name := by
  unfold getOrCreateChild at hx
  split at hx
  · exact Or.inl hx
  · rcases (mem_allNames x _).1 hx with h | ⟨c, hc, hxc⟩
    · exact Or.inl ((mem_allNames x f).2 (Or.inl (by simpa [AddFolder] using h)))
    · simp only [AddFolder, ChildFolders_setChildFolders, List.mem_append,
        List.mem_singleton] at hc
      rcases hc with hc | rfl
      · exact Or.inl (mem_allNames_of_child x f c hc hxc)
      · right
        simpa [NewFolder, allNames, allNamesList] using hxc

theorem mem_stringsSplit_getStandardizedPath (x p : String)
    (hx : x ∈ stringsSplit (getStandardizedPath p) '/') : x ∈ stringsSplit p '/' := by
  have key : ∀ (pre l : List Char), pre = ['/'] ∨ pre = ['.', '/'] →
      ∀ y ∈ splitChars '/' (dropLeading pre l), y ∈ splitChars '/' l := by
    intro pre l hpre y hy
    unfold dropLeading at hy
    split at hy
    · rename_i hp
      rcases hpre with rfl | rfl
      · match l, hp with
        | c :: cs, hp =>
          have hc : c = '/' := by
            by_contra hne
            simp [hasPrefixChars, hne] at hp
          subst hc
          rw [splitChars_cons_sep]
          exact List.mem_cons_of_mem _ (by simpa using hy)
      · match l, hp with
        | [c], hp =>
          by_cases hne : c = '.' <;> simp [hasPrefixChars, hne] at hp
        | c :: d :: cs, hp =>
          have hc : c = '.' := by
            by_contra hne
            simp [hasPrefixChars, hne] at hp
          subst hc
          have hd : d = '/' := by
            by_contra hne
            simp [hasPrefixChars, hne] at hp
          subst hd
          have e : splitChars '/' ('.' :: '/' :: cs) = ['.'] :: splitChars '/' cs := by
            simp [splitChars]
          rw [e]
          exact List.mem_cons_of_mem _ (by simpa using hy)
    · exact hy
  rw [getStandardizedPath_dropLeading] at hx
  unfold stringsSplit at hx ⊢
  obtain ⟨y, hy, rfl⟩ := List.mem_map.1 hx
  exact List.mem_map.2 ⟨y, key _ _ (Or.inl rfl) y (key _ _ (Or.inr rfl) y hy), rfl⟩

theorem getTopFolderNameInPath_mem (p : String) :
    (getTopFolderNameInPath p).1 ∈ stringsSplit p '/' := by
  apply mem_stringsSplit_getStandardizedPath
  unfold getTopFolderNameInPath stringsSplit
  cases hs : splitChars '/' (getStandardizedPath p).data with
  | nil => exact absurd hs (splitChars_ne_nil _ _)
  | cons a rest => simp [hs]

theorem mem_stringsSplit_getFolderPathTail (x p : String)
    (hk : (getTopFolderNameInPath p).2 ≠ 0)
    (hx : x ∈ stringsSplit (getFolderPathTail p) '/') : x ∈ stringsSplit p '/' := by
  apply mem_stringsSplit_getStandardizedPath
  simp only [getTopFolderNameInPath, stringsSplit, List.length_map] at hk
  simp only [getFolderPathTail, GetStrSliceTail, stringsSplit] at hx
  unfold stringsSplit
  cases hs : splitChars '/' (getStandardizedPath p).data with
  | nil => exact absurd hs (splitChars_ne_nil _ _)
  | cons a rest =>
    rw [hs] at hk hx
    have hrest : rest ≠ [] := by
      intro e
      simp [e] at hk
    have hno := splitChars_no_sep '/' (getStandardizedPath p).data
    rw [hs] at hno
    simp only [List.map_cons, List.tail_cons, stringsJoin, List.map_map] at hx
    have hmap : List.map (String.data ∘ String.mk) rest = rest := by
      simp [Function.comp_def]
    rw [hmap, splitChars_joinChars '/' rest hrest (fun q hq => hno q (by simp [hq]))] at hx
    exact List.mem_map.2 (by
      obtain ⟨y, hy, rfl⟩ := List.mem_map.1 hx
      exact ⟨y, List.mem_cons_of_mem _ hy, rfl⟩)

theorem mem_allNames_createFolderIfNotExistFuel (rx : PathRegexes) (fuel : Nat) (f : Folder)
    (folderPath x : String)
    (hx : x ∈ allNames (createFolderIfNotExistFuel rx fuel f folderPath).1) :
    x ∈ allNames f ∨ x ∈ stringsSplit folderPath '/' := by
  induction fuel generalizing f folderPath with
  | zero => exact Or.inl hx
  | succ n ih =>
    rw [createFolderIfNotExistFuel_succ] at hx
    have hname : (getTopFolderNameInPath (getStandardizedPath folderPath)).1 ∈
        stringsSplit folderPath '/' :=
      mem_stringsSplit_getStandardizedPath _ _ (getTopFolderNameInPath_mem _)
    have hgoc : ∀ y, y ∈ allNames (getOrCreateChild rx f
        (getTopFolderNameInPath (getStandardizedPath folderPath)).1).1 →
        y ∈ allNames f ∨ y ∈ stringsSplit folderPath '/' := by
      intro y hy
      rcases mem_allNames_getOrCreateChild rx y _ f hy with h | rfl
      · exact Or.inl h
      · exact Or.inr hname
    obtain ⟨i, child, h2, _, hchild, _⟩ := getOrCreateChild_spec rx f
      (getTopFolderNameInPath (getStandardizedPath folderPath)).1
    split at hx
    · exact hgoc x hx
    · rename_i hk
      simp only [h2, hchild] at hx
      rcases mem_allNames_setChildAt x _ _ i hx with h | h
      · exact hgoc x h
      · rcases ih child _ h with h | h
        · exact hgoc x (mem_allNames_of_child x _ child (List.mem_iff_getElem?.2 ⟨i, hchild⟩) h)
        · exact Or.inr (mem_stringsSplit_getStandardizedPath _ _
            (mem_stringsSplit_getFolderPathTail _ _ hk h))

theorem pathSegmentsFuel_succ (fuel : Nat) (folderPath : String) :
    pathSegmentsFuel (fuel + 1) folderPath =
      if (getTopFolderNameInPath (getStandardizedPath folderPath)).2 = 0 then
        [(getTopFolderNameInPath (getStandardizedPath folderPath)).1]
      else
        (getTopFolderNameInPath (getStandardizedPath folderPath)).1 ::
          pathSegmentsFuel fuel (getFolderPathTail (getStandardizedPath folderPath)) := by
  rfl

/-- The bound on the segments read is never reached: every bound from the number of pieces
of the path on gives the same segments. -/
theorem pathSegmentsFuel_of_le (n m : Nat) (folderPath : String)
    (hn : numPieces folderPath ≤ n) (hm : numPieces folderPath ≤ m) :
    pathSegmentsFuel n folderPath = pathSegmentsFuel m folderPath := by
  induction n generalizing m folderPath with
  | zero =>
    have := numPieces_pos folderPath
    omega
  | succ n ih =>
    cases m with
    | zero =>
      have := numPieces_pos folderPath
      omega
    | succ m =>
      rw [pathSegmentsFuel_succ, pathSegmentsFuel_succ]
      split
      · rfl
      · rename_i hk
        have h1 := numPieces_getFolderPathTail (getStandardizedPath folderPath) hk
        have h3 := numPieces_getStandardizedPath folderPath
        rw [ih m (getFolderPathTail (getStandardizedPath folderPath)) (by omega) (by omega)]

/-- Every segment read from a path is one of the pieces into which `/` cuts the path. -/
theorem mem_stringsSplit_of_mem_pathSegmentsFuel (fuel : Nat) (folderPath x : String)
    (hx : x ∈ pathSegmentsFuel fuel folderPath) : x ∈ stringsSplit folderPath '/' := by
  induction fuel generalizing folderPath with
  | zero => simp [pathSegmentsFuel] at hx
  | succ n ih =>
    rw [pathSegmentsFuel_succ] at hx
    have hname : (getTopFolderNameInPath (getStandardizedPath folderPath)).1 ∈
        stringsSplit folderPath '/' :=
      mem_stringsSplit_getStandardizedPath _ _ (getTopFolderNameInPath_mem _)
    split at hx
    · rw [List.mem_singleton] at hx
      rw [hx]
      exact hname
    · rename_i hk
      rcases List.mem_cons.1 hx with hx | hx
      · rw [hx]
        exact hname
      · exact mem_stringsSplit_getStandardizedPath _ _
          (mem_stringsSplit_getFolderPathTail _ _ hk (ih _ hx))

theorem mem_allNames_self (f : Folder) : f.Name ∈ allNames f :=
  (mem_allNames f.Name f).2 (Or.inl rfl)

theorem mem_allNames_getOrCreateChild_iff (rx : PathRegexes) (x name : String) (f : Folder) :
    x ∈ allNames (getOrCreateChild rx f name).1 ↔ x ∈ allNames f ∨ x = name := by
  constructor
  · exact mem_allNames_getOrCreateChild rx x name f
  · intro hx
    rcases hx with hx | rfl
    · unfold getOrCreateChild
      split
      · exact hx
      · rcases (mem_allNames x f).1 hx with h | ⟨c, hc, hxc⟩
        · exact (mem_allNames x _).2 (Or.inl (by simpa [AddFolder] using h))
        · exact mem_allNames_of_child x _ c (by simp [AddFolder, hc]) hxc
    · obtain ⟨i, child, _, _, hchild, hname⟩ := getOrCreateChild_spec rx f x
      refine mem_allNames_of_child x _ child (List.mem_iff_getElem?.2 ⟨i, hchild⟩) ?_
      rw [← hname]
      exact mem_allNames_self child

theorem mem_allNames_setChildAt_iff (x : String) (f child child2 : Folder) (i : Nat)
    (hchild : f.ChildFolders[i]? = some child)
    (hmono : ∀ y ∈ allNames child, y ∈ allNames child2) :
    x ∈ allNames (f.setChildAt i child2) ↔ x ∈ allNames f ∨ x ∈ allNames child2 := by
  have hi : i < f.ChildFolders.length := by
    rcases Nat.lt_or_ge i f.ChildFolders.length with h | h
    · exact h
    · rw [List.getElem?_eq_none h] at hchild
      exact absurd hchild (by simp)
  have hnew : child2 ∈ (f.setChildAt i child2).ChildFolders := by
    simp only [setChildAt, ChildFolders_setChildFolders]
    exact List.mem_iff_getElem?.2 ⟨i, by simp [List.getElem?_set, hi]⟩
  constructor
  · exact mem_allNames_setChildAt x f child2 i
  · intro hx
    rcases hx with hx | hx
    · rcases (mem_allNames x f).1 hx with h | ⟨c, hc, hxc⟩
      · exact (mem_allNames x _).2 (Or.inl (by simpa [setChildAt] using h))
      · obtain ⟨j, hj⟩ := List.mem_iff_getElem?.1 hc
        by_cases hij : i = j
        · subst hij
          rw [hchild] at hj
          cases hj
          exact mem_allNames_of_child x _ child2 hnew (hmono x hxc)
        · refine mem_allNames_of_child x _ c ?_ hxc
          simp only [setChildAt, ChildFolders_setChildFolders]
          exact List.mem_iff_getElem?.2 ⟨j, by simp [List.getElem?_set, hij, hj]⟩
    · exact mem_allNames_of_child x _ child2 hnew hx

/-- The Names of the folders of the tree after the tree builder ran, with a bound on the
recursion, are those of the tree before it and the segments read from the path. -/
theorem mem_allNames_createFolderIfNotExistFuel_iff (rx : PathRegexes) (fuel : Nat)
    (f : Folder) (folderPath x : String) :
    x ∈ allNames (createFolderIfNotExistFuel rx fuel f folderPath).1 ↔
      x ∈ allNames f ∨ x ∈ pathSegmentsFuel fuel folderPath := by
  induction fuel generalizing f folderPath x with
  | zero => simp [createFolderIfNotExistFuel, pathSegmentsFuel]
  | succ n ih =>
    rw [createFolderIfNotExistFuel_succ, pathSegmentsFuel_succ]
    obtain ⟨i, child, h2, _, hchild, hname⟩ := getOrCreateChild_spec rx f
      (getTopFolderNameInPath (getStandardizedPath folderPath)).1
    by_cases hk : (getTopFolderNameInPath (getStandardizedPath folderPath)).2 = 0
    · rw [if_pos hk, if_pos hk, mem_allNames_getOrCreateChild_iff, List.mem_singleton]
    · rw [if_neg hk, if_neg hk]
      simp only [h2, hchild]
      rw [mem_allNames_setChildAt_iff x _ child _ i hchild
        (fun y hy => (ih child _ y).2 (Or.inl hy)), ih child,
        mem_allNames_getOrCreateChild_iff, List.mem_cons]
      constructor
      · rintro ((h | h) | (h | h))
        · exact Or.inl h
        · exact Or.inr (Or.inl h)
        · rcases (mem_allNames_getOrCreateChild_iff rx x _ f).1
            (mem_allNames_of_child x _ child (List.mem_iff_getElem?.2 ⟨i, hchild⟩) h) with h | h
          · exact Or.inl h
          · exact Or.inr (Or.inl h)
        · exact Or.inr (Or.inr h)
      · rintro (h | h | h)
        · exact Or.inl (Or.inl h)
        · exact Or.inl (Or.inr h)
        · exact Or.inr (Or.inr h)

/-- C15, as stated, fails: CreateFolderIfNotExist has no error result, and for the paths
`""`, `/` and `a/` it returns a reference to a folder it has added whose Name is the empty
string. -/
theorem CreateFolderIfNotExist_adds_empty_named_folder :
    CreateFolderIfNotExist segmentRegexes NewRootFolder "" =
        (Folder.mk "" "ROOT-FOLDER" [] [Folder.mk "" "" [] [] false false false]
          true false false, some [0]) ∧
      CreateFolderIfNotExist segmentRegexes NewRootFolder "/" =
        (Folder.mk "" "ROOT-FOLDER" [] [Folder.mk "" "" [] [] false false false]
          true false false, some [0]) ∧
      CreateFolderIfNotExist segmentRegexes NewRootFolder "a/" =
        (Folder.mk "" "ROOT-FOLDER" []
          [Folder.mk "a" "a" [] [Folder.mk "a" "" [] [] false false false] false false false]
          true false false, some [0, 0]) := by
  refine ⟨rfl, rfl, rfl⟩

/-- C15, amended: CreateFolderIfNotExist checks no segment. The Names of the folders of the
tree after the call are those of the tree before it and the segments the call reads from the
path; so on a tree without a folder named by the empty string the call leaves a folder named
by the empty string exactly when one of the segments it reads is empty. Every segment read is
a piece of the path. The segments read from `/a/b` and from `a//b` are a, b, that read from
`//a` is a; the empty path and `/` give one empty segment, and `a/` gives a and an empty
segment. -/
theorem CreateFolderIfNotExist_empty_name_iff_empty_segment (rx : PathRegexes) (f : Folder)
    (P : String) :
    (∀ x, x ∈ allNames (CreateFolderIfNotExist rx f P).1 ↔
        x ∈ allNames f ∨ x ∈ pathSegments P) ∧
      ("" ∉ allNames f →
        ("" ∈ allNames (CreateFolderIfNotExist rx f P).1 ↔ "" ∈ pathSegments P)) ∧
      (∀ x ∈ pathSegments P, x ∈ stringsSplit P '/') ∧
      pathSegments "/a/b" = ["a", "b"] ∧ pathSegments "a//b" = ["a", "b"] ∧
      pathSegments "//a" = ["a"] ∧ pathSegments "" = [""] ∧ pathSegments "/" = [""] ∧
      pathSegments "a/" = ["a", ""] := by
  have key : ∀ x, x ∈ allNames (CreateFolderIfNotExist rx f P).1 ↔
      x ∈ allNames f ∨ x ∈ pathSegments P :=
    fun x => mem_allNames_createFolderIfNotExistFuel_iff rx _ f P x
  refine ⟨key, ?_, fun x hx => mem_stringsSplit_of_mem_pathSegmentsFuel _ P x hx,
    by decide, by decide, by decide, by decide, by decide, by decide⟩
  intro hf
  rw [key ""]
  exact ⟨fun h => h.resolve_left hf, Or.inr⟩

/-- C15, amended, on a new root folder, which has no folder named by the empty string: the
paths `/a/b`, `a//b` and `//a` leave no folder named by the empty string, and the path `a/`
leaves one. -/
theorem CreateFolderIfNotExist_empty_name_iff_empty_segment_witness :
    "" ∉ allNames NewRootFolder ∧
      "" ∉ allNames (CreateFolderIfNotExist segmentRegexes NewRootFolder "/a/b").1 ∧
      "" ∉ allNames (CreateFolderIfNotExist segmentRegexes NewRootFolder "a//b").1 ∧
      "" ∉ allNames (CreateFolderIfNotExist segmentRegexes NewRootFolder "//a").1 ∧
      "" ∈ allNames (CreateFolderIfNotExist segmentRegexes NewRootFolder "a/").1 :=
  ⟨by decide,
    fun h => absurd (((CreateFolderIfNotExist_empty_name_iff_empty_segment segmentRegexes
      NewRootFolder "/a/b").2.1 (by decide)).1 h) (by decide),
    fun h => absurd (((CreateFolderIfNotExist_empty_name_iff_empty_segment segmentRegexes
      NewRootFolder "a//b").2.1 (by decide)).1 h) (by decide),
    fun h => absurd (((CreateFolderIfNotExist_empty_name_iff_empty_segment segmentRegexes
      NewRootFolder "//a").2.1 (by decide)).1 h) (by decide),
    ((CreateFolderIfNotExist_empty_name_iff_empty_segment segmentRegexes
      NewRootFolder "a/").2.1 (by decide)).2 (by decide)⟩

/-! ### Sibling names stay unique -/

theorem uniqueSiblingNamesList_iff (l : List Folder) :
    uniqueSiblingNamesList l ↔ ∀ c ∈ l, UniqueSiblingNames c := by
  induction l with
  | nil => simp [uniqueSiblingNamesList]
  | cons c cs ih => simp [uniqueSiblingNamesList, ih]

theorem UniqueSiblingNames_iff (f : Folder) :
    UniqueSiblingNames f ↔
      (f.ChildFolders.map Folder.Name).Nodup ∧ ∀ c ∈ f.ChildFolders, UniqueSiblingNames c := by
  cases f with
  | mk p n ps cs r pk m =>
    rw [UniqueSiblingNames, uniqueSiblingNamesList_iff]
    rfl

theorem UniqueSiblingNames_NewRootFolder : UniqueSiblingNames NewRootFolder :=
  (UniqueSiblingNames_iff _).2
    ⟨by simp [NewRootFolder, ChildFolders], by simp [NewRootFolder, ChildFolders]⟩

theorem UniqueSiblingNames_getOrCreateChild (rx : PathRegexes) (f : Folder) (name : String)
    (h : UniqueSiblingNames f) : UniqueSiblingNames (getOrCreateChild rx f name).1 := by
  unfold getOrCreateChild
  split
  · exact h
  · rename_i hhas
    have h0 : hasChildFolderLoop name f.ChildFolders = false := by
      simpa [HasChildFolder] using hhas
    have hnot : name ∉ f.ChildFolders.map Folder.Name := by
      intro hmem
      obtain ⟨c, hc, hn⟩ := List.mem_map.1 hmem
      have := (hasChildFolderLoop_iff name f.ChildFolders).2 ⟨c, hc, hn⟩
      rw [h0] at this
      exact absurd this (by simp)
    rw [UniqueSiblingNames_iff] at h ⊢
    simp only [AddFolder, ChildFolders_setChildFolders, List.map_append, List.map_cons,
      List.map_nil]
    constructor
    · rw [List.nodup_append]
      refine ⟨h.1, by simp, ?_⟩
      intro a ha hb
      simp only [List.mem_singleton] at hb
      subst hb
      exact hnot ha
    · intro c hc
      rcases List.mem_append.1 hc with hc | hc
      · exact h.2 c hc
      · simp only [List.mem_singleton] at hc
        subst hc
        exact (UniqueSiblingNames_iff _).2
          ⟨by simp [NewFolder, ChildFolders], by simp [NewFolder, ChildFolders]⟩

theorem UniqueSiblingNames_setChildAt (f child newChild : Folder) (i : Nat)
    (hc : f.ChildFolders[i]? = some child) (hn : newChild.Name = child.Name)
    (h : UniqueSiblingNames f) (h2 : UniqueSiblingNames newChild) :
    UniqueSiblingNames (f.setChildAt i newChild) := by
  rw [UniqueSiblingNames_iff] at h ⊢
  simp only [setChildAt, ChildFolders_setChildFolders]
  constructor
  · have e : (f.ChildFolders.set i newChild).map Folder.Name = f.ChildFolders.map Folder.Name := by
      apply List.ext_getElem?
      intro j
      simp only [List.getElem?_map, List.getElem?_set]
      by_cases hij : i = j
      · subst hij
        simp only [if_true]
        split
        · simp [hc, hn]
        · rename_i hlt
          rw [List.getElem?_eq_none (by omega)]
      · simp [hij]
    rw [e]
    exact h.1
  · intro c hmem
    rcases List.mem_or_eq_of_mem_set hmem with hmem | rfl
    · exact h.2 c hmem
    · exact h2

theorem UniqueSiblingNames_createFolderIfNotExistFuel (rx : PathRegexes) (fuel : Nat)
    (f : Folder) (folderPath : String) (h : UniqueSiblingNames f) :
    UniqueSiblingNames (createFolderIfNotExistFuel rx fuel f folderPath).1 := by
  induction fuel generalizing f folderPath with
  | zero => exact h
  | succ n ih =>
    rw [createFolderIfNotExistFuel_succ]
    have h1 := UniqueSiblingNames_getOrCreateChild rx f
      (getTopFolderNameInPath (getStandardizedPath folderPath)).1 h
    obtain ⟨i, child, h2, _, hchild, _⟩ := getOrCreateChild_spec rx f
      (getTopFolderNameInPath (getStandardizedPath folderPath)).1
    split
    · exact h1
    · simp only [h2, hchild]
      have hcu : UniqueSiblingNames child :=
        ((UniqueSiblingNames_iff _).1 h1).2 child (List.mem_iff_getElem?.2 ⟨i, hchild⟩)
      exact UniqueSiblingNames_setChildAt _ child _ i hchild
        (Name_createFolderIfNotExistFuel rx n child _) h1 (ih child _ hcu)

/-- C14: CreateFolderIfNotExist keeps sibling names unique. On a tree in which no folder has
two child folders of the same Name, as the new root folder is, any sequence of calls of
CreateFolderIfNotExist, each on the tree left by the one before, with arbitrary paths leaves
a tree in which no folder has two child folders of the same Name. -/
theorem CreateFolderIfNotExist_unique_sibling_names (rx : PathRegexes) (f : Folder)
    (paths : List String) (h : UniqueSiblingNames f) :
    UniqueSiblingNames (paths.foldl (fun t p => (CreateFolderIfNotExist rx t p).1) f) := by
  induction paths generalizing f with
  | nil => exact h
  | cons p rest ih =>
    exact ih _ (UniqueSiblingNames_createFolderIfNotExistFuel rx _ f p h)

/-- C14 on the new root folder with the paths `a/b`, `a/c`, `/a/b` and `a//b`. -/
theorem CreateFolderIfNotExist_unique_sibling_names_witness :
    UniqueSiblingNames NewRootFolder ∧
      UniqueSiblingNames (["a/b", "a/c", "/a/b", "a//b"].foldl
        (fun t p => (CreateFolderIfNotExist segmentRegexes t p).1) NewRootFolder) :=
  ⟨UniqueSiblingNames_NewRootFolder,
    CreateFolderIfNotExist_unique_sibling_names segmentRegexes NewRootFolder
      ["a/b", "a/c", "/a/b", "a//b"] UniqueSiblingNames_NewRootFolder⟩

/-! ### The tree builder only adds -/

theorem isNewSubtreeList_iff (l : List Folder) :
    isNewSubtreeList l ↔ ∀ c ∈ l, IsNewSubtree c := by
  induction l with
  | nil => simp [isNewSubtreeList]
  | cons c cs ih => simp [isNewSubtreeList, ih]

theorem isNewSubtreeList_append (l l2 : List Folder) :
    isNewSubtreeList (l ++ l2) ↔ isNewSubtreeList l ∧ isNewSubtreeList l2 := by
  simp only [isNewSubtreeList_iff, List.mem_append]
  constructor
  · intro h
    exact ⟨fun c hc => h c (Or.inl hc), fun c hc => h c (Or.inr hc)⟩
  · rintro ⟨h1, h2⟩ c (hc | hc)
    · exact h1 c hc
    · exact h2 c hc

theorem ExtendedBy_iff (f g : Folder) :
    ExtendedBy f g ↔ g.OutputPath = f.OutputPath ∧ g.Name = f.Name ∧
      g.ChildPages = f.ChildPages ∧ g.IsRoot = f.IsRoot ∧
      g.IsPackageFolder = f.IsPackageFolder ∧ g.IsModuleFolder = f.IsModuleFolder ∧
      extendedByList f.ChildFolders g.ChildFolders := by
  cases f with
  | mk p n ps cs r pk m =>
    rw [ExtendedBy]
    rfl

theorem IsNewSubtree_iff (f : Folder) :
    IsNewSubtree f ↔ f.ChildPages = [] ∧ f.IsRoot = false ∧ isNewSubtreeList f.ChildFolders := by
  cases f with
  | mk p n ps cs r pk m =>
    rw [IsNewSubtree]
    rfl

mutual
theorem ExtendedBy_refl : ∀ (f : Folder), ExtendedBy f f
  | mk p n ps cs r pk m => by
    rw [ExtendedBy]
    exact ⟨rfl, rfl, rfl, rfl, rfl, rfl, extendedByList_refl cs⟩
theorem extendedByList_refl : ∀ (l : List Folder), extendedByList l l
  | [] => by simp [extendedByList, isNewSubtreeList]
  | c :: cs => by
    rw [extendedByList]
    exact ⟨ExtendedBy_refl c, extendedByList_refl cs⟩
end

mutual
theorem IsNewSubtree_of_ExtendedBy : ∀ (a b : Folder), IsNewSubtree a → ExtendedBy a b →
    IsNewSubtree b
  | mk p n ps cs r pk m, b => by
    intro ha hab
    rw [IsNewSubtree] at ha
    rw [ExtendedBy] at hab
    rw [IsNewSubtree_iff]
    obtain ⟨h1, h2, h3⟩ := ha
    obtain ⟨_, _, e3, e4, _, _, e7⟩ := hab
    exact ⟨by rw [e3, h1], by rw [e4, h2], isNewSubtreeList_of_extendedByList cs _ h3 e7⟩
theorem isNewSubtreeList_of_extendedByList : ∀ (l l2 : List Folder), isNewSubtreeList l →
    extendedByList l l2 → isNewSubtreeList l2
  | [], l2 => by
    intro _ h
    rw [extendedByList] at h
    exact h
  | c :: cs, [] => by
    intro _ h
    simp [extendedByList] at h
  | c :: cs, d :: ds => by
    intro hl h
    rw [extendedByList] at h
    rw [isNewSubtreeList] at hl ⊢
    exact ⟨IsNewSubtree_of_ExtendedBy c d hl.1 h.1,
      isNewSubtreeList_of_extendedByList cs ds hl.2 h.2⟩
end

mutual
theorem ExtendedBy_trans : ∀ (a b c : Folder), ExtendedBy a b → ExtendedBy b c → ExtendedBy a c
  | mk p n ps cs r pk m, b, c => by
    intro hab hbc
    rw [ExtendedBy] at hab ⊢
    rw [ExtendedBy_iff] at hbc
    obtain ⟨e1, e2, e3, e4, e5, e6, e7⟩ := hab
    obtain ⟨g1, g2, g3, g4, g5, g6, g7⟩ := hbc
    exact ⟨by rw [g1, e1], by rw [g2, e2], by rw [g3, e3], by rw [g4, e4], by rw [g5, e5],
      by rw [g6, e6], extendedByList_trans cs _ _ e7 g7⟩
theorem extendedByList_trans : ∀ (l l2 l3 : List Folder), extendedByList l l2 →
    extendedByList l2 l3 → extendedByList l l3
  | [], l2, l3 => by
    intro h1 h2
    rw [extendedByList] at h1 ⊢
    exact isNewSubtreeList_of_extendedByList l2 l3 h1 h2
  | c :: cs, [], l3 => by
    intro h1 _
    simp [extendedByList] at h1
  | c :: cs, d :: ds, [] => by
    intro _ h2
    simp [extendedByList] at h2
  | c :: cs, d :: ds, e :: es => by
    intro h1 h2
    rw [extendedByList] at h1 h2 ⊢
    exact ⟨ExtendedBy_trans c d e h1.1 h2.1, extendedByList_trans cs ds es h1.2 h2.2⟩
end

theorem extendedByList_append_new (l added : List Folder) (h : isNewSubtreeList added) :
    extendedByList l (l ++ added) := by
  induction l with
  | nil =>
    rw [List.nil_append, extendedByList]
    exact h
  | cons c cs ih =>
    rw [List.cons_append, extendedByList]
    exact ⟨ExtendedBy_refl c, ih⟩

theorem extendedByList_set (l : List Folder) (i : Nat) (child newChild : Folder)
    (hc : l[i]? = some child) (h : ExtendedBy child newChild) :
    extendedByList l (l.set i newChild) := by
  induction l generalizing i with
  | nil => simp at hc
  | cons c cs ih =>
    cases i with
    | zero =>
      simp only [List.getElem?_cons_zero, Option.some.injEq] at hc
      subst hc
      rw [List.set_cons_zero, extendedByList]
      exact ⟨h, extendedByList_refl cs⟩
    | succ i =>
      rw [List.set_cons_succ, extendedByList]
      exact ⟨ExtendedBy_refl c, ih i (by simpa using hc)⟩

theorem ExtendedBy_setChildFolders (f : Folder) (cs : List Folder)
    (h : extendedByList f.ChildFolders cs) : ExtendedBy f (f.setChildFolders cs) := by
  rw [ExtendedBy_iff]
  cases f
  exact ⟨rfl, rfl, rfl, rfl, rfl, rfl, h⟩

theorem ExtendedBy_getOrCreateChild (rx : PathRegexes) (f : Folder) (name : String) :
    ExtendedBy f (getOrCreateChild rx f name).1 := by
  unfold getOrCreateChild
  split
  · exact ExtendedBy_refl f
  · apply ExtendedBy_setChildFolders
    apply extendedByList_append_new
    simp [isNewSubtreeList, IsNewSubtree_iff, NewFolder, ChildPages, IsRoot, ChildFolders]

theorem ExtendedBy_createFolderIfNotExistFuel (rx : PathRegexes) (fuel : Nat) (f : Folder)
    (folderPath : String) : ExtendedBy f (createFolderIfNotExistFuel rx fuel f folderPath).1 := by
  induction fuel generalizing f folderPath with
  | zero => exact ExtendedBy_refl f
  | succ n ih =>
    rw [createFolderIfNotExistFuel_succ]
    have h1 := ExtendedBy_getOrCreateChild rx f
      (getTopFolderNameInPath (getStandardizedPath folderPath)).1
    obtain ⟨i, child, h2, _, hchild, _⟩ := getOrCreateChild_spec rx f
      (getTopFolderNameInPath (getStandardizedPath folderPath)).1
    split
    · exact h1
    · simp only [h2, hchild]
      refine ExtendedBy_trans _ _ _ h1 ?_
      apply ExtendedBy_setChildFolders
      exact extendedByList_set _ i child _ hchild (ih child _)

theorem extendedByList_getElem? (l l2 : List Folder) (i : Nat) (c : Folder)
    (h : extendedByList l l2) (hc : l[i]? = some c) :
    ∃ d, l2[i]? = some d ∧ ExtendedBy c d := by
  induction l generalizing l2 i with
  | nil => simp at hc
  | cons a rest ih =>
    cases l2 with
    | nil => simp [extendedByList] at h
    | cons b rest2 =>
      rw [extendedByList] at h
      cases i with
      | zero =>
        simp only [List.getElem?_cons_zero, Option.some.injEq] at hc
        subst hc
        exact ⟨b, by simp, h.1⟩
      | succ i =>
        obtain ⟨d, hd, hcd⟩ := ih rest2 i h.2 (by simpa using hc)
        exact ⟨d, by simpa using hd, hcd⟩

theorem ExtendedBy_deref (r : FolderRef) (f g node : Folder) (h : ExtendedBy f g)
    (hnode : f.deref r = some node) : ∃ node2, g.deref r = some node2 ∧ ExtendedBy node node2 := by
  induction r generalizing f g with
  | nil =>
    simp only [deref, Option.some.injEq] at hnode
    subst hnode
    exact ⟨g, rfl, h⟩
  | cons i rest ih =>
    obtain ⟨c, hc, hrest⟩ := (deref_cons_iff f i rest node).1 hnode
    obtain ⟨d, hd, hcd⟩ := extendedByList_getElem? _ _ i c ((ExtendedBy_iff f g).1 h).2.2.2.2.2.2 hc
    obtain ⟨node2, h2, h3⟩ := ih c d hcd hrest
    exact ⟨node2, (deref_cons_iff g i rest node2).2 ⟨d, hd, h2⟩, h3⟩

/-- C19: CreateFolderIfNotExist only adds folders. The tree after the call is the tree before
it with folders added: in every child list the folders present before come first in their
order, and the folders added stand after them, have no page and are not the root. Hence a
reference to a folder of the tree before the call leads, in the tree after it, to a folder
with the same Name, OutputPath, flags and child pages. -/
theorem CreateFolderIfNotExist_only_adds (rx : PathRegexes) (f : Folder) (P : String) :
    ExtendedBy f (CreateFolderIfNotExist rx f P).1 ∧
      ∀ (r : FolderRef) (node : Folder), f.deref r = some node →
        ∃ node2, (CreateFolderIfNotExist rx f P).1.deref r = some node2 ∧
          node2.Name = node.Name ∧ node2.OutputPath = node.OutputPath ∧
          node2.ChildPages = node.ChildPages ∧ node2.IsRoot = node.IsRoot ∧
          node2.IsPackageFolder = node.IsPackageFolder ∧
          node2.IsModuleFolder = node.IsModuleFolder ∧
          extendedByList node.ChildFolders node2.ChildFolders := by
  have key := ExtendedBy_createFolderIfNotExistFuel rx (stringsSplit P '/').length f P
  refine ⟨key, ?_⟩
  intro r node hnode
  obtain ⟨node2, h2, h3⟩ := ExtendedBy_deref r f _ node key hnode
  obtain ⟨e1, e2, e3, e4, e5, e6, e7⟩ := (ExtendedBy_iff node node2).1 h3
  exact ⟨node2, h2, e2, e1, e3, e4, e5, e6, e7⟩

/-! ### The recursive writer -/

theorem StopsAtFirstFailure_writePagesLoop {ε : Type} (w : PageWriter ε) (pages : List Page) :
    StopsAtFirstFailure w pages (writePagesLoop w pages) := by
  induction pages with
  | nil => exact Or.inl ⟨by simp, rfl, rfl⟩
  | cons p rest ih =>
    unfold writePagesLoop
    cases hw : w.WriteFullPageHtmlToOutputPath p with
    | some err =>
      exact Or.inr ⟨[], p, rest, err, 1, rfl, by simp, hw, rfl, rfl⟩
    | none =>
      rcases ih with ⟨h1, h2, h3⟩ | ⟨before, q, after, err, k, h1, h2, h3, h4, h5⟩
      · refine Or.inl ⟨?_, by simp [h2], h3⟩
        intro x hx
        rcases List.mem_cons.1 hx with rfl | hx
        · exact hw
        · exact h1 x hx
      · refine Or.inr ⟨p :: before, q, after, err, k, by simp [h1], ?_, h3, by simp [h4], h5⟩
        intro x hx
        rcases List.mem_cons.1 hx with rfl | hx
        · exact hw
        · exact h2 x hx

theorem StopsAtFirstFailure_append {ε : Type} (w : PageWriter ε) (l1 l2 : List Page)
    (r1 r2 : List Page × Option ε) (h1 : StopsAtFirstFailure w l1 r1) (hnone : r1.2 = none)
    (h2 : StopsAtFirstFailure w l2 r2) :
    StopsAtFirstFailure w (l1 ++ l2) (r1.1 ++ r2.1, r2.2) := by
  rcases h1 with ⟨a1, a2, _⟩ | ⟨_, _, _, _, _, _, _, _, _, a5⟩
  · rcases h2 with ⟨b1, b2, b3⟩ | ⟨before, q, after, err, k, b1, b2, b3, b4, b5⟩
    · refine Or.inl ⟨?_, by simp [a2, b2], b3⟩
      intro x hx
      rcases List.mem_append.1 hx with hx | hx
      · exact a1 x hx
      · exact b1 x hx
    · refine Or.inr ⟨l1 ++ before, q, after, err, k, by simp [b1], ?_, b3,
        by simp [a2, b4], b5⟩
      intro x hx
      rcases List.mem_append.1 hx with hx | hx
      · exact a1 x hx
      · exact b2 x hx
  · rw [hnone] at a5
    exact absurd a5 (by simp)

theorem StopsAtFirstFailure_of_error {ε : Type} (w : PageWriter ε) (l1 l2 : List Page)
    (r1 : List Page × Option ε) (e : ε) (h1 : StopsAtFirstFailure w l1 r1)
    (hsome : r1.2 = some e) :
    StopsAtFirstFailure w (l1 ++ l2) (r1.1, some e) ∧
      StopsAtFirstFailure w (l1 ++ l2) (r1.1, some (w.WithStackTrace e)) := by
  rcases h1 with ⟨_, _, a3⟩ | ⟨before, q, after, err, k, b1, b2, b3, b4, b5⟩
  · rw [hsome] at a3
    exact absurd a3 (by simp)
  · rw [hsome, Option.some.injEq] at b5
    constructor
    · exact Or.inr ⟨before, q, after ++ l2, err, k, by simp [b1], b2, b3, b4, by rw [b5]⟩
    · refine Or.inr ⟨before, q, after ++ l2, err, k + 1, by simp [b1], b2, b3, b4, ?_⟩
      rw [Function.iterate_succ_apply', b5]

mutual
theorem StopsAtFirstFailure_write {ε : Type} (w : PageWriter ε) : ∀ (f : Folder),
    StopsAtFirstFailure w (allPages f) (WriteChildrenHtmlToOutputhPath w f)
  | mk p n ps cs r pk m => by
    have h1 := StopsAtFirstFailure_writePagesLoop w ps
    have h2 := StopsAtFirstFailure_writeFolders w cs
    rw [WriteChildrenHtmlToOutputhPath, allPages]
    cases hr : writePagesLoop w ps with
    | mk written res =>
      rw [hr] at h1
      cases res with
      | some err => exact (StopsAtFirstFailure_of_error w ps _ _ err h1 rfl).1
      | none => exact StopsAtFirstFailure_append w ps _ _ _ h1 rfl h2
theorem StopsAtFirstFailure_writeFolders {ε : Type} (w : PageWriter ε) : ∀ (l : List Folder),
    StopsAtFirstFailure w (allPagesList l) (writeFoldersLoop w l)
  | [] => Or.inl ⟨by simp [allPagesList], rfl, rfl⟩
  | c :: cs => by
    have h1 := StopsAtFirstFailure_write w c
    have h2 := StopsAtFirstFailure_writeFolders w cs
    rw [writeFoldersLoop, allPagesList]
    cases hr : WriteChildrenHtmlToOutputhPath w c with
    | mk written res =>
      rw [hr] at h1
      cases res with
      | some err => exact (StopsAtFirstFailure_of_error w _ _ _ err h1 rfl).2
      | none => exact StopsAtFirstFailure_append w _ _ _ _ h1 rfl h2
end

/-- C13: WriteChildrenHtmlToOutputhPath invokes the write of the pages in pre-order and stops
at the first failure. It returns nil exactly when no write of a page of the tree fails, and
then every page of the tree was written once, in pre-order; otherwise the pages written are
those before the first page whose write fails, in pre-order, and that page, and the error
returned is the error of that write under stack traces. -/
theorem WriteChildrenHtmlToOutputhPath_stops_at_first_failure {ε : Type} (w : PageWriter ε)
    (f : Folder) :
    StopsAtFirstFailure w (allPages f) (WriteChildrenHtmlToOutputhPath w f) ∧
      ((WriteChildrenHtmlToOutputhPath w f).2 = none ↔
        ∀ p ∈ allPages f, w.WriteFullPageHtmlToOutputPath p = none) ∧
      (WriteChildrenHtmlToOutputhPath
          ⟨fun p => if p.Title = "Beta" then some "no space" else none, fun e => e⟩ siteTree =
        ([⟨7, "Home"⟩, ⟨1, "Zeta"⟩, ⟨2, "Overview"⟩, ⟨3, "Beta"⟩], some "no space")) := by
  have key := StopsAtFirstFailure_write w f
  refine ⟨key, ?_, by decide⟩
  constructor
  · intro hnone
    rcases key with ⟨a1, _, _⟩ | ⟨_, _, _, _, _, _, _, _, _, a5⟩
    · exact a1
    · rw [hnone] at a5
      exact absurd a5 (by simp)
  · intro hall
    rcases key with ⟨_, _, a3⟩ | ⟨before, q, after, err, _, b1, _, b3, _, _⟩
    · exact a3
    · have := hall q (by rw [b1]; simp)
      rw [b3] at this
      exact absurd this (by simp)

/-! ### The list of folders in the fragment -/

theorem getAsNavTreeHtmlAux_unfold (h : NavHelpers) (activePage : Page) (f : Folder) :
    f.getAsNavTreeHtmlAux h activePage =
      (listOpening (sortChildren h f) ++
          concatAll ((sortChildren h f).ChildFolders.map (fun c =>
            childFolderItem h activePage (sortChildren h f).IsRoot c
              (navTreeHtmlFuel h activePage (f.depth - 1) c).1)) ++
          listClosing (sortChildren h f),
        (sortChildren h f).setChildFolders
          ((sortChildren h f).ChildFolders.map (fun c =>
            (navTreeHtmlFuel h activePage (f.depth - 1) c).2))) := by
  have hunfold : f.getAsNavTreeHtmlAux h activePage =
      navTreeHtmlFuel h activePage (f.depth - 1 + 1) f := by
    unfold getAsNavTreeHtmlAux
    rw [depth_eq]
    rfl
  rw [hunfold, navTreeHtmlFuel_succ]

theorem IsRoot_sortChildren (h : NavHelpers) (f : Folder) : (sortChildren h f).IsRoot = f.IsRoot := by
  unfold sortChildren
  split <;> simp

theorem IsPackageFolder_sortChildren (h : NavHelpers) (f : Folder) :
    (sortChildren h f).IsPackageFolder = f.IsPackageFolder := by
  unfold sortChildren
  split <;> simp

theorem ChildFolders_sortChildren_perm (h : NavHelpers) (f : Folder)
    (hre : f.IsRoot = true →
      (h.reorderFoldersToMatchTopLevelFolderOrdering f.ChildFolders).Perm f.ChildFolders) :
    (sortChildren h f).ChildFolders.Perm f.ChildFolders := by
  unfold sortChildren
  split
  · rename_i hroot
    simpa using hre hroot
  · simpa using sortFolders_perm h.longSort f.ChildFolders

theorem childFolderItem_shape (h : NavHelpers) (activePage : Page) (isRoot : Bool) (c : Folder)
    (sub : String) :
    ∃ inner, childFolderItem h activePage isRoot c sub =
      "<li class='folder" ++ inner ++ "</li>" := by
  refine ⟨cssClassesOf isRoot c ++ "'><a href='#'>" ++
    (if !c.IsModuleFolder then h.convertDashesToSpacesAndCapitalize c.Name else c.Name) ++
    "</a>" ++ (if c.ChildPages.length > 0 then "<ul class='hidden'>" else "") ++
    pageItems h activePage c.ChildPages ++
    (if c.ChildPages.length > 0 then "</ul>" else "") ++ sub, ?_⟩
  unfold childFolderItem
  by_cases hp : c.ChildPages.length > 0 <;>
    simp only [hp, if_true, if_false, String.append_assoc, String.append_empty,
      String.empty_append]

/-- C12: for a folder with at least one child folder (at the root, with a reordering that
returns a rearrangement of the top-level folders), the fragment of getAsNavTreeHtmlAux is
`<ul class='hidden'>` when the folder is a package folder and `<ul>` otherwise, then one list
item for each folder of the sorted child list, which is a rearrangement of the child folders,
each item from `<li class='folder` to `</li>`, then `</ul>`. -/
theorem getAsNavTreeHtmlAux_folder_list (h : NavHelpers) (activePage : Page) (f : Folder)
    (hne : f.ChildFolders ≠ [])
    (hre : f.IsRoot = true →
      (h.reorderFoldersToMatchTopLevelFolderOrdering f.ChildFolders).Perm f.ChildFolders) :
    (sortChildren h f).ChildFolders.Perm f.ChildFolders ∧
      (f.getAsNavTreeHtmlAux h activePage).1 =
        (if f.IsPackageFolder then "<ul class='hidden'>" else "<ul>") ++
          concatAll ((sortChildren h f).ChildFolders.map (fun c =>
            childFolderItem h activePage f.IsRoot c
              (navTreeHtmlFuel h activePage (f.depth - 1) c).1)) ++
          "</ul>" ∧
      ∀ (c : Folder) (sub : String), ∃ inner,
        childFolderItem h activePage f.IsRoot c sub = "<li class='folder" ++ inner ++ "</li>" := by
  have hperm := ChildFolders_sortChildren_perm h f hre
  have hlen : 0 < (sortChildren h f).ChildFolders.length := by
    rw [hperm.length_eq]
    exact List.length_pos.2 hne
  refine ⟨hperm, ?_, fun c sub => childFolderItem_shape h activePage f.IsRoot c sub⟩
  rw [getAsNavTreeHtmlAux_unfold]
  have hopen : listOpening (sortChildren h f) =
      (if f.IsPackageFolder then "<ul class='hidden'>" else "<ul>") := by
    unfold listOpening
    rw [IsPackageFolder_sortChildren]
    cases f.IsPackageFolder <;> simp [hlen]
  have hclose : listClosing (sortChildren h f) = "</ul>" := by
    unfold listClosing
    simp [hlen]
  simp only [hopen, hclose, IsRoot_sortChildren]

/-- C12 at a package folder with the child folders `modules` and `examples`: the fragment
opens with the hidden list and holds the two items in sorted order. -/
theorem getAsNavTreeHtmlAux_folder_list_witness :
    (Folder.getAsNavTreeHtmlAux plainHelpers
        (Folder.mk "packages/vpc" "vpc" []
          [Folder.mk "packages/vpc/modules" "modules" [] [] false false false,
           Folder.mk "packages/vpc/examples" "examples" [] [] false false false]
          false true false) ⟨9, "Home"⟩).1 =
      "<ul class='hidden'><li class='folder'><a href='#'>examples</a></li>" ++
        "<li class='folder'><a href='#'>modules</a></li></ul>" := by
  rw [(getAsNavTreeHtmlAux_folder_list plainHelpers ⟨9, "Home"⟩
    (Folder.mk "packages/vpc" "vpc" []
      [Folder.mk "packages/vpc/modules" "modules" [] [] false false false,
       Folder.mk "packages/vpc/examples" "examples" [] [] false false false]
      false true false) (by simp [ChildFolders]) (by simp [IsRoot])).2.1]
  decide

/-! ### The pages of the folder that is rendered -/

theorem depth_setChildPages (f : Folder) (ps : List Page) : (f.setChildPages ps).depth = f.depth := by
  rw [depth_eq, depth_eq, ChildFolders_setChildPages]

theorem navTreeHtmlFuel_setChildPages (h : NavHelpers) (activePage : Page) (n : Nat)
    (f : Folder) (ps : List Page) :
    (navTreeHtmlFuel h activePage n (f.setChildPages ps)).1 =
      (navTreeHtmlFuel h activePage n f).1 := by
  cases n with
  | zero => rfl
  | succ n =>
    rw [navTreeHtmlFuel_succ, navTreeHtmlFuel_succ]
    have e1 : (sortChildren h (f.setChildPages ps)).ChildFolders =
        (sortChildren h f).ChildFolders := by
      unfold sortChildren
      simp only [IsRoot_setChildPages, ChildFolders_setChildPages]
      split <;> simp
    have e2 : listOpening (sortChildren h (f.setChildPages ps)) =
        listOpening (sortChildren h f) := by
      unfold listOpening
      rw [e1, IsPackageFolder_sortChildren, IsPackageFolder_sortChildren,
        IsPackageFolder_setChildPages]
    have e3 : listClosing (sortChildren h (f.setChildPages ps)) =
        listClosing (sortChildren h f) := by
      unfold listClosing
      rw [e1]
    simp only [e1, e2, e3, IsRoot_sortChildren, IsRoot_setChildPages]

/-- C20: for a folder without child folders (at the root, with a reordering that returns no
folder when it is given none) getAsNavTreeHtmlAux returns the empty fragment, whatever pages
the folder holds. More generally the fragment of a folder does not depend on the pages of that
folder, which are written only by the call on its parent: with any other list of pages in
their place the fragment is the same, so the pages of the root never appear in the fragment
of GetAsNavTreeHtml on the root. -/
theorem getAsNavTreeHtmlAux_ignores_own_pages (h : NavHelpers) (activePage : Page) (f : Folder)
    (hcs : f.ChildFolders = [])
    (hre : f.IsRoot = true → h.reorderFoldersToMatchTopLevelFolderOrdering [] = []) :
    (f.getAsNavTreeHtmlAux h activePage).1 = "" ∧
      (∀ pages : List Page, ((f.setChildPages pages).getAsNavTreeHtmlAux h activePage).1 = "") ∧
      ∀ (g : Folder) (pages : List Page),
        ((g.setChildPages pages).GetAsNavTreeHtml h activePage).1 =
          (g.GetAsNavTreeHtml h activePage).1 := by
  have hindep : ∀ (g : Folder) (pages : List Page),
      ((g.setChildPages pages).getAsNavTreeHtmlAux h activePage).1 =
        (g.getAsNavTreeHtmlAux h activePage).1 := by
    intro g pages
    unfold getAsNavTreeHtmlAux
    rw [depth_setChildPages]
    exact navTreeHtmlFuel_setChildPages h activePage _ g pages
  have hempty : (f.getAsNavTreeHtmlAux h activePage).1 = "" := by
    have hsorted : (sortChildren h f).ChildFolders = [] := by
      unfold sortChildren
      split
      · rename_i hroot
        simp [hcs, hre hroot]
      · simp [hcs, sortFolders, sortSort, insertionSort]
    rw [getAsNavTreeHtmlAux_unfold]
    simp [hsorted, listOpening, listClosing, concatAll]
  refine ⟨hempty, ?_, hindep⟩
  intro pages
  rw [hindep, hempty]

/-- C20 at a root folder that holds the pages Home and About and no folder. -/
theorem getAsNavTreeHtmlAux_ignores_own_pages_witness :
    (Folder.getAsNavTreeHtmlAux plainHelpers
      (Folder.mk "" "ROOT-FOLDER" [⟨7, "Home"⟩, ⟨8, "About"⟩] [] true false false)
      ⟨7, "Home"⟩).1 = "" :=
  (getAsNavTreeHtmlAux_ignores_own_pages plainHelpers ⟨7, "Home"⟩
    (Folder.mk "" "ROOT-FOLDER" [⟨7, "Home"⟩, ⟨8, "About"⟩] [] true false false) rfl
    (fun _ => rfl)).1

/-! ### The page items of the fragment -/

theorem concatAll_nil : concatAll [] = "" := rfl

theorem concatAll_cons (a : String) (l : List String) :
    concatAll (a :: l) = a ++ concatAll l := rfl

theorem concatAll_append (l l2 : List String) :
    concatAll (l ++ l2) = concatAll l ++ concatAll l2 := by
  induction l with
  | nil => simp [concatAll]
  | cons a rest ih => simp [concatAll, ih, String.append_assoc]

theorem concatAll_map_pageItem (h : NavHelpers) (activePage : Page) (pages : List Page) :
    concatAll (pages.map (pageItem h activePage)) = pageItems h activePage pages := by
  induction pages with
  | nil => rfl
  | cons p rest ih => simp [concatAll, pageItems, ih]

theorem concatAll_childFolderPieces (h : NavHelpers) (activePage : Page) (isRoot : Bool)
    (c : Folder) (sub : List String) :
    concatAll (childFolderPieces h activePage isRoot c sub) =
      childFolderItem h activePage isRoot c (concatAll sub) := by
  unfold childFolderPieces childFolderItem
  by_cases hp : c.ChildPages.length > 0 <;>
    simp only [hp, if_true, if_false, concatAll_append, concatAll_map_pageItem, concatAll_cons,
      concatAll_nil, String.append_assoc, String.append_empty, String.empty_append]

theorem concatAll_navTreePiecesFuel (h : NavHelpers) (activePage : Page) (n : Nat) (f : Folder) :
    concatAll (navTreePiecesFuel h activePage n f) = (navTreeHtmlFuel h activePage n f).1 := by
  induction n generalizing f with
  | zero => rfl
  | succ n ih =>
    rw [navTreeHtmlFuel_succ, navTreePiecesFuel]
    have hitems : ∀ (l : List Folder) (r : Bool),
        concatAll (l.flatMap (fun c =>
          childFolderPieces h activePage r c (navTreePiecesFuel h activePage n c))) =
        concatAll (l.map (fun c =>
          childFolderItem h activePage r c (navTreeHtmlFuel h activePage n c).1)) := by
      intro l r
      induction l with
      | nil => rfl
      | cons c cs ihl =>
        simp only [List.flatMap_cons, List.map_cons, concatAll_append, concatAll_cons,
          concatAll_childFolderPieces, ih, ihl]
    by_cases hlen : (sortChildren h f).ChildFolders.length > 0
    · simp only [hlen, if_true, concatAll_append, hitems, concatAll_cons, concatAll_nil,
        String.append_empty]
    · have hnil : (sortChildren h f).ChildFolders = [] := by
        cases hcs : (sortChildren h f).ChildFolders with
        | nil => rfl
        | cons a rest => simp [hcs] at hlen
      simp [hnil, listOpening, listClosing, concatAll]

theorem hasPrefixChars_append_self (m rest : List Char) : hasPrefixChars (m ++ rest) m = true := by
  induction m with
  | nil => cases rest <;> rfl
  | cons c cs ih => simp [hasPrefixChars, ih]

theorem hasPrefixChars_append_of_mismatch (a b m : List Char)
    (h : hasPrefixChars a (m.take a.length) = false) : hasPrefixChars (a ++ b) m = false := by
  induction a generalizing m with
  | nil =>
    cases m <;> simp [hasPrefixChars] at h
  | cons c cs ih =>
    cases m with
    | nil => simp [hasPrefixChars] at h
    | cons d ds =>
      simp only [List.length_cons, List.take_succ_cons, hasPrefixChars] at h
      simp only [List.cons_append, hasPrefixChars]
      by_cases hcd : c = d
      · rw [if_pos hcd] at h ⊢
        exact ih ds h
      · rw [if_neg hcd]

theorem isActiveItem_pageItem (h : NavHelpers) (activePage p : Page) :
    isActiveItem (pageItem h activePage p) = decide (p.addr = activePage.addr) := by
  unfold pageItem isActiveItem stringsHasPrefix
  by_cases hp : p.addr = activePage.addr
  · simp only [hp, if_true, String.data_append, List.append_assoc, decide_True]
    exact hasPrefixChars_append_self _ _
  · simp only [hp, if_false, String.data_append, List.append_assoc, decide_False]
    exact hasPrefixChars_append_of_mismatch _ _ _ (by decide)

theorem countP_isActiveItem_map_pageItem (h : NavHelpers) (activePage : Page)
    (pages : List Page) :
    (pages.map (pageItem h activePage)).countP isActiveItem =
      pages.countP (fun p => decide (p.addr = activePage.addr)) := by
  induction pages with
  | nil => rfl
  | cons p rest ih =>
    simp only [List.map_cons, List.countP_cons, ih, isActiveItem_pageItem]

theorem countP_isActiveItem_childFolderPieces (h : NavHelpers) (activePage : Page)
    (isRoot : Bool) (c : Folder) (sub : List String) :
    (childFolderPieces h activePage isRoot c sub).countP isActiveItem =
      c.ChildPages.countP (fun p => decide (p.addr = activePage.addr)) +
        sub.countP isActiveItem := by
  have hopen : isActiveItem ("<li class='folder" ++ cssClassesOf isRoot c ++ "'><a href='#'>" ++
      (if !c.IsModuleFolder then h.convertDashesToSpacesAndCapitalize c.Name else c.Name) ++
      "</a>") = false := by
    unfold isActiveItem stringsHasPrefix
    simp only [String.data_append, List.append_assoc]
    exact hasPrefixChars_append_of_mismatch _ _ _ (by decide)
  have h1 : isActiveItem "<ul class='hidden'>" = false := by decide
  have h2 : isActiveItem "</ul>" = false := by decide
  have h3 : isActiveItem "</li>" = false := by decide
  unfold childFolderPieces
  by_cases hp : c.ChildPages.length > 0
  · simp only [hp, if_true, List.countP_append, List.countP_cons, List.countP_nil, hopen, h1,
      h2, h3, countP_isActiveItem_map_pageItem, Bool.false_eq_true, if_false]
    omega
  · simp only [hp, if_false, List.countP_append, List.countP_cons, List.countP_nil, hopen, h3,
      countP_isActiveItem_map_pageItem, Bool.false_eq_true]
    omega

theorem allPages_eq (f : Folder) : allPages f = f.ChildPages ++ allPagesList f.ChildFolders := by
  cases f
  rw [allPages]
  rfl

theorem allPagesList_perm (l l2 : List Folder) (hperm : l.Perm l2) :
    (allPagesList l).Perm (allPagesList l2) := by
  induction hperm with
  | nil => exact List.Perm.refl _
  | cons c _ ih =>
    simp only [allPagesList]
    exact List.Perm.append_left _ ih
  | swap c d l =>
    simp only [allPagesList, ← List.append_assoc]
    exact List.Perm.append_right _ List.perm_append_comm
  | trans _ _ ih1 ih2 => exact ih1.trans ih2

theorem isActiveItem_listOpening (f : Folder) : isActiveItem (listOpening f) = false := by
  unfold listOpening
  split
  · decide
  · split <;> decide

theorem isActiveItem_listClosing (f : Folder) : isActiveItem (listClosing f) = false := by
  unfold listClosing
  split <;> decide

theorem countP_isActiveItem_navTreePiecesFuel (h : NavHelpers) (activePage : Page)
    (hre : h.ReorderIsPerm) (n : Nat) (f : Folder) (hn : f.depth ≤ n) :
    (navTreePiecesFuel h activePage n f).countP isActiveItem =
      (allPagesList f.ChildFolders).countP (fun p => decide (p.addr = activePage.addr)) := by
  induction n generalizing f with
  | zero =>
    rw [depth_eq] at hn
    omega
  | succ n ih =>
    have hperm : (sortChildren h f).ChildFolders.Perm f.ChildFolders :=
      ChildFolders_sortChildren_perm h f (fun _ => hre f.ChildFolders)
    have hitems : ∀ (l : List Folder) (r : Bool), (∀ c ∈ l, c.depth ≤ n) →
        (l.flatMap (fun c => childFolderPieces h activePage r c
          (navTreePiecesFuel h activePage n c))).countP isActiveItem =
        (allPagesList l).countP (fun p => decide (p.addr = activePage.addr)) := by
      intro l r hl
      induction l with
      | nil => rfl
      | cons c cs ihl =>
        simp only [List.flatMap_cons, List.countP_append, allPagesList,
          countP_isActiveItem_childFolderPieces, ih c (hl c (by simp)),
          ihl (fun d hd => hl d (by simp [hd])), allPages_eq, Nat.add_assoc]
    have hdepth : ∀ c ∈ (sortChildren h f).ChildFolders, c.depth ≤ n := by
      intro c hc
      have := depth_le_depthList _ c (hperm.subset hc)
      rw [depth_eq] at hn
      omega
    rw [navTreePiecesFuel]
    simp only [List.countP_append, hitems _ _ hdepth]
    rw [(allPagesList_perm _ _ hperm).countP_eq]
    split <;> simp [List.countP_cons, isActiveItem_listOpening, isActiveItem_listClosing]

/-- C11: every page of a rendered child folder is written as one list item, in the stored
order of the pages: the item is the highlighted form `<a class='active' href='#'>` exactly
when the page is the active page, and otherwise the link whose `href` is
`activePage.GetRelPathToPage` of the page. With a reordering that returns a rearrangement of
the top-level folders, the fragment is made of its pieces, and the number of pieces that are
a highlighted item is the number of times the active page occurs in the folders below the
folder rendered: one when the active page is a page of such a folder, every page being in one
folder. -/
theorem getAsNavTreeHtmlAux_page_items (h : NavHelpers) (activePage : Page) (f : Folder)
    (hre : h.ReorderIsPerm) :
    (∀ p : Page, pageItem h activePage p =
        if p.addr = activePage.addr then
          "<li class='page'><a class='active' href='#'>" ++
            h.convertDashesToSpacesAndCapitalize p.Title ++ "</a></li>"
        else
          "<li class='page'><a href='" ++ h.GetRelPathToPage activePage p ++ "'>" ++
            h.convertDashesToSpacesAndCapitalize p.Title ++ "</a></li>") ∧
      (∀ p : Page, isActiveItem (pageItem h activePage p) = true ↔ p.addr = activePage.addr) ∧
      (∀ (c : Folder) (sub : String), childFolderItem h activePage f.IsRoot c sub =
        "<li class='folder" ++ cssClassesOf f.IsRoot c ++ "'><a href='#'>" ++
          (if !c.IsModuleFolder then h.convertDashesToSpacesAndCapitalize c.Name else c.Name) ++
          "</a>" ++ (if c.ChildPages.length > 0 then "<ul class='hidden'>" else "") ++
          concatAll (c.ChildPages.map (pageItem h activePage)) ++
          (if c.ChildPages.length > 0 then "</ul>" else "") ++ sub ++ "</li>") ∧
      concatAll (fragmentPieces h f activePage) = (f.getAsNavTreeHtmlAux h activePage).1 ∧
      (fragmentPieces h f activePage).countP isActiveItem =
        (allPagesList f.ChildFolders).countP (fun p => decide (p.addr = activePage.addr)) := by
  refine ⟨fun p => rfl, ?_, ?_, concatAll_navTreePiecesFuel h activePage _ f,
    countP_isActiveItem_navTreePiecesFuel h activePage hre _ f (Nat.le_refl _)⟩
  · intro p
    rw [isActiveItem_pageItem]
    simp
  · intro c sub
    unfold childFolderItem
    rw [concatAll_map_pageItem]
    by_cases hp : c.ChildPages.length > 0 <;>
      simp only [hp, if_true, if_false, String.append_assoc, String.append_empty,
        String.empty_append]

/-- C11 on the tree with the folders `docs` and `api`, the active page being the page
Overview of `docs`: one piece of the fragment is a highlighted item. -/
theorem getAsNavTreeHtmlAux_page_items_witness :
    plainHelpers.ReorderIsPerm ∧
      (fragmentPieces plainHelpers siteTree ⟨2, "Overview"⟩).countP isActiveItem = 1 ∧
      pageItem plainHelpers ⟨2, "Overview"⟩ ⟨2, "Overview"⟩ =
        "<li class='page'><a class='active' href='#'>Overview</a></li>" ∧
      pageItem plainHelpers ⟨2, "Overview"⟩ ⟨3, "Beta"⟩ =
        "<li class='page'><a href='Beta'>Beta</a></li>" := by
  have key := getAsNavTreeHtmlAux_page_items plainHelpers ⟨2, "Overview"⟩ siteTree
    (fun l => List.Perm.refl l)
  refine ⟨fun l => List.Perm.refl l, ?_, by decide, by decide⟩
  rw [key.2.2.2.2]
  decide

/-! ### Rendering twice in succession -/

theorem Name_sortChildren (h : NavHelpers) (f : Folder) : (sortChildren h f).Name = f.Name := by
  unfold sortChildren
  split <;> simp

theorem Name_navTreeHtmlFuel (h : NavHelpers) (activePage : Page) (n : Nat) (f : Folder) :
    (navTreeHtmlFuel h activePage n f).2.Name = f.Name := by
  cases n with
  | zero => rfl
  | succ n => rw [navTreeHtmlFuel_succ, Name_setChildFolders, Name_sortChildren]

theorem IsRoot_navTreeHtmlFuel (h : NavHelpers) (activePage : Page) (n : Nat) (f : Folder) :
    (navTreeHtmlFuel h activePage n f).2.IsRoot = f.IsRoot := by
  cases n with
  | zero => rfl
  | succ n => rw [navTreeHtmlFuel_succ, IsRoot_setChildFolders, IsRoot_sortChildren]

@[simp] theorem IsModuleFolder_setChildFolders (f : Folder) (cs : List Folder) :
    (f.setChildFolders cs).IsModuleFolder = f.IsModuleFolder := by
  cases f; rfl

@[simp] theorem IsModuleFolder_setChildPages (f : Folder) (ps : List Page) :
    (f.setChildPages ps).IsModuleFolder = f.IsModuleFolder := by
  cases f; rfl

theorem IsModuleFolder_sortChildren (h : NavHelpers) (f : Folder) :
    (sortChildren h f).IsModuleFolder = f.IsModuleFolder := by
  unfold sortChildren
  split <;> simp

theorem ChildPages_sortChildren (h : NavHelpers) (f : Folder) :
    (sortChildren h f).ChildPages = sortPages h.longSort f.ChildPages := by
  unfold sortChildren
  split <;> simp

theorem IsPackageFolder_navTreeHtmlFuel (h : NavHelpers) (activePage : Page) (n : Nat)
    (f : Folder) : (navTreeHtmlFuel h activePage n f).2.IsPackageFolder = f.IsPackageFolder := by
  cases n with
  | zero => rfl
  | succ n =>
    rw [navTreeHtmlFuel_succ, IsPackageFolder_setChildFolders, IsPackageFolder_sortChildren]

theorem IsModuleFolder_navTreeHtmlFuel (h : NavHelpers) (activePage : Page) (n : Nat)
    (f : Folder) : (navTreeHtmlFuel h activePage n f).2.IsModuleFolder = f.IsModuleFolder := by
  cases n with
  | zero => rfl
  | succ n =>
    rw [navTreeHtmlFuel_succ, IsModuleFolder_setChildFolders, IsModuleFolder_sortChildren]

theorem ChildPages_navTreeHtmlFuel_of_kept (h : NavHelpers) (activePage : Page) (n : Nat)
    (f : Folder) (hkept : sortPages h.longSort f.ChildPages = f.ChildPages) :
    (navTreeHtmlFuel h activePage n f).2.ChildPages = f.ChildPages := by
  cases n with
  | zero => rfl
  | succ n => rw [navTreeHtmlFuel_succ, ChildPages_setChildFolders, ChildPages_sortChildren, hkept]

theorem childPagesKeptList_iff (longSort : LongSliceSort) (l : List Folder) :
    childPagesKeptList longSort l ↔
      ∀ c ∈ l, sortPages longSort c.ChildPages = c.ChildPages ∧ ChildPagesKept longSort c := by
  induction l with
  | nil => simp [childPagesKeptList]
  | cons c cs ih => simp [childPagesKeptList, ih, and_assoc]

theorem ChildPagesKept_iff (longSort : LongSliceSort) (f : Folder) :
    ChildPagesKept longSort f ↔ f.IsRoot = false ∧
      ∀ c ∈ f.ChildFolders,
        sortPages longSort c.ChildPages = c.ChildPages ∧ ChildPagesKept longSort c := by
  cases f with
  | mk p n ps cs r pk m =>
    rw [ChildPagesKept, childPagesKeptList_iff]
    rfl

theorem childPagesInOrderList_iff (l : List Folder) :
    childPagesInOrderList l ↔
      ∀ c ∈ l, c.ChildPages.Pairwise (fun a b => pageLess b a = false) ∧
        ChildPagesInOrder c := by
  induction l with
  | nil => simp [childPagesInOrderList]
  | cons c cs ih => simp [childPagesInOrderList, ih, and_assoc]

theorem ChildPagesInOrder_iff (f : Folder) :
    ChildPagesInOrder f ↔ f.IsRoot = false ∧
      ∀ c ∈ f.ChildFolders, c.ChildPages.Pairwise (fun a b => pageLess b a = false) ∧
        ChildPagesInOrder c := by
  cases f with
  | mk p n ps cs r pk m =>
    rw [ChildPagesInOrder, childPagesInOrderList_iff]
    rfl

mutual
theorem ChildPagesKept_of_inOrder (longSort : LongSliceSort)
    (hkeeps : longSort.KeepsOrderedSlices) :
    ∀ f : Folder, ChildPagesInOrder f → ChildPagesKept longSort f
  | mk _ _ _ cs r _ _, hf => by
    rw [ChildPagesInOrder] at hf
    rw [ChildPagesKept]
    exact ⟨hf.1, childPagesKeptList_of_inOrder longSort hkeeps cs hf.2⟩
theorem childPagesKeptList_of_inOrder (longSort : LongSliceSort)
    (hkeeps : longSort.KeepsOrderedSlices) :
    ∀ l : List Folder, childPagesInOrderList l → childPagesKeptList longSort l
  | [], _ => by
    rw [childPagesKeptList]
    trivial
  | c :: cs, hl => by
    rw [childPagesInOrderList] at hl
    rw [childPagesKeptList]
    exact ⟨sortPages_eq_self_of_pairwise longSort hkeeps _ hl.1,
      ChildPagesKept_of_inOrder longSort hkeeps c hl.2.1,
      childPagesKeptList_of_inOrder longSort hkeeps cs hl.2.2⟩
end

theorem childFolderItem_congr_fields (h : NavHelpers) (activePage : Page) (isRoot : Bool)
    (c d : Folder) (sub : String) (hname : c.Name = d.Name)
    (hpk : c.IsPackageFolder = d.IsPackageFolder) (hm : c.IsModuleFolder = d.IsModuleFolder)
    (hps : c.ChildPages = d.ChildPages) :
    childFolderItem h activePage isRoot c sub = childFolderItem h activePage isRoot d sub := by
  unfold childFolderItem cssClassesOf
  rw [hname, hpk, hm, hps]

theorem depthList_map_of_depth_eq (l : List Folder) (r : Folder → Folder)
    (hr : ∀ c ∈ l, (r c).depth = c.depth) : depthList (l.map r) = depthList l := by
  induction l with
  | nil => rfl
  | cons c rest ih =>
    rw [List.map_cons, depthList, depthList, hr c (by simp),
      ih (fun d hd => hr d (by simp [hd]))]

theorem depthList_perm (l l2 : List Folder) (hp : l.Perm l2) : depthList l = depthList l2 :=
  Nat.le_antisymm (depthList_le_of_subset l l2 (fun _ hc => hp.subset hc))
    (depthList_le_of_subset l2 l (fun _ hc => hp.symm.subset hc))

theorem listOpening_congr (f g : Folder) (hlen : g.ChildFolders.length = f.ChildFolders.length)
    (hpk : g.IsPackageFolder = f.IsPackageFolder) : listOpening g = listOpening f := by
  unfold listOpening
  rw [hlen, hpk]

theorem listClosing_congr (f g : Folder) (hlen : g.ChildFolders.length = f.ChildFolders.length) :
    listClosing g = listClosing f := by
  unfold listClosing
  rw [hlen]

/-- The fragment of a folder that is not the root, one level unfolded. -/
theorem navTreeHtmlFuel_succ_fst_of_not_root (h : NavHelpers) (activePage : Page) (n : Nat)
    (f : Folder) (hroot : f.IsRoot = false) :
    (navTreeHtmlFuel h activePage (n + 1) f).1 =
      listOpening f ++
        concatAll ((sortFolders h.longSort f.ChildFolders).map (fun c =>
          childFolderItem h activePage false c (navTreeHtmlFuel h activePage n c).1)) ++
        listClosing f := by
  have hlen : (sortFolders h.longSort f.ChildFolders).length = f.ChildFolders.length :=
    (sortFolders_perm h.longSort f.ChildFolders).length_eq
  rw [navTreeHtmlFuel_succ,
    listOpening_congr f (sortChildren h f)
      (by rw [sortChildren_of_not_root h f hroot]; simpa using hlen)
      (IsPackageFolder_sortChildren h f),
    listClosing_congr f (sortChildren h f)
      (by rw [sortChildren_of_not_root h f hroot]; simpa using hlen),
    IsRoot_sortChildren, hroot]
  simp [sortChildren_of_not_root h f hroot]

/-- The child folders stored by the render of a folder that is not the root. -/
theorem navTreeHtmlFuel_succ_ChildFolders_of_not_root (h : NavHelpers) (activePage : Page)
    (n : Nat) (f : Folder) (hroot : f.IsRoot = false) :
    (navTreeHtmlFuel h activePage (n + 1) f).2.ChildFolders =
      (sortFolders h.longSort f.ChildFolders).map (fun c =>
        (navTreeHtmlFuel h activePage n c).2) := by
  rw [navTreeHtmlFuel_succ]
  simp [sortChildren_of_not_root h f hroot]

theorem eq_of_perm_of_map_eq_of_nodup {α β : Type} (g : α → β) (l l2 : List α)
    (hperm : l2.Perm l) (hmap : l2.map g = l.map g) (hnd : (l.map g).Nodup) : l2 = l := by
  induction l generalizing l2 with
  | nil => exact List.Perm.eq_nil hperm
  | cons a t ih =>
    cases l2 with
    | nil => exact absurd hperm.symm.eq_nil (by simp)
    | cons a2 t2 =>
      rw [List.map_cons, List.map_cons, List.cons.injEq] at hmap
      rw [List.map_cons, List.nodup_cons] at hnd
      have ha : a2 = a := by
        rcases List.mem_cons.1 (hperm.subset (List.mem_cons_self a2 t2)) with h | h
        · exact h
        · exact absurd (hmap.1 ▸ List.mem_map_of_mem g h) hnd.1
      subst ha
      rw [ih t2 (List.Perm.cons_inv hperm) hmap.2 hnd.2]

/-- A list of folders of distinct Names that is ascending by Name is left as it is by
sortFolders when the sort of long slices sorts: it is the one rearrangement of the list that
is ascending. -/
theorem sortFolders_eq_self_of_sorted_of_nodup (longSort : LongSliceSort)
    (hsorts : longSort.SortsStrictWeakOrders) (folders : List Folder)
    (hsorted : folders.Pairwise (fun a b => folderLess b a = false))
    (hnd : (folders.map Folder.Name).Nodup) : sortFolders longSort folders = folders := by
  have hperm := sortFolders_perm longSort folders
  apply eq_of_perm_of_map_eq_of_nodup Folder.Name _ _ hperm _ hnd
  apply List.eq_of_perm_of_sorted (r := fun a b : String => a ≤ b) (hperm.map Folder.Name)
  · exact (List.pairwise_map).2 (sortFolders_pairwise longSort hsorts folders)
  · refine (List.pairwise_map).2 (hsorted.imp ?_)
    intro a b hab
    exact (stringLess_eq_false_iff _ _).1 hab

/-- Two renders in succession, with bounds on the recursion: on a tree without a folder
flagged as the root in which sortPages leaves the child pages of every folder below `f` as
they are, the render keeps the depth of the tree, and with a sort of long slices that sorts,
and that keeps a slice that is in order unless sibling folders have distinct Names, the
render of the tree left by a render gives the fragment of that render. -/
theorem navTreeHtmlFuel_twice (h : NavHelpers) (activePage : Page)
    (hsorts : h.longSort.SortsStrictWeakOrders) (n : Nat) (f : Folder)
    (hkeeps : h.longSort.KeepsOrderedSlices ∨ UniqueSiblingNames f)
    (hf : ChildPagesKept h.longSort f) :
    (navTreeHtmlFuel h activePage n f).2.depth = f.depth ∧
      (f.depth ≤ n → ∀ m, f.depth ≤ m →
        (navTreeHtmlFuel h activePage m (navTreeHtmlFuel h activePage n f).2).1 =
          (navTreeHtmlFuel h activePage n f).1) := by
  induction n generalizing f with
  | zero =>
    refine ⟨rfl, ?_⟩
    intro hn
    rw [depth_eq] at hn
    omega
  | succ n ih =>
    obtain ⟨hroot, hchildren⟩ := (ChildPagesKept_iff _ f).1 hf
    have hperm := sortFolders_perm h.longSort f.ChildFolders
    have hmem : ∀ c ∈ sortFolders h.longSort f.ChildFolders, c ∈ f.ChildFolders :=
      fun c hc => hperm.subset hc
    have hkeepsc : ∀ c ∈ f.ChildFolders,
        h.longSort.KeepsOrderedSlices ∨ UniqueSiblingNames c := by
      intro c hc
      rcases hkeeps with hk | hu
      · exact Or.inl hk
      · exact Or.inr (((UniqueSiblingNames_iff f).1 hu).2 c hc)
    have hcs := navTreeHtmlFuel_succ_ChildFolders_of_not_root h activePage n f hroot
    have hdepth : (navTreeHtmlFuel h activePage (n + 1) f).2.depth = f.depth := by
      rw [depth_eq, depth_eq f, hcs,
        depthList_map_of_depth_eq _ _
          (fun c hc => (ih c (hkeepsc c (hmem c hc)) (hchildren c (hmem c hc)).2).1),
        depthList_perm _ _ hperm]
    refine ⟨hdepth, ?_⟩
    intro hn m hm
    cases m with
    | zero =>
      rw [depth_eq] at hm
      omega
    | succ m =>
      have hgroot : (navTreeHtmlFuel h activePage (n + 1) f).2.IsRoot = false := by
        rw [IsRoot_navTreeHtmlFuel, hroot]
      have hsorted : ((sortFolders h.longSort f.ChildFolders).map (fun c =>
          (navTreeHtmlFuel h activePage n c).2)).Pairwise
          (fun a b => folderLess b a = false) := by
        rw [List.pairwise_map]
        refine (sortFolders_sorted h.longSort hsorts f.ChildFolders).imp ?_
        intro a b hab
        unfold folderLess at hab ⊢
        rw [Name_navTreeHtmlFuel, Name_navTreeHtmlFuel]
        exact hab
      have hnames : ((sortFolders h.longSort f.ChildFolders).map (fun c =>
          (navTreeHtmlFuel h activePage n c).2)).map Folder.Name =
          (sortFolders h.longSort f.ChildFolders).map Folder.Name := by
        rw [List.map_map]
        apply List.map_congr_left
        intro c _
        exact Name_navTreeHtmlFuel h activePage n c
      have hresort : sortFolders h.longSort ((sortFolders h.longSort f.ChildFolders).map
          (fun c => (navTreeHtmlFuel h activePage n c).2)) =
          (sortFolders h.longSort f.ChildFolders).map
            (fun c => (navTreeHtmlFuel h activePage n c).2) := by
        rcases hkeeps with hk | hu
        · exact sortFolders_eq_self_of_sorted h.longSort hk _ hsorted
        · apply sortFolders_eq_self_of_sorted_of_nodup h.longSort hsorts _ hsorted
          rw [hnames]
          exact ((hperm.map Folder.Name).nodup_iff).2 ((UniqueSiblingNames_iff f).1 hu).1
      have hlen : (navTreeHtmlFuel h activePage (n + 1) f).2.ChildFolders.length =
          f.ChildFolders.length := by
        rw [hcs, List.length_map, hperm.length_eq]
      rw [navTreeHtmlFuel_succ_fst_of_not_root h activePage m _ hgroot,
        navTreeHtmlFuel_succ_fst_of_not_root h activePage n f hroot,
        listOpening_congr f _ hlen (IsPackageFolder_navTreeHtmlFuel h activePage _ f),
        listClosing_congr f _ hlen, hcs, hresort, List.map_map]
      congr 2
      congr 1
      apply List.map_congr_left
      intro c hc
      have hc2 := hmem c hc
      have hcd := depth_le_depthList _ c hc2
      rw [depth_eq] at hn hm
      simp only [Function.comp_apply]
      rw [(ih c (hkeepsc c hc2) (hchildren c hc2).2).2 (by omega) m (by omega)]
      exact childFolderItem_congr_fields h activePage false _ c _
        (Name_navTreeHtmlFuel h activePage n c)
        (IsPackageFolder_navTreeHtmlFuel h activePage n c)
        (IsModuleFolder_navTreeHtmlFuel h activePage n c)
        (ChildPages_navTreeHtmlFuel_of_kept h activePage n c (hchildren c hc2).1)

/-- C21, as stated, fails. On the folder `lib`, not the root, whose child folder `docs` got
the pages Zeta, Overview, Beta in this order, the first call lists the pages as they are
stored and the second call as the first call sorted them. On a folder whose child folder
holds two pages titled `Overview`, every call exchanges the two pages, so the second call
differs from the first and the third from the second. -/
theorem getAsNavTreeHtmlAux_second_call_differs :
    (libTree.getAsNavTreeHtmlAux plainHelpers ⟨9, "Home"⟩).1 ≠
        ((libTree.getAsNavTreeHtmlAux plainHelpers ⟨9, "Home"⟩).2.getAsNavTreeHtmlAux
          plainHelpers ⟨9, "Home"⟩).1 ∧
      (twoOverviewsTree.getAsNavTreeHtmlAux plainHelpers ⟨1, "Overview"⟩).1 ≠
        ((twoOverviewsTree.getAsNavTreeHtmlAux plainHelpers ⟨1, "Overview"⟩).2.getAsNavTreeHtmlAux
          plainHelpers ⟨1, "Overview"⟩).1 ∧
      ((twoOverviewsTree.getAsNavTreeHtmlAux plainHelpers ⟨1, "Overview"⟩).2.getAsNavTreeHtmlAux
          plainHelpers ⟨1, "Overview"⟩).1 ≠
        (((twoOverviewsTree.getAsNavTreeHtmlAux plainHelpers
          ⟨1, "Overview"⟩).2.getAsNavTreeHtmlAux plainHelpers
          ⟨1, "Overview"⟩).2.getAsNavTreeHtmlAux plainHelpers ⟨1, "Overview"⟩).1 := by
  decide

/-- C21, amended: rendering is repeatable when sorting leaves the pages that are written as
they are. With a sort of long slices that sorts by a strict weak ordering, on every tree
without a folder flagged as the root in which sortPages leaves the child pages of every
folder below the rendered one as they are, and in which no folder has two child folders of
the same Name or else the sort of long slices leaves a slice that is in order as it is, two
calls of getAsNavTreeHtmlAux in succession return the identical fragment, for every active
page and whatever the order of the child folders. With a sort of long slices that leaves a
slice that is in order as it is, sortPages leaves the pages so in every tree in which no
child page is less, by Pages.Less, than a page stored before it. -/
theorem getAsNavTreeHtmlAux_repeatable_when_pages_kept (h : NavHelpers) (activePage : Page)
    (f : Folder) (hsorts : h.longSort.SortsStrictWeakOrders)
    (hkeeps : h.longSort.KeepsOrderedSlices ∨ UniqueSiblingNames f)
    (hf : ChildPagesKept h.longSort f) :
    ((f.getAsNavTreeHtmlAux h activePage).2.getAsNavTreeHtmlAux h activePage).1 =
        (f.getAsNavTreeHtmlAux h activePage).1 ∧
      (h.longSort.KeepsOrderedSlices →
        ∀ g : Folder, ChildPagesInOrder g → ChildPagesKept h.longSort g) := by
  refine ⟨?_, fun hk g hg => ChildPagesKept_of_inOrder h.longSort hk g hg⟩
  have key := navTreeHtmlFuel_twice h activePage hsorts f.depth f hkeeps hf
  unfold getAsNavTreeHtmlAux
  exact key.2 (Nat.le_refl _) _ (Nat.le_of_eq key.1.symm)

set_option maxRecDepth 100000 in
/-- C21, amended, on the folder `lib` whose child folders were added as zeta, then Alpha, with
the pages of each in order: the insertion sort sorts, the sibling folders have distinct
Names, the pages of both child folders are left as they are by sortPages, and the second call
returns the fragment of the first, which lists Alpha before zeta. -/
theorem getAsNavTreeHtmlAux_repeatable_when_pages_kept_witness :
    plainHelpers.longSort.SortsStrictWeakOrders ∧ UniqueSiblingNames zetaAlphaTree ∧
      ChildPagesKept plainHelpers.longSort zetaAlphaTree ∧
      ((zetaAlphaTree.getAsNavTreeHtmlAux plainHelpers ⟨9, "Home"⟩).2.getAsNavTreeHtmlAux
          plainHelpers ⟨9, "Home"⟩).1 =
        (zetaAlphaTree.getAsNavTreeHtmlAux plainHelpers ⟨9, "Home"⟩).1 ∧
      (zetaAlphaTree.getAsNavTreeHtmlAux plainHelpers ⟨9, "Home"⟩).1 =
        "<ul><li class='folder'><a href='#'>Alpha</a><ul class='hidden'>" ++
          "<li class='page'><a href='Index'>Index</a></li></ul></li>" ++
          "<li class='folder'><a href='#'>zeta</a><ul class='hidden'>" ++
          "<li class='page'><a href='Overview'>Overview</a></li>" ++
          "<li class='page'><a href='Beta'>Beta</a></li></ul></li></ul>" := by
  have hkept : ChildPagesKept plainHelpers.longSort zetaAlphaTree := by
    rw [ChildPagesKept_iff]
    refine ⟨rfl, ?_⟩
    intro c hc
    simp only [zetaAlphaTree, ChildFolders_mk, List.mem_cons, List.mem_singleton,
      List.not_mem_nil, or_false] at hc
    rcases hc with rfl | rfl
    · exact ⟨by decide, (ChildPagesKept_iff _ _).2 ⟨rfl, by simp⟩⟩
    · exact ⟨by decide, (ChildPagesKept_iff _ _).2 ⟨rfl, by simp⟩⟩
  have hunique : UniqueSiblingNames zetaAlphaTree := by
    simp [zetaAlphaTree, UniqueSiblingNames, uniqueSiblingNamesList]
  exact ⟨insertionLongSliceSort_sortsStrictWeakOrders, hunique, hkept,
    (getAsNavTreeHtmlAux_repeatable_when_pages_kept plainHelpers ⟨9, "Home"⟩ zetaAlphaTree
      insertionLongSliceSort_sortsStrictWeakOrders (Or.inr hunique) hkept).1,
    by decide⟩

end Folder

end Nav
